import Mathlib

/-!
# AliJetFlowTools: a shallow embedding of the jet-flow unfolding tool chain

Source: `PWG/FLOW/Tasks/AliJetFlowTools.cxx`; the isolation decision of
`PWG/CaloTrackCorrBase/AliIsolationCut.cxx` is embedded in the namespace
`AliIsolationCut`.

Conventions of the embedding.

* `Double_t` arithmetic is exact arithmetic in a field `α`; the library
  functions `TMath::Sqrt` and `TMath::Pi` are passed in as `sqrt` and `pi`.
  Where a `Double_t` value is stored in a `Float_t` local it is rounded to
  single precision (`Float_t`).
* A C++ `for (Int_t i(0); i < n; i++) body` loop is `forLoop n body`, which
  threads the loop state through the iterations `0, 1, ..., n-1`.
* Histograms and matrices are their dimensions together with their cells;
  bin numbers follow the histogram library: bin `0` is the underflow bin,
  bins `1..n` are the in-range bins, bin `n+1` is the overflow bin.
* What a routine gets from outside the source files (the chi-square solver,
  a fit, the SVD library, the event reader) is a parameter of its embedding.
-/

namespace AliJetFlowTools

/-! ## Loops -/

/-- The loop `for (i = 0; i < n; i++) s = body i s`, started in state `init`. -/
def forLoop {σ : Type} (n : Nat) (body : Nat → σ → σ) (init : σ) : σ :=
  match n with
  | 0 => init
  | k + 1 => body k (forLoop k body init)

/-! ## TMatrixD -/

/-- A `TMatrixD`: row and column counts and the elements `(row, col)`. -/
structure TMatrixD (α : Type) where
  nrows : Nat
  ncols : Nat
  elem : Nat → Nat → α

/-- The assignment `(*m)(row, col) = v`. -/
def TMatrixD.assign {α : Type} (m : TMatrixD α) (row col : Nat) (v : α) : TMatrixD α :=
  { m with elem := fun r c => if r = row ∧ c = col then v else m.elem r c }

/-- `AliJetFlowTools::CalculatePearsonCoefficients`.  The local `pearson` is
declared once, before both loops, and is assigned only when both diagonal
entries are nonzero; the element `(row, col)` is then set to `pearson`.
The loop state is the pair (result matrix, `pearson`). -/
def CalculatePearsonCoefficients {α : Type} [Field α] [DecidableEq α]
    (sqrt : α → α) (covarianceMatrix : TMatrixD α) : Option (TMatrixD α) :=
  if covarianceMatrix.nrows = 0 ∧ covarianceMatrix.ncols = 0 then none
  else
    some (forLoop covarianceMatrix.nrows (fun row s =>
      forLoop covarianceMatrix.ncols (fun col s =>
        let pearson :=
          if covarianceMatrix.elem row row ≠ 0 ∧ covarianceMatrix.elem col col ≠ 0 then
            covarianceMatrix.elem row col
              / sqrt (covarianceMatrix.elem row row * covarianceMatrix.elem col col)
          else s.2
        (s.1.assign row col pearson, pearson)) s)
      (covarianceMatrix, (0 : α))).1

/-! ## Histograms -/

/-- A histogram axis (`TAxis`): `nbins` in-range bins with borders
`edges 0 < edges 1 < ... < edges nbins`; in-range bin `i` (`1 ≤ i ≤ nbins`)
spans `[edges (i-1), edges i)`. -/
structure TAxis (α : Type) where
  nbins : Nat
  edges : Nat → α

/-- The number of borders among `edges 0, ..., edges (n-1)` that are `≤ x`. -/
def countLE {α : Type} [LinearOrder α] (edges : Nat → α) (x : α) : Nat → Nat
  | 0 => 0
  | n + 1 => countLE edges x n + (if edges n ≤ x then 1 else 0)

/-- `TAxis::FindBin`: `0` (underflow) below the first border, `nbins + 1`
(overflow) from the last border on, otherwise one plus the index of the last
border that is `≤ x` (the library's binary search), that is, the number of
borders `≤ x`. -/
def TAxis.FindBin {α : Type} [LinearOrder α] (ax : TAxis α) (x : α) : Nat :=
  if x < ax.edges 0 then 0
  else if ¬ x < ax.edges ax.nbins then ax.nbins + 1
  else countLE ax.edges x (ax.nbins + 1)

/-- `TAxis::GetBinCenter` for a bin number. -/
def TAxis.GetBinCenter {α : Type} [Field α] (ax : TAxis α) (bin : Nat) : α :=
  if 1 ≤ bin ∧ bin ≤ ax.nbins then (ax.edges (bin - 1) + ax.edges bin) / 2
  else
    ax.edges 0 + ((bin : α) - 1) * ((ax.edges ax.nbins - ax.edges 0) / ax.nbins)
      + ((ax.edges ax.nbins - ax.edges 0) / ax.nbins) / 2

/-- `TAxis::GetBinWidth`: bin numbers outside `1..nbins` are moved to the
nearest in-range bin. -/
def TAxis.GetBinWidth {α : Type} [Field α] (ax : TAxis α) (bin : Nat) : α :=
  if ax.nbins = 0 then 0
  else ax.edges (max 1 (min bin ax.nbins)) - ax.edges (max 1 (min bin ax.nbins) - 1)

/-- `TAxis::GetBinLowEdge`: the lower border of an in-range bin; outside the
range the axis is continued with bins of the average width. -/
def TAxis.GetBinLowEdge {α : Type} [Field α] (ax : TAxis α) (bin : Nat) : α :=
  if 1 ≤ bin ∧ bin ≤ ax.nbins then ax.edges (bin - 1)
  else ax.edges 0 + ((bin : α) - 1) * ((ax.edges ax.nbins - ax.edges 0) / ax.nbins)

/-- `TAxis::GetBinUpEdge`: the upper border of an in-range bin; outside the
range the axis is continued with bins of the average width. -/
def TAxis.GetBinUpEdge {α : Type} [Field α] (ax : TAxis α) (bin : Nat) : α :=
  if 1 ≤ bin ∧ bin ≤ ax.nbins then ax.edges bin
  else ax.edges 0 + (bin : α) * ((ax.edges ax.nbins - ax.edges 0) / ax.nbins)

/-- A one-dimensional histogram (`TH1`/`TH1D`): its axis, and content and
error of the bins `0..nbins+1`. -/
structure TH1 (α : Type) where
  xaxis : TAxis α
  content : Nat → α
  error : Nat → α

/-- `TH1::GetNbinsX`. -/
def TH1.GetNbinsX {α : Type} (h : TH1 α) : Nat := h.xaxis.nbins

/-- The cell a bin number of type `Int_t` addresses: numbers below `0` address
the underflow bin, numbers above `nbins + 1` the overflow bin. -/
def TH1.cell {α : Type} (h : TH1 α) (bin : Int) : Nat :=
  min bin.toNat (h.xaxis.nbins + 1)

/-- `TH1::GetBinContent`. -/
def TH1.GetBinContent {α : Type} (h : TH1 α) (bin : Int) : α := h.content (h.cell bin)

/-- `TH1::GetBinError` (errors are stored: `Sumw2` is active). -/
def TH1.GetBinError {α : Type} (h : TH1 α) (bin : Int) : α := h.error (h.cell bin)

/-- `TH1::SetBinContent`. -/
def TH1.SetBinContent {α : Type} (h : TH1 α) (bin : Int) (v : α) : TH1 α :=
  { h with content := fun c => if c = h.cell bin then v else h.content c }

/-- `TH1::SetBinError`. -/
def TH1.SetBinError {α : Type} (h : TH1 α) (bin : Int) (v : α) : TH1 α :=
  { h with error := fun c => if c = h.cell bin then v else h.error c }

/-- `TH1::FindBin`. -/
def TH1.FindBin {α : Type} [LinearOrder α] (h : TH1 α) (x : α) : Nat := h.xaxis.FindBin x

/-- A two-dimensional histogram (`TH2D`): x axis ("true"), y axis ("rec"),
and content and error of the cells `(binx, biny)`, `0 ≤ binx ≤ nx + 1`,
`0 ≤ biny ≤ ny + 1`. -/
structure TH2D (α : Type) where
  xaxis : TAxis α
  yaxis : TAxis α
  content : Nat → Nat → α
  error : Nat → Nat → α

/-- `TH2::GetNbinsX`. -/
def TH2D.GetNbinsX {α : Type} (h : TH2D α) : Nat := h.xaxis.nbins

/-- `TH2::GetNbinsY`. -/
def TH2D.GetNbinsY {α : Type} (h : TH2D α) : Nat := h.yaxis.nbins

/-- `TH2::GetBin`: a bin number beyond the overflow bin of its axis addresses
the overflow bin. -/
def TH2D.GetBin {α : Type} (h : TH2D α) (binx biny : Nat) : Nat × Nat :=
  (min binx (h.xaxis.nbins + 1), min biny (h.yaxis.nbins + 1))

/-- `TH2::GetBinContent(binx, biny)`. -/
def TH2D.GetBinContent {α : Type} (h : TH2D α) (binx biny : Nat) : α :=
  h.content (h.GetBin binx biny).1 (h.GetBin binx biny).2

/-- `TH2::GetBinError(binx, biny)`. -/
def TH2D.GetBinError {α : Type} (h : TH2D α) (binx biny : Nat) : α :=
  h.error (h.GetBin binx biny).1 (h.GetBin binx biny).2

/-- `TH2::SetBinContent(binx, biny, v)`. -/
def TH2D.SetBinContent {α : Type} (h : TH2D α) (binx biny : Nat) (v : α) : TH2D α :=
  { h with content := fun x y =>
      if x = (h.GetBin binx biny).1 ∧ y = (h.GetBin binx biny).2 then v else h.content x y }

/-- `TH2::SetBinError(binx, biny, v)`. -/
def TH2D.SetBinError {α : Type} (h : TH2D α) (binx biny : Nat) (v : α) : TH2D α :=
  { h with error := fun x y =>
      if x = (h.GetBin binx biny).1 ∧ y = (h.GetBin binx biny).2 then v else h.error x y }

/-! ## NormalizeTH2D and MatrixMultiplication -/

/-- `AliJetFlowTools::NormalizeTH2D`: for each vertical slice `i` the weight
is the sum of the in-range contents of the slice; when the weight is positive
every in-range content and error of the slice is divided by it.  The
histogram is changed in place and returned; a null pointer gives null. -/
def NormalizeTH2D {α : Type} [LinearOrderedField α] (histo : Option (TH2D α)) :
    Option (TH2D α) :=
  match histo with
  | none => none
  | some histo =>
    let binsX := histo.xaxis.nbins
    let binsY := histo.yaxis.nbins
    some (forLoop binsX (fun i histo =>
      let weight := forLoop binsY (fun j weight => weight + histo.GetBinContent (i+1) (j+1)) 0
      forLoop binsY (fun j histo =>
        if weight ≤ 0 then histo
        else
          let histo := histo.SetBinContent (1+i) (j+1) (histo.GetBinContent (1+i) (j+1) / weight)
          histo.SetBinError (1+i) (j+1) (histo.GetBinError (1+i) (j+1) / weight)) histo) histo)

/-- `AliJetFlowTools::MatrixMultiplication`: null when `a`'s number of x bins
differs from `b`'s number of y bins; otherwise a clone `c` of `a` in which, for
`y1 = 1..a.NbinsY` and `x2 = 1..b.NbinsX`, the content of `(x2, y1)` is set to
the sum over `x1 = 1..a.NbinsX` of `a(x1, y1) * b(x2, x1)`. -/
def MatrixMultiplication {α : Type} [Field α] (a b : TH2D α) : Option (TH2D α) :=
  if a.GetNbinsX ≠ b.GetNbinsY then none
  else
    some (forLoop a.GetNbinsY (fun iy c =>
      let y1 := iy + 1
      forLoop b.GetNbinsX (fun ix c =>
        let x2 := ix + 1
        let val := forLoop a.GetNbinsX (fun i val =>
          let x1 := i + 1
          let y2 := x1
          val + a.GetBinContent x1 y1 * b.GetBinContent x2 y2) 0
        c.SetBinContent x2 y1 val) c) a)

/-- The sum of the in-range contents of the vertical slice `binx`. -/
def TH2D.sliceSum {α : Type} [Field α] (h : TH2D α) (binx : Nat) : α :=
  ∑ j ∈ Finset.range h.yaxis.nbins, h.GetBinContent binx (j + 1)

/-- The histogram in which the vertical slices `1..n` with a positive slice
sum have their in-range contents and errors divided by the slice sum. -/
def TH2D.slicesNormalized {α : Type} [LinearOrderedField α] (h : TH2D α) (n : Nat) : TH2D α :=
  { h with
    content := fun x y =>
      if (1 ≤ x ∧ x ≤ n) ∧ (1 ≤ y ∧ y ≤ h.yaxis.nbins) ∧ 0 < h.sliceSum x then
        h.content x y / h.sliceSum x
      else h.content x y
    error := fun x y =>
      if (1 ≤ x ∧ x ≤ n) ∧ (1 ≤ y ∧ y ≤ h.yaxis.nbins) ∧ 0 < h.sliceSum x then
        h.error x y / h.sliceSum x
      else h.error x y }

/-- The matrix-product cell: the sum over `k = 1..a.NbinsX` of
`a(x = k, y = y1) * b(x = x2, y = k)`. -/
def productCell {α : Type} [Field α] (a b : TH2D α) (x2 y1 : Nat) : α :=
  ∑ k ∈ Finset.range a.xaxis.nbins, a.GetBinContent (k + 1) y1 * b.GetBinContent x2 (k + 1)

/-- The clone of `a` after `MatrixMultiplication` has filled the rows
`y1 = 1..n`: the in-range columns `x ≤ b.NbinsX` hold the product cell, and
when `b` has more x bins than `a` the overflow column of `a`'s binning holds
the product cell of `b`'s last column (the last value written to it). -/
def TH2D.productFilled {α : Type} [Field α] (a b : TH2D α) (n : Nat) : TH2D α :=
  { a with
    content := fun x y =>
      if (1 ≤ y ∧ y ≤ n) ∧ 1 ≤ x ∧
          ((x ≤ b.xaxis.nbins ∧ x ≤ a.xaxis.nbins) ∨
            (x = a.xaxis.nbins + 1 ∧ a.xaxis.nbins + 1 ≤ b.xaxis.nbins)) then
        productCell a b (if x ≤ a.xaxis.nbins then x else b.xaxis.nbins) y
      else a.content x y }

/-! ## ConstructDPtResponseFromTH1D -/

/-- `TMath::AreEqualAbs`. -/
def AreEqualAbs {α : Type} [LinearOrderedField α] (af bf epsilon : α) : Prop :=
  |af - bf| < epsilon

instance {α : Type} [LinearOrderedField α] (af bf epsilon : α) :
    Decidable (AreEqualAbs af bf epsilon) := by
  unfold AreEqualAbs
  infer_instance

/-- The conversion of a `Double_t` to an `Int_t` argument: the fractional part
is dropped. -/
def toInt {α : Type} [LinearOrderedField α] [FloorRing α] (x : α) : Int :=
  if 0 ≤ x then ⌊x⌋ else ⌈x⌉

/-- The value the delta-pt distribution takes at the integer `d`: the content
of the bin that holds `d`. -/
def dptAt {α : Type} [LinearOrderedField α] (dpt : TH1 α) (d : Int) : α :=
  dpt.GetBinContent (dpt.xaxis.FindBin (d : α))

/-- `AliJetFlowTools::ConstructDPtResponseFromTH1D`: a histogram with the
binning of `dpt` on both axes (a fresh histogram, which stores no errors); for
`j = 0..bins` and `k = 0..bins` the cell `(j, k)` is set to `0` when `skip` is
set and to the distribution's value at `k - j` otherwise; `skip` is set when
`AvoidRoundingError` is requested, `k > j` and
`dpt->GetBinContent(dpt->GetBinContent(k-j))` is zero within `1e-8`. -/
def ConstructDPtResponseFromTH1D {α : Type} [LinearOrderedField α] [FloorRing α]
    (dpt : TH1 α) (AvoidRoundingError : Bool) : TH2D α :=
  let bins := dpt.xaxis.nbins
  let _bins : Nat → α := fun i =>
    if i < bins then dpt.xaxis.GetBinLowEdge (i + 1)
    else dpt.xaxis.GetBinLowEdge bins + dpt.xaxis.GetBinWidth (bins + 1)
  let res : TH2D α :=
    { xaxis := { nbins := bins, edges := _bins }, yaxis := { nbins := bins, edges := _bins },
      content := fun _ _ => 0, error := fun _ _ => 0 }
  forLoop (bins + 1) (fun j res =>
    (forLoop (bins + 1) (fun k (s : TH2D α × Bool) =>
      let res :=
        if s.2 then s.1.SetBinContent j k 0
        else s.1.SetBinContent j k (dpt.GetBinContent (dpt.xaxis.FindBin (((k : Int) - (j : Int) : Int) : α)))
      let skip :=
        if AvoidRoundingError = true ∧ k > j ∧
            AreEqualAbs (dpt.GetBinContent (toInt (dpt.GetBinContent ((k : Int) - (j : Int)))))
              0 (1 / 10 ^ 8) then true
        else s.2
      (res, skip)) (res, false)).1) res

/-- One pass through the body of the inner loop (on `k`) of the loops of
`PrepareForUnfolding` that fill the smeared response matrix, for the column
`j` and `k = kk - 50`; the state is the matrix, given by its elements
`(row, column)`, and the flag `skip`. -/
def PrepareForUnfolding_rfStep {α : Type} [LinearOrderedField α] (fDptDist : TH1 α)
    (fAvoidRoundingError : Bool) (j : Int) (kk : Nat) (s : (Int → Int → α) × Bool) :
    (Int → Int → α) × Bool :=
  let k : Int := (kk : Int) - 50
  let rf : Int → Int → α := fun row col =>
    if row = k ∧ col = j then
      (if s.2 then 0 else fDptDist.GetBinContent (fDptDist.xaxis.FindBin ((k - j : Int) : α)))
    else s.1 row col
  let skip :=
    if fAvoidRoundingError = true ∧ k > j ∧
        AreEqualAbs (fDptDist.GetBinContent (fDptDist.xaxis.FindBin ((k - j : Int) : α)))
          0 (1 / 10 ^ 8) then true
    else s.2
  (rf, skip)

/-- The loops of `PrepareForUnfolding` that fill the smeared response matrix
`rfIn` (and `rfOut`) from the delta-pt distribution: a zero `TMatrixD` with
rows and columns `-50..249`; for `j = -50..249`, starting with `skip` unset,
and `k = -50..249` the element `(k, j)` is set to `0` when `skip` is set and to
the distribution's value at `k - j` otherwise; `skip` is set when
`fAvoidRoundingError` is requested, `k > j` and the distribution's value at
`k - j` is zero within `1e-8`. -/
def PrepareForUnfolding_rf {α : Type} [LinearOrderedField α] (fDptDist : TH1 α)
    (fAvoidRoundingError : Bool) : Int → Int → α :=
  forLoop 300 (fun jj rf =>
    (forLoop 300 (PrepareForUnfolding_rfStep fDptDist fAvoidRoundingError ((jj : Int) - 50))
      (rf, false)).1) (fun _ _ => 0)

/-! ## GetUnfoldingTemplate -/

/-- A `TArrayD`: its size `fN` and its elements. -/
structure TArrayD (α : Type) where
  fN : Nat
  fArray : Nat → α

/-- `TArrayD::GetSize`. -/
def TArrayD.GetSize {α : Type} (a : TArrayD α) : Nat := a.fN

/-- `TArrayD::At`. -/
def TArrayD.At {α : Type} (a : TArrayD α) (i : Nat) : α := a.fArray i

/-- `TH1::Fill(x, w)`: the weight `w` is added to the content of the bin that
holds `x` (the underflow or overflow bin when `x` is outside the axis). -/
def TH1.Fill {α : Type} [LinearOrderedField α] (h : TH1 α) (x w : α) : TH1 α :=
  { h with content := fun c => if c = h.FindBin x then h.content c + w else h.content c }

/-- `AliJetFlowTools::GetUnfoldingTemplate`: null when the histogram or the
bin array is missing; otherwise a new, empty histogram (which stores no
errors) with `bins->GetSize()-1` bins and the borders `bins`, filled, for each
in-range bin `i+1` of `histo`, at the center of the bin with the content of
the bin as weight. -/
def GetUnfoldingTemplate {α : Type} [LinearOrderedField α] (histo : Option (TH1 α))
    (bins : Option (TArrayD α)) : Option (TH1 α) :=
  match histo, bins with
  | some histo, some bins =>
    let rebinned : TH1 α :=
      { xaxis := { nbins := bins.GetSize - 1, edges := bins.fArray },
        content := fun _ => 0, error := fun _ => 0 }
    some (forLoop histo.xaxis.nbins (fun i rebinned =>
      rebinned.Fill (histo.xaxis.GetBinCenter (i + 1)) (histo.GetBinContent ((i + 1 : Nat) : Int)))
      rebinned)
  | _, _ => none

/-! ## GetRatio and GetV2 -/

/-- A point of a `TGraphErrors`: position, value, and the two errors. -/
structure GraphPoint (α : Type) where
  x : α
  y : α
  ex : α
  ey : α

/-- `AliJetFlowTools::GetRatio` (the points of the returned graph; the
optional fit that is appended does not change them): null when an argument is
null; otherwise, for the bins `i = 1..h1.NbinsX` whose center is not beyond a
positive `xmax`, a point is appended when the `h2` bin holding the center has
content `> 0`. -/
def GetRatio {α : Type} [LinearOrderedField α] (sqrt : α → α) (h1 h2 : Option (TH1 α))
    (xmax : Int) : Option (List (GraphPoint α)) :=
  match h1, h2 with
  | some h1, some h2 =>
    some (forLoop h1.GetNbinsX (fun idx gr =>
      let i := idx + 1
      let binCent := h1.xaxis.GetBinCenter i
      if (xmax : α) > 0 ∧ binCent > (xmax : α) then gr
      else
        let j := h2.FindBin binCent
        let binWidth := h1.xaxis.GetBinWidth i
        if h2.GetBinContent j > 0 then
          let ratio := h1.GetBinContent i / h2.GetBinContent j
          let A := 1 / h2.GetBinContent j * h1.GetBinError i
          let error2 :=
            if h2.GetBinError j > 0 then
              let B := -1 * h1.GetBinContent i / (h2.GetBinContent j * h2.GetBinContent j)
                * h2.GetBinError j
              A * A + B * B
            else A * A
          let error2 := if error2 > 0 then sqrt error2 else error2
          gr ++ [⟨binCent, ratio, (1 / 2) * binWidth, error2⟩]
        else gr) [])
  | _, _ => none

/-- Rounding to the nearest integer, a half to the even neighbour. -/
def roundHalfEven {α : Type} [LinearOrderedField α] [FloorRing α] (x : α) : Int :=
  if x - ⌊x⌋ < 1 / 2 then ⌊x⌋
  else if 1 / 2 < x - ⌊x⌋ then ⌊x⌋ + 1
  else if ⌊x⌋ % 2 = 0 then ⌊x⌋
  else ⌊x⌋ + 1

/-- The conversion of a `Double_t` value to `Float_t`: the nearest number with
a significand of 24 binary digits, a tie going to the even significand.  For
`2^e ≤ |x| < 2^(e+1)` the numbers of that form are the multiples of
`2^(e-23)`.  The range of the exponent is not limited, as for `Double_t`. -/
def Float_t {α : Type} [LinearOrderedField α] [FloorRing α] (x : α) : α :=
  if x = 0 then 0
  else (roundHalfEven (x / (2 : α) ^ (Int.log 2 |x| - 23)) : α) * (2 : α) ^ (Int.log 2 |x| - 23)

/-- The quotient of two `Double_t` values; a division by zero gives an
infinity or not-a-number, which is `none`. -/
def ddiv {α : Type} [Field α] [DecidableEq α] (a b : α) : Option α :=
  if b = 0 then none else some (a / b)

/-- A point of the `TGraphErrors` of `GetV2`: position, value, and the two
errors; a value or an error that is not a finite number (an infinity or
not-a-number, the result of a division by zero) is `none`. -/
structure V2Point (α : Type) where
  x : α
  y : Option α
  ex : α
  ey : Option α

/-- `AliJetFlowTools::GetV2`: null when an argument is null; otherwise, for
the bins `i = 1..h1.NbinsX`, a point is appended when the `h2` bin holding the
center of bin `i` has content `> 0`.  The locals `binCent`, `ratio`, `error2`
and `binWidth` are `Float_t`: the bin center is converted before it is looked
up in `h2`, and value and error are converted when they are stored.  A
division by zero makes value or error not finite, and every operation on such
a number gives such a number again. -/
def GetV2 {α : Type} [LinearOrderedField α] [FloorRing α] (sqrt : α → α) (pi : α)
    (h1 h2 : Option (TH1 α)) (r : α) : Option (List (V2Point α)) :=
  match h1, h2 with
  | some h1, some h2 =>
    let pre := ddiv pi (4 * r)
    some (forLoop h1.GetNbinsX (fun idx gr =>
      let i := idx + 1
      let binCent := Float_t (h1.xaxis.GetBinCenter i)
      let j := h2.FindBin binCent
      let binWidth := Float_t (h1.xaxis.GetBinWidth i)
      if h2.GetBinContent j > 0 then
        let in_ := h1.GetBinContent i
        let ein := h1.GetBinError i
        let out := h2.GetBinContent j
        let eout := h2.GetBinError j
        let ratio : Option α :=
          pre.bind (fun pre =>
            (ddiv (in_ - out) (in_ + out)).map (fun q => Float_t (pre * q)))
        let error2 : Option α :=
          (ddiv (r * 4) pi).bind (fun c =>
            (ddiv (out * out) ((in_ + out) ^ 4)).bind (fun a =>
              (ddiv (in_ * in_) ((in_ + out) ^ 4)).map (fun b =>
                Float_t (c * (a * ein * ein + b * eout * eout)))))
        let error2 := error2.map (fun error2 =>
          if error2 > 0 then Float_t (sqrt error2) else error2)
        gr ++ [⟨binCent, ratio, (1 / 2) * binWidth, error2⟩]
      else gr) [])
  | _, _ => none

/-! ## Event-count normalization in PrepareForUnfolding -/

/-- The bin loop of `PrepareForUnfolding` that normalizes one spectrum to the
event count: `pt` is the content divided by `fEventCount`, `error` is
`1/(fEventCount*fEventCount)` times the squared bin error; the content is set
to `pt`; the bin error is set to `0` when `pt <= 0`, and then to `error` when
`error > 0` and to `sqrt(pt)` otherwise.  The source forms the product
`fEventCount*fEventCount` in `Int_t`; it is taken here without wrap-around, so
the embedding follows the source for event counts up to `46340`. -/
def PrepareForUnfolding_normalizeSpectrum {α : Type} [LinearOrderedField α] (sqrt : α → α)
    (fSpectrum : TH1 α) (fEventCount : Int) : TH1 α :=
  forLoop fSpectrum.xaxis.nbins (fun i fSpectrum =>
    let pt := fSpectrum.GetBinContent (1 + i) / (fEventCount : α)
    let error := 1 / ((fEventCount * fEventCount : Int) : α) * fSpectrum.GetBinError (1 + i)
      * fSpectrum.GetBinError (1 + i)
    let fSpectrum := fSpectrum.SetBinContent (1 + i) pt
    let fSpectrum := if pt ≤ 0 then fSpectrum.SetBinError (1 + i) 0 else fSpectrum
    if error > 0 then fSpectrum.SetBinError (1 + i) error
    else fSpectrum.SetBinError (1 + i) (sqrt pt)) fSpectrum

/-- The event-count normalization of `PrepareForUnfolding` (taken when
`fNormalizeSpectra` is set and the event-count histogram is found): a negative
`fEventCount` is replaced by the number of entries of that histogram, and when
the count is positive both spectra are normalized bin by bin. -/
def PrepareForUnfolding_eventCount {α : Type} [LinearOrderedField α] (sqrt : α → α)
    (fSpectrumIn fSpectrumOut : TH1 α) (fEventCount rhoEntries : Int) : TH1 α × TH1 α :=
  let fEventCount := if fEventCount < 0 then rhoEntries else fEventCount
  if fEventCount > 0 then
    (PrepareForUnfolding_normalizeSpectrum sqrt fSpectrumIn fEventCount,
      PrepareForUnfolding_normalizeSpectrum sqrt fSpectrumOut fEventCount)
  else (fSpectrumIn, fSpectrumOut)

/-! ## PrepareForUnfolding and SetRawInput -/

/-- `TH2::ProjectionY(name, firstxbin, lastxbin)`: a histogram on the y axis
whose bin `y` holds the sum over the x bins `firstxbin..lastxbin` (no further
than the overflow bin) of the cells `(x, y)`, with the propagated error. -/
def TH2D.ProjectionY {α : Type} [Field α] (sqrt : α → α) (h : TH2D α)
    (firstxbin lastxbin : Nat) : TH1 α :=
  { xaxis := h.yaxis
    content := fun y =>
      ∑ x ∈ Finset.Icc firstxbin (min lastxbin (h.xaxis.nbins + 1)), h.content x y
    error := fun y =>
      sqrt (∑ x ∈ Finset.Icc firstxbin (min lastxbin (h.xaxis.nbins + 1)),
        h.error x y * h.error x y) }

/-- `TH1::Add(h1)`: contents are added, errors are added in quadrature. -/
def TH1.Add {α : Type} [Field α] (sqrt : α → α) (h h1 : TH1 α) : TH1 α :=
  { h with
    content := fun c => h.content c + h1.content c
    error := fun c => sqrt (h.error c * h.error c + h1.error c * h1.error c) }

/-- `TH1::Scale(c1)` for a positive factor: contents and errors are multiplied
by the factor. -/
def TH1.Scale {α : Type} [Field α] (h : TH1 α) (c1 : α) : TH1 α :=
  { h with content := fun c => c1 * h.content c, error := fun c => c1 * h.error c }

/-- The histogram `new TH2D(*rf)` built from a matrix with rows and columns
`-50..249`: `300 × 300` unit bins on `[-50, 250)`, the cell `(x, y)` holding
the matrix element of row `y - 51` and column `x - 51`. -/
def TH2D.ofMatrix {α : Type} [Field α] (rf : Int → Int → α) : TH2D α :=
  { xaxis := { nbins := 300, edges := fun i => (i : α) - 50 }
    yaxis := { nbins := 300, edges := fun i => (i : α) - 50 }
    content := fun x y =>
      if (1 ≤ x ∧ x ≤ 300) ∧ (1 ≤ y ∧ y ≤ 300) then rf ((y : Int) - 51) ((x : Int) - 51) else 0
    error := fun _ _ => 0 }

/-- The extraction of the two spectra in `PrepareForUnfolding`, before any
normalization: with `fNoDphi` both are the projection of the angle bins
`1..40`; otherwise the in-plane spectrum is the projection of the angle bins
`1..10` plus that of the angle bins `31..40`, and the out-of-plane spectrum is
the projection of the angle bins `11..30`. -/
def PrepareForUnfolding_spectra {α : Type} [Field α] (sqrt : α → α) (fJetPtDeltaPhi : TH2D α)
    (fNoDphi : Bool) : TH1 α × TH1 α :=
  if fNoDphi then
    (fJetPtDeltaPhi.ProjectionY sqrt 1 40, fJetPtDeltaPhi.ProjectionY sqrt 1 40)
  else
    ((fJetPtDeltaPhi.ProjectionY sqrt 1 10).Add sqrt (fJetPtDeltaPhi.ProjectionY sqrt 31 40),
      fJetPtDeltaPhi.ProjectionY sqrt 11 30)

/-- The input list, by the objects `PrepareForUnfolding` looks up in it for a
centrality bin: `fHistJetPsi2Pt_<bin>`, `fHistRho_<bin>` (of which only the
number of entries is used) and `fHistDeltaPtDeltaPhi2_<bin>`. -/
structure TList (α : Type) where
  fHistJetPsi2Pt : Int → Option (TH2D α)
  fHistRho : Int → Option Int
  fHistDeltaPtDeltaPhi2 : Int → Option (TH2D α)

/-- The data members of an `AliJetFlowTools` object that `PrepareForUnfolding`
and `SetRawInput` read or write; a null pointer is `none`. -/
structure State (α : Type) where
  fInputList : Option (TList α)
  fRefreshInput : Bool
  fCentralityBin : Int
  fDetectorResponse : Option (TH2D α)
  fAvoidRoundingError : Bool
  fBinsTrue : Option (TArrayD α)
  fBinsRec : Option (TArrayD α)
  fEventCount : Int
  fNormalizeSpectra : Bool
  fNoDphi : Bool
  fRawInputProvided : Bool
  fDeltaPtDeltaPhi : Option (TH2D α)
  fJetPtDeltaPhi : Option (TH2D α)
  fSpectrumIn : Option (TH1 α)
  fSpectrumOut : Option (TH1 α)
  fDptInDist : Option (TH1 α)
  fDptOutDist : Option (TH1 α)
  fDptIn : Option (TH2D α)
  fDptOut : Option (TH2D α)

/-- The state the class constructor leaves. -/
def State.init (α : Type) : State α :=
  { fInputList := none, fRefreshInput := true, fCentralityBin := 0, fDetectorResponse := none,
    fAvoidRoundingError := false, fBinsTrue := none, fBinsRec := none, fEventCount := -1,
    fNormalizeSpectra := true, fNoDphi := false, fRawInputProvided := false,
    fDeltaPtDeltaPhi := none, fJetPtDeltaPhi := none, fSpectrumIn := none, fSpectrumOut := none,
    fDptInDist := none, fDptOutDist := none, fDptIn := none, fDptOut := none }

/-- The last part of `PrepareForUnfolding`, from the lookup of the delta-pt
histogram on: a histogram that is not found is reported but the pointer is
used all the same, which is a null-pointer dereference (`none`); otherwise the
two delta-pt distributions are projected out, the two response matrices are
filled, `fRefreshInput` is set and true is returned. -/
def PrepareForUnfolding_deltaPt {α : Type} [LinearOrderedField α] (sqrt : α → α)
    (list : TList α) (s : State α) : Option (Bool × State α) :=
  match list.fHistDeltaPtDeltaPhi2 s.fCentralityBin with
  | none => none
  | some fDeltaPtDeltaPhi =>
    let fDptInDist := (PrepareForUnfolding_spectra sqrt fDeltaPtDeltaPhi s.fNoDphi).1
    let fDptOutDist := (PrepareForUnfolding_spectra sqrt fDeltaPtDeltaPhi s.fNoDphi).2
    some (true,
      { s with
        fDeltaPtDeltaPhi := some fDeltaPtDeltaPhi
        fDptInDist := some fDptInDist
        fDptOutDist := some fDptOutDist
        fDptIn := some (TH2D.ofMatrix (PrepareForUnfolding_rf fDptInDist s.fAvoidRoundingError))
        fDptOut := some (TH2D.ofMatrix (PrepareForUnfolding_rf fDptOutDist s.fAvoidRoundingError))
        fRefreshInput := true })

/-- `AliJetFlowTools::PrepareForUnfolding`: the return value and the state it
leaves, or `none` when it dereferences a null pointer.  It returns true at
once when raw input was provided; false when the input list, the detector
response or a binning array is missing; false when the jet spectrum is not
found; false when normalization is requested and the event-count histogram is
not found; and goes on to the delta-pt part otherwise. -/
def PrepareForUnfolding {α : Type} [LinearOrderedField α] (sqrt : α → α) (s : State α) :
    Option (Bool × State α) :=
  if s.fRawInputProvided then some (true, s)
  else
    match s.fInputList with
    | none => some (false, s)
    | some list =>
      if s.fDetectorResponse.isNone then some (false, s)
      else if s.fBinsTrue.isNone ∨ s.fBinsRec.isNone then some (false, s)
      else
        match list.fHistJetPsi2Pt s.fCentralityBin with
        | none => some (false, { s with fJetPtDeltaPhi := none })
        | some fJetPtDeltaPhi =>
          let fSpectrumIn := (PrepareForUnfolding_spectra sqrt fJetPtDeltaPhi s.fNoDphi).1
          let fSpectrumOut := (PrepareForUnfolding_spectra sqrt fJetPtDeltaPhi s.fNoDphi).2
          if s.fNormalizeSpectra then
            match list.fHistRho s.fCentralityBin with
            | none =>
              some (false,
                { s with
                  fJetPtDeltaPhi := some fJetPtDeltaPhi
                  fSpectrumIn := some fSpectrumIn
                  fSpectrumOut := some fSpectrumOut })
            | some rhoEntries =>
              PrepareForUnfolding_deltaPt sqrt list
                { s with
                  fJetPtDeltaPhi := some fJetPtDeltaPhi
                  fSpectrumIn := some (PrepareForUnfolding_eventCount sqrt fSpectrumIn
                    fSpectrumOut s.fEventCount rhoEntries).1
                  fSpectrumOut := some (PrepareForUnfolding_eventCount sqrt fSpectrumIn
                    fSpectrumOut s.fEventCount rhoEntries).2
                  fEventCount := if s.fEventCount < 0 then -1 else s.fEventCount }
          else
            PrepareForUnfolding_deltaPt sqrt list
              { s with
                fJetPtDeltaPhi := some fJetPtDeltaPhi
                fSpectrumIn := some fSpectrumIn
                fSpectrumOut := some fSpectrumOut }

/-- `AliJetFlowTools::SetRawInput`: the return value and the state it leaves,
or `none` when it dereferences a null pointer.  The five inputs are stored and
`fRawInputProvided` is set first; then false is returned when the detector
response or a binning array is missing; otherwise the spectra are scaled by
the inverse event count when that is positive (with `fNormalizeSpectra` the
`eventCount` argument, which is stored; without it the stored `fEventCount`)
and the two delta-pt response matrices are constructed; scaling a missing
spectrum, or constructing from a missing distribution, dereferences a null
pointer.  The histograms passed in are different objects: the source keeps the
pointers and scales in place, so a histogram passed as both spectra would be
scaled twice. -/
def SetRawInput {α : Type} [LinearOrderedField α] [FloorRing α] (s : State α)
    (detectorResponse : Option (TH2D α)) (jetPtIn jetPtOut dptIn dptOut : Option (TH1 α))
    (eventCount : Int) : Option (Bool × State α) :=
  let s : State α :=
    { s with
      fDetectorResponse := detectorResponse
      fSpectrumIn := jetPtIn
      fSpectrumOut := jetPtOut
      fDptInDist := dptIn
      fDptOutDist := dptOut
      fRawInputProvided := true }
  if s.fDetectorResponse.isNone then some (false, s)
  else if s.fBinsTrue.isNone ∨ s.fBinsRec.isNone then some (false, s)
  else
    let fEventCount := if s.fNormalizeSpectra then eventCount else s.fEventCount
    if fEventCount > 0 ∧ (s.fSpectrumIn.isNone ∨ s.fSpectrumOut.isNone) then none
    else
      match s.fDptInDist, s.fDptOutDist with
      | some fDptInDist, some fDptOutDist =>
        some (true,
          { s with
            fEventCount := fEventCount
            fSpectrumIn :=
              if fEventCount > 0 then
                s.fSpectrumIn.map (fun h => h.Scale (1 / (fEventCount : α)))
              else s.fSpectrumIn
            fSpectrumOut :=
              if fEventCount > 0 then
                s.fSpectrumOut.map (fun h => h.Scale (1 / (fEventCount : α)))
              else s.fSpectrumOut
            fDptIn := some (ConstructDPtResponseFromTH1D fDptInDist s.fAvoidRoundingError)
            fDptOut := some (ConstructDPtResponseFromTH1D fDptOutDist s.fAvoidRoundingError) })
      | _, _ => none

/-! ## SmoothenSpectrum -/

/-- The content `SmoothenSpectrum` gives to bin `i`: the integral of the fitted
function over the bin (dropped to an integer when `counts` is selected)
divided by the bin width. -/
def smoothContent {α : Type} [LinearOrderedField α] [FloorRing α] (ax : TAxis α)
    (Integral : α → α → α) (counts : Bool) (i : Nat) : α :=
  if counts then
    ((toInt (Integral (ax.GetBinLowEdge i) (ax.GetBinUpEdge i)) : Int) : α) / ax.GetBinWidth i
  else Integral (ax.GetBinLowEdge i) (ax.GetBinUpEdge i) / ax.GetBinWidth i

/-- `AliJetFlowTools::SmoothenSpectrum`: `r` is the status of the fit of the
function to the clone `temp` of the spectrum and `Integral a b` the integral of
the fitted function over `[a, b]`.  When `r` is `0`, for `i = 0..NbinsX` every
bin whose center is beyond `start` gets the content `smoothContent` and, when
that content is positive, its square root as error.  The clone is returned. -/
def SmoothenSpectrum {α : Type} [LinearOrderedField α] [FloorRing α] (sqrt : α → α)
    (spectrum : TH1 α) (r : Int) (Integral : α → α → α) (start : α) (counts : Bool) : TH1 α :=
  let temp := spectrum
  if r = 0 then
    forLoop (temp.GetNbinsX + 1) (fun i temp =>
      if temp.xaxis.GetBinCenter i > start then
        let temp := temp.SetBinContent (i : Int) (smoothContent temp.xaxis Integral counts i)
        if temp.GetBinContent (i : Int) > 0 then
          temp.SetBinError (i : Int) (sqrt (temp.GetBinContent (i : Int)))
        else temp
      else temp) temp
  else temp

/-! ## UnfoldSpectrumChi2 -/

/-- What one call of `AliUnfolding::Unfold` leaves behind: the returned fit
status, the value of `gMinuit->fISW[1]` after the call, and the spectrum the
call stored in `unfoldedLocal`. -/
structure FitReport (β : Type) where
  status : Int
  fISW1 : Int
  unfolded : β

/-- The variables of the retry loop of `UnfoldSpectrumChi2`. -/
structure Chi2State (β : Type) where
  status : Int
  i : Nat
  unfoldedLocal : β
  fISW1 : Int

/-- The retry loop `while(status < 0 && i < 100) { status = Unfold(...); i++; }`
of `UnfoldSpectrumChi2`; `solver i` is what the call made when the counter is
`i` reports. -/
def unfoldLoop {β : Type} (solver : Nat → FitReport β) (s : Chi2State β) : Chi2State β :=
  if s.status < 0 ∧ s.i < 100 then
    unfoldLoop solver
      { status := (solver s.i).status, i := s.i + 1,
        unfoldedLocal := (solver s.i).unfolded, fISW1 := (solver s.i).fISW1 }
  else s
termination_by 100 - s.i
decreasing_by
  simp_wf
  omega

/-- What `UnfoldSpectrumChi2` hands back: its return value, the number of
calls it made to the solver, and the spectrum `unfolded` points to. -/
structure Chi2Result (β : Type) where
  converged : Bool
  invocations : Nat
  unfolded : β

/-- `AliJetFlowTools::UnfoldSpectrumChi2` (retry loop, Hessian check and
return value): start with `status = -1`, `i = 0`; after the loop the status is
kept only when it is `0` and `fISW[1] == 3`, otherwise it is set to `-1`;
`unfolded = unfoldedLocal`; the return value is `status == 0`. -/
def UnfoldSpectrumChi2 {β : Type} (solver : Nat → FitReport β) (unfoldedLocal : β)
    (fISW1 : Int) : Chi2Result β :=
  let s := unfoldLoop solver { status := -1, i := 0, unfoldedLocal := unfoldedLocal, fISW1 := fISW1 }
  let status : Int := if s.status = 0 ∧ s.fISW1 = 3 then s.status else -1
  { converged := decide (status = 0), invocations := s.i, unfolded := s.unfoldedLocal }

/-! ## Make -/

/-- The unfolding algorithms `Make` switches over. -/
inductive unfoldingAlgorithm where
  | kChi2
  | kSVD
  | kSVDlegacy
  | kNone
  deriving DecidableEq

/-- The objects `Make` itself writes to the output file, by the name given to
them before writing. -/
inductive Written where
  | ResponseMatrixIn
  | KinematicEfficiencyIn
  | ResponseMatrixOut
  | KinematicEfficiencyOut
  | DetectorResponse
  | OrigJetSpectrum
  | OrigDeltaPt
  | OrigDeltaPtMatrix
  | ResponseMatrix
  | OrigResponseMatrix
  | RatioInOutPlane
  | NCRatioInOutPlane
  | v2
  | DeltaPtDeltaPhi
  | JetPtDeltaPhi
  | UnfoldingConfiguration
  deriving DecidableEq

/-- What the unfolding of one plane needs from outside `Make`: the behaviour
of the chi-square solver, the histogram allocated for its result and the
initial `fISW[1]`; the return value and the `unfolded` pointer the two SVD
routines (built on an external library) produce; and the resized spectrum the
`kNone` branch hands on. -/
structure PlaneRun (α : Type) where
  solver : Nat → FitReport (TH1 α)
  unfoldedLocal : TH1 α
  fISW1 : Int
  svd : Bool × Option (TH1 α)
  svdLegacy : Bool × Option (TH1 α)
  resizedJetPt : TH1 α

/-- One `switch (fUnfoldingAlgorithm)` of `Make`: the `converged` flag and the
`fUnfoldedIn`/`fUnfoldedOut` pointer it leaves. -/
def unfoldPlane {α : Type} (alg : unfoldingAlgorithm) (p : PlaneRun α) :
    Bool × Option (TH1 α) :=
  match alg with
  | .kChi2 =>
    ((UnfoldSpectrumChi2 p.solver p.unfoldedLocal p.fISW1).converged,
      some (UnfoldSpectrumChi2 p.solver p.unfoldedLocal p.fISW1).unfolded)
  | .kSVD => p.svd
  | .kSVDlegacy => p.svdLegacy
  | .kNone => (true, some p.resizedJetPt)

/-- `AliJetFlowTools::Make`, as the sequence of objects it writes: nothing
when the input has to be refreshed and `PrepareForUnfolding` fails; otherwise
the diagnostic objects of both planes (with the original inputs when
`fSaveFull` is set), then, when both planes converged and
both unfolded spectra exist, the ratio graph `RatioInOutPlane` and the graph
`v2`, else, when both unfolded spectra exist, the ratio graph under the name
`[NC]RatioInOutPlane` and the graph `v2`; then the raw inputs and the
configuration summary.  The histograms `fDeltaPtDeltaPhi` and `fJetPtDeltaPhi`
written at the end are the ones `PrepareForUnfolding` reads; after `SetRawInput`
alone they are null and writing them dereferences a null pointer. -/
def Make {α : Type} [LinearOrderedField α] [FloorRing α] (sqrt : α → α) (pi r : α)
    (xmax : Int)
    (fRefreshInput prepared fSaveFull : Bool) (fUnfoldingAlgorithm : unfoldingAlgorithm)
    (planeIn planeOut : PlaneRun α) : List Written :=
  if fRefreshInput ∧ ¬ prepared then []
  else
    let convergedIn := (unfoldPlane fUnfoldingAlgorithm planeIn).1
    let fUnfoldedIn := (unfoldPlane fUnfoldingAlgorithm planeIn).2
    let convergedOut := (unfoldPlane fUnfoldingAlgorithm planeOut).1
    let fUnfoldedOut := (unfoldPlane fUnfoldingAlgorithm planeOut).2
    [.ResponseMatrixIn, .KinematicEfficiencyIn, .DetectorResponse]
    ++ (if fSaveFull then
          [.OrigJetSpectrum, .OrigDeltaPt, .OrigDeltaPtMatrix, .ResponseMatrix]
        else [])
    ++ [.ResponseMatrixOut, .KinematicEfficiencyOut, .DetectorResponse]
    ++ (if fSaveFull then
          [.OrigJetSpectrum, .OrigDeltaPt, .OrigDeltaPtMatrix, .OrigResponseMatrix]
        else [])
    ++ (if convergedIn ∧ convergedOut ∧ fUnfoldedIn.isSome ∧ fUnfoldedOut.isSome then
          (match GetRatio sqrt fUnfoldedIn fUnfoldedOut xmax with
            | some _ => [.RatioInOutPlane]
            | none => [])
          ++ (match GetV2 sqrt pi fUnfoldedIn fUnfoldedOut r with
            | some _ => [.v2]
            | none => [])
        else if fUnfoldedOut.isSome ∧ fUnfoldedIn.isSome then
          (match GetRatio sqrt fUnfoldedIn fUnfoldedOut xmax with
            | some _ => [.NCRatioInOutPlane]
            | none => [])
          ++ (match GetV2 sqrt pi fUnfoldedIn fUnfoldedOut r with
            | some _ => [.v2]
            | none => [])
        else [])
    ++ [.DeltaPtDeltaPhi, .JetPtDeltaPhi, .UnfoldingConfiguration]

/-! ## Smoothing calls of Make and UnfoldSpectrumChi2 -/

/-- `AliJetFlowTools::SmoothenSpectrum(spectrum, function, min, max, start)`
with the fit made explicit: `Fit temp min max` is what
`temp->Fit(function, "QWILS", "", min, max)` gives for the clone `temp` of the
spectrum, namely the fit status and the integral of the fitted function. -/
def SmoothenSpectrumFit {α : Type} [LinearOrderedField α] [FloorRing α] (sqrt : α → α)
    (Fit : TH1 α → α → α → Int × (α → α → α)) (spectrum : TH1 α) (min max start : α)
    (counts : Bool) : TH1 α :=
  SmoothenSpectrum sqrt spectrum (Fit spectrum min max).1 (Fit spectrum min max).2 start counts

/-- The data members `fFitMin`, `fFitMax` and `fFitStart`. -/
structure FitRange (α : Type) where
  fFitMin : α
  fFitMax : α
  fFitStart : α

/-- The `kNone` case of the `switch (fUnfoldingAlgorithm)` of `Make` for one
plane: the resized spectrum is smoothened when `fSmoothenSpectrum` is set,
with the arguments `fFitMin, fFitMin, fFitStart`, and handed on as the unfolded
spectrum; the plane is reported converged. -/
def Make_kNone {α : Type} [LinearOrderedField α] [FloorRing α] (sqrt : α → α)
    (Fit : TH1 α → α → α → Int × (α → α → α)) (fSmoothenSpectrum : Bool) (fit : FitRange α)
    (counts : Bool) (resizedJetPt : TH1 α) : Bool × Option (TH1 α) :=
  let resizedJetPt :=
    if fSmoothenSpectrum then
      SmoothenSpectrumFit sqrt Fit resizedJetPt fit.fFitMin fit.fFitMin fit.fFitStart counts
    else resizedJetPt
  let fUnfolded := some resizedJetPt
  let converged := true
  (converged, fUnfolded)

/-- Step 1 of `UnfoldSpectrumChi2`, the spectrum that is unfolded: the clone
of the resized spectrum, smoothened when `fSmoothenSpectrum` is set, with the
arguments `fFitMin, fFitMax, fFitStart` (the SVD routines make the same
call). -/
def UnfoldSpectrumChi2_resizedJetPtLocal {α : Type} [LinearOrderedField α] [FloorRing α]
    (sqrt : α → α) (Fit : TH1 α → α → α → Int × (α → α → α)) (fSmoothenSpectrum : Bool)
    (fit : FitRange α) (counts : Bool) (resizedJetPt : TH1 α) : TH1 α :=
  let resizedJetPtLocal := resizedJetPt
  if fSmoothenSpectrum then
    SmoothenSpectrumFit sqrt Fit resizedJetPtLocal fit.fFitMin fit.fFitMax fit.fFitStart counts
  else resizedJetPtLocal

/-! ## The diagnostic ratio of the unfolding routines -/

/-- Step 3 of `UnfoldSpectrumChi2`, the graph written as
`RatioRefoldedMeasured`: `GetRatio(foldedLocal, resizedJetPtLocal, kTRUE,
fBinsTrue->At(0), fBinsTrue->At(fBinsTrue->GetSize()-1))`; the last argument
is converted to the `Int_t` parameter `xmax`. -/
def UnfoldSpectrumChi2_ratio {α : Type} [LinearOrderedField α] [FloorRing α] (sqrt : α → α)
    (foldedLocal resizedJetPtLocal : Option (TH1 α)) (fBinsTrue : TArrayD α) :
    Option (List (GraphPoint α)) :=
  GetRatio sqrt foldedLocal resizedJetPtLocal (toInt (fBinsTrue.At (fBinsTrue.GetSize - 1)))

/-- Step 7 of `UnfoldSpectrumSVD` and of `UnfoldSpectrumSVDlegacy`, the graph
written as `RatioRefoldedMeasured`: `GetRatio(cachedRawJetLocal,
foldedLocalSVD, "ratio  measured / re-folded", kTRUE)`; `xmax` is the default
value of the last parameter, which the header declares. -/
def UnfoldSpectrumSVD_ratio {α : Type} [LinearOrderedField α] (sqrt : α → α)
    (cachedRawJetLocal foldedLocalSVD : Option (TH1 α)) (xmax : Int) :
    Option (List (GraphPoint α)) :=
  GetRatio sqrt cachedRawJetLocal foldedLocalSVD xmax

/-! ## The prior of the SVD routines -/

/-- The priors `fPrior` selects. -/
inductive prior where
  | kPriorChi2
  | kPriorMeasured
  deriving DecidableEq

/-- The binning members of an `AliJetFlowTools` object: the configured
binning and the optional binning for the chi-square prior. -/
structure Binning (α : Type) where
  fBinsTrue : Option (TArrayD α)
  fBinsRec : Option (TArrayD α)
  fBinsTruePrior : Option (TArrayD α)
  fBinsRecPrior : Option (TArrayD α)

/-- Step 1 of `UnfoldSpectrumSVD` and of `UnfoldSpectrumSVDlegacy` (the
`kPriorChi2` case has the same text in both): `none` when the step ends in
`return kFALSE`, otherwise the prior left in `unfolded`; and the binning
members the step leaves.  `chi2 fBinsTrue fBinsRec` is the return value of the
call of `UnfoldSpectrumChi2` made while the object has that binning and the
spectrum it leaves in `unfolded`; `measuredPrior` is the prior the
`kPriorMeasured` case builds from the unfolding template. -/
def UnfoldSpectrumSVD_prior {α : Type} [LinearOrderedField α] (fPrior : prior)
    (chi2 : Option (TArrayD α) → Option (TArrayD α) → Bool × Option (TH1 α))
    (measuredPrior : Option (TH1 α)) (b : Binning α) :
    Option (Option (TH1 α)) × Binning α :=
  match fPrior with
  | .kPriorChi2 =>
    if b.fBinsTruePrior.isSome ∧ b.fBinsRecPrior.isSome then
      let tempArrayTrue := b.fBinsTrue
      let b := { b with fBinsTrue := b.fBinsTruePrior }
      let tempArrayRec := b.fBinsRec
      let b := { b with fBinsRec := b.fBinsRecPrior }
      let r := chi2 b.fBinsTrue b.fBinsRec
      if ¬ r.1 then (none, b)
      else
        let b := { b with fBinsTrue := tempArrayTrue }
        let b := { b with fBinsRec := tempArrayRec }
        let unfolded := GetUnfoldingTemplate r.2 b.fBinsTrue
        if unfolded.isNone then (none, b) else (some unfolded, b)
    else
      let r := chi2 b.fBinsTrue b.fBinsRec
      if ¬ r.1 then (none, b)
      else if r.2.isNone then (none, b)
      else (some r.2, b)
  | .kPriorMeasured => (some measuredPrior, b)

/-- `AliJetFlowTools::UnfoldSpectrumSVD`, its return value and the binning
members it leaves: false when step 1 returns; otherwise what the steps 2 to 7,
which do not assign the binning members, return for the prior. -/
def UnfoldSpectrumSVD {α : Type} [LinearOrderedField α] (fPrior : prior)
    (chi2 : Option (TArrayD α) → Option (TArrayD α) → Bool × Option (TH1 α))
    (measuredPrior : Option (TH1 α)) (steps : Option (TH1 α) → Bool) (b : Binning α) :
    Bool × Binning α :=
  match UnfoldSpectrumSVD_prior fPrior chi2 measuredPrior b with
  | (none, b) => (false, b)
  | (some unfolded, b) => (steps unfolded, b)

/-- `AliJetFlowTools::UnfoldSpectrumSVDlegacy`, its return value and the
binning members it leaves: false when step 1 returns; otherwise what the later
steps, which do not assign the binning members, return for the prior. -/
def UnfoldSpectrumSVDlegacy {α : Type} [LinearOrderedField α] (fPrior : prior)
    (chi2 : Option (TArrayD α) → Option (TArrayD α) → Bool × Option (TH1 α))
    (measuredPrior : Option (TH1 α)) (steps : Option (TH1 α) → Bool) (b : Binning α) :
    Bool × Binning α :=
  match UnfoldSpectrumSVD_prior fPrior chi2 measuredPrior b with
  | (none, b) => (false, b)
  | (some unfolded, b) => (steps unfolded, b)

/-! ## ResetAliUnfolding -/

/-- The static members of the library class `AliUnfolding` that
`ResetAliUnfolding` assigns, and the two members in which the library's
setters `SetUnfoldingMethod` and `SetChi2Regularization` store the method and
the regularization type; a null pointer is `none`. -/
structure AliUnfolding (α γ : Type) where
  fgCorrelationMatrix : Option γ
  fgCorrelationMatrixSquared : Option γ
  fgCorrelationCovarianceMatrix : Option γ
  fgCurrentESDVector : Option γ
  fgEntropyAPriori : Option γ
  fgEfficiency : Option γ
  fgUnfoldedAxis : Option γ
  fgMeasuredAxis : Option γ
  fgFitFunction : Option γ
  fgMaxInput : Int
  fgMaxParams : Int
  fgOverflowBinLimit : Int
  fgRegularizationWeight : α
  fgSkipBinsBegin : Int
  fgMinuitStepSize : α
  fgMinuitPrecision : α
  fgMinuitMaxIterations : Int
  fgMinuitStrategy : α
  fgMinimumInitialValue : Bool
  fgMinimumInitialValueFix : Int
  fgNormalizeInput : Bool
  fgNotFoundEvents : Int
  fgSkipBin0InChi2 : Bool
  fgBayesianSmoothing : Int
  fgBayesianIterations : Int
  fgDebug : Bool
  fgCallCount : Int
  fgPowern : Int
  fChi2FromFit : α
  fPenaltyVal : α
  fAvgResidual : α
  fgPrintChi2Details : Int
  fgCanvas : Option γ
  fghUnfolded : Option γ
  fghCorrelation : Option γ
  fghEfficiency : Option γ
  fghMeasured : Option γ
  fgMethodType : Int
  fgRegularizationType : Int

/-- `AliUnfolding::SetMinuitStepSize`. -/
def AliUnfolding.SetMinuitStepSize {α γ : Type} (u : AliUnfolding α γ) (stepSize : α) :
    AliUnfolding α γ :=
  { u with fgMinuitStepSize := stepSize }

/-- `AliUnfolding::SetMinuitPrecision`. -/
def AliUnfolding.SetMinuitPrecision {α γ : Type} (u : AliUnfolding α γ) (pr : α) :
    AliUnfolding α γ :=
  { u with fgMinuitPrecision := pr }

/-- `AliUnfolding::SetMinuitMaxIterations`. -/
def AliUnfolding.SetMinuitMaxIterations {α γ : Type} (u : AliUnfolding α γ) (iter : Int) :
    AliUnfolding α γ :=
  { u with fgMinuitMaxIterations := iter }

/-- `AliUnfolding::SetMinuitStrategy`. -/
def AliUnfolding.SetMinuitStrategy {α γ : Type} (u : AliUnfolding α γ) (str : α) :
    AliUnfolding α γ :=
  { u with fgMinuitStrategy := str }

/-- `AliUnfolding::SetDebug`. -/
def AliUnfolding.SetDebug {α γ : Type} (u : AliUnfolding α γ) (flag : Bool) :
    AliUnfolding α γ :=
  { u with fgDebug := flag }

/-- `AliUnfolding::SetUnfoldingMethod`. -/
def AliUnfolding.SetUnfoldingMethod {α γ : Type} (u : AliUnfolding α γ) (methodType : Int) :
    AliUnfolding α γ :=
  { u with fgMethodType := methodType }

/-- `AliUnfolding::SetChi2Regularization`. -/
def AliUnfolding.SetChi2Regularization {α γ : Type} (u : AliUnfolding α γ) (type : Int)
    (weight : α) : AliUnfolding α γ :=
  { u with fgRegularizationType := type, fgRegularizationWeight := weight }

/-- `AliUnfolding::SetNbins`. -/
def AliUnfolding.SetNbins {α γ : Type} (u : AliUnfolding α γ) (nMeasured nUnfolded : Int) :
    AliUnfolding α γ :=
  { u with fgMaxInput := nMeasured, fgMaxParams := nUnfolded }

/-- The global state of the fitting machinery: the static members of
`AliUnfolding`, the global fitter `TVirtualFitter::GetFitter()` and the global
minimizer `gMinuit`. -/
structure FitGlobals (α γ : Type) where
  unfolding : AliUnfolding α γ
  fitter : Option γ
  gMinuit : Option γ

/-- `AliJetFlowTools::ResetAliUnfolding`: a fitter that is found is deleted
(`deleteFitter f g` is what its destructor leaves in `gMinuit`, which it may
own); a `gMinuit` that is found is deleted and re-created (`newTMinuit`); the
static members of `AliUnfolding` are assigned their values one by one; then the
setters for step size, precision, maximum number of iterations, strategy and
debug flag are called. -/
def ResetAliUnfolding {α γ : Type} [LinearOrderedField α] (newTMinuit : γ)
    (deleteFitter : γ → Option γ → Option γ) (g : FitGlobals α γ) : FitGlobals α γ :=
  let gMinuit :=
    match g.fitter with
    | some fitter => deleteFitter fitter g.gMinuit
    | none => g.gMinuit
  let gMinuit := if gMinuit.isSome then some newTMinuit else gMinuit
  let u : AliUnfolding α γ :=
    { g.unfolding with
      fgCorrelationMatrix := none
      fgCorrelationMatrixSquared := none
      fgCorrelationCovarianceMatrix := none
      fgCurrentESDVector := none
      fgEntropyAPriori := none
      fgEfficiency := none
      fgUnfoldedAxis := none
      fgMeasuredAxis := none
      fgFitFunction := none
      fgMaxInput := -1
      fgMaxParams := -1
      fgOverflowBinLimit := -1
      fgRegularizationWeight := 10000
      fgSkipBinsBegin := 0
      fgMinuitStepSize := 1 / 10
      fgMinuitPrecision := 1 / 10 ^ 6
      fgMinuitMaxIterations := 1000000
      fgMinuitStrategy := 1
      fgMinimumInitialValue := false
      fgMinimumInitialValueFix := -1
      fgNormalizeInput := false
      fgNotFoundEvents := 0
      fgSkipBin0InChi2 := false
      fgBayesianSmoothing := 1
      fgBayesianIterations := 10
      fgDebug := false
      fgCallCount := 0
      fgPowern := 5
      fChi2FromFit := 0
      fPenaltyVal := 0
      fAvgResidual := 0
      fgPrintChi2Details := 0
      fgCanvas := none
      fghUnfolded := none
      fghCorrelation := none
      fghEfficiency := none
      fghMeasured := none }
  let u := u.SetMinuitStepSize 1
  let u := u.SetMinuitPrecision (1 / 10 ^ 6)
  let u := u.SetMinuitMaxIterations 100000
  let u := u.SetMinuitStrategy 2
  let u := u.SetDebug true
  { unfolding := u, fitter := none, gMinuit := gMinuit }

/-- Step 0 of `UnfoldSpectrumChi2`, the set-up of the static members of
`AliUnfolding`: the reset, the unfolding method, the regularization (type
`kLogLog`, weight `fBetaIn` for the suffixes `in` and `prior_in`, `fBetaOut`
for `out` and `prior_out`), and the numbers of bins.  The constants
`kChi2Minimization` and `kLogLog` are declared in the library's header. -/
def UnfoldSpectrumChi2_setup {α γ : Type} [LinearOrderedField α] (newTMinuit : γ)
    (deleteFitter : γ → Option γ → Option γ) (kChi2Minimization kLogLog : Int)
    (suffix : String) (fBetaIn fBetaOut : α) (fBinsRec fBinsTrue : TArrayD α)
    (g : FitGlobals α γ) : FitGlobals α γ :=
  let g := ResetAliUnfolding newTMinuit deleteFitter g
  let u := g.unfolding.SetUnfoldingMethod kChi2Minimization
  let u :=
    if suffix = "in" then u.SetChi2Regularization kLogLog fBetaIn
    else if suffix = "out" then u.SetChi2Regularization kLogLog fBetaOut
    else u
  let u :=
    if suffix = "prior_in" then u.SetChi2Regularization kLogLog fBetaIn
    else if suffix = "prior_out" then u.SetChi2Regularization kLogLog fBetaOut
    else u
  let u := u.SetNbins ((fBinsRec.GetSize : Int) - 1) ((fBinsTrue.GetSize : Int) - 1)
  { g with unfolding := u }

/-- A solver stub whose first call reports the positive status `4` (a failed
minimisation) and whose later calls report status `0` with a reliable Hessian. -/
def stubFailsOnceWithStatus4 : Nat → FitReport Unit :=
  fun i => if i = 0 then { status := 4, fISW1 := 0, unfolded := () }
    else { status := 0, fISW1 := 3, unfolded := () }

/-- A solver stub whose first call reports the negative status `-1` and whose
later calls report status `0` with a reliable Hessian. -/
def stubFailsOnceWithStatusNeg : Nat → FitReport Unit :=
  fun i => if i = 0 then { status := -1, fISW1 := 0, unfolded := () }
    else { status := 0, fISW1 := 3, unfolded := () }

/-- A one-bin spectrum over `[0, 1)` with content `1` and error `0`. -/
def flatSpectrum : TH1 ℝ :=
  { xaxis := { nbins := 1, edges := fun i => (i : ℝ) },
    content := fun _ => 1, error := fun _ => 0 }

/-- A plane on which the chi-square solver converges at its first call, with a
reliable Hessian. -/
def planeConverging : PlaneRun ℝ :=
  { solver := fun _ => { status := 0, fISW1 := 3, unfolded := flatSpectrum },
    unfoldedLocal := flatSpectrum, fISW1 := 0,
    svd := (true, some flatSpectrum), svdLegacy := (true, some flatSpectrum),
    resizedJetPt := flatSpectrum }

/-- A plane on which every call of the chi-square solver reports the failure
status `4`. -/
def planeFailing : PlaneRun ℝ :=
  { solver := fun _ => { status := 4, fISW1 := 0, unfolded := flatSpectrum },
    unfoldedLocal := flatSpectrum, fISW1 := 0,
    svd := (false, some flatSpectrum), svdLegacy := (false, some flatSpectrum),
    resizedJetPt := flatSpectrum }

/-- A delta-pt distribution with three unit bins centred at `0`, `1`, `2`
and contents `1`, `0`, `5`. -/
def dptWithGap : TH1 ℚ :=
  { xaxis := { nbins := 3, edges := fun i => (i : ℚ) - 1 / 2 },
    content := fun c => if c = 1 then 1 else if c = 3 then 5 else 0,
    error := fun _ => 0 }

/-- A one-bin spectrum with content `8` and bin error `4` (variance `16`). -/
def spectrumEightFour : TH1 ℚ :=
  { xaxis := { nbins := 1, edges := fun i => (i : ℚ) },
    content := fun c => if c = 1 then 8 else 0,
    error := fun c => if c = 1 then 4 else 0 }

/-- A one-bin spectrum over `[0, 1)` with content `1` and error `1`. -/
def unitErrorSpectrum : TH1 ℝ :=
  { xaxis := { nbins := 1, edges := fun i => (i : ℝ) },
    content := fun _ => 1, error := fun _ => 1 }

/-- An axis with `n` bins of unit width starting at `0`. -/
def unitAxis (n : Nat) : TAxis ℚ := { nbins := n, edges := fun i => (i : ℚ) }

/-- A histogram with one x bin and one y bin, content `1` in its in-range cell. -/
def oneByOne : TH2D ℚ :=
  { xaxis := unitAxis 1, yaxis := unitAxis 1,
    content := fun x y => if x = 1 ∧ y = 1 then 1 else 0,
    error := fun _ _ => 0 }

/-- A histogram with three x bins and one y bin, contents `1, 2, 3`. -/
def threeByOne : TH2D ℚ :=
  { xaxis := unitAxis 3, yaxis := unitAxis 1,
    content := fun x y => if y = 1 ∧ 1 ≤ x ∧ x ≤ 3 then (x : ℚ) else 0,
    error := fun _ _ => 0 }

/-- A histogram with one x bin and one y bin, content `-1` in its in-range
cell. -/
def minusOneByOne : TH2D ℚ :=
  { xaxis := unitAxis 1, yaxis := unitAxis 1,
    content := fun x y => if x = 1 ∧ y = 1 then -1 else 0,
    error := fun _ _ => 0 }

/-- A spectrum with four unit bins on `[0, 4)` and contents `1, 2, 3, 4`. -/
def fourBinSpectrum : TH1 ℚ :=
  { xaxis := unitAxis 4,
    content := fun c => if 1 ≤ c ∧ c ≤ 4 then (c : ℚ) else 0,
    error := fun _ => 0 }

/-- The bin borders `0, 2, 4`. -/
def twoBinBorders : TArrayD ℚ := { fN := 3, fArray := fun i => 2 * (i : ℚ) }

/-- A jet histogram with 40 angle bins and one momentum bin, every in-range
cell holding `1`. -/
def jetFortyAngleBins : TH2D ℚ :=
  { xaxis := unitAxis 40, yaxis := unitAxis 1,
    content := fun x y => if (1 ≤ x ∧ x ≤ 40) ∧ y = 1 then 1 else 0,
    error := fun _ _ => 0 }

/-- An input list that holds the jet spectrum and the event-count histogram
(with 10 entries) for every centrality bin, but no delta-pt histogram. -/
def listWithoutDeltaPt : TList ℚ :=
  { fHistJetPsi2Pt := fun _ => some jetFortyAngleBins,
    fHistRho := fun _ => some 10,
    fHistDeltaPtDeltaPhi2 := fun _ => none }

/-- A completely configured object (input list, detector response and both
binning arrays set) whose input list lacks the delta-pt histogram. -/
def stateWithoutDeltaPt : State ℚ :=
  { State.init ℚ with
    fInputList := some listWithoutDeltaPt
    fDetectorResponse := some oneByOne
    fBinsTrue := some twoBinBorders
    fBinsRec := some twoBinBorders }

/-- A one-bin spectrum over `[0, 1)` with content `5` and error `2`. -/
def spectrumFiveTwo : TH1 ℝ :=
  { xaxis := { nbins := 1, edges := fun i => (i : ℝ) },
    content := fun c => if c = 1 then 5 else 0,
    error := fun c => if c = 1 then 2 else 0 }

/-- The `2 × 2` histogram with contents `1` and `2` on the diagonal: its true
slices sum to `1` and to `2`. -/
def diagOneTwo : TH2D ℚ :=
  { xaxis := unitAxis 2, yaxis := unitAxis 2,
    content := fun x y => if x = 1 ∧ y = 1 then 1 else if x = 2 ∧ y = 2 then 2 else 0,
    error := fun _ _ => 0 }

/-- The `2 × 2` histogram with content `1` in every in-range cell. -/
def allOnesTwoByTwo : TH2D ℚ :=
  { xaxis := unitAxis 2, yaxis := unitAxis 2,
    content := fun x y => if (1 ≤ x ∧ x ≤ 2) ∧ (1 ≤ y ∧ y ≤ 2) then 1 else 0,
    error := fun _ _ => 0 }

/-- The covariance matrix `diag(1, 0)`: one bin with unit variance, one bin
with zero variance, no covariance. -/
def covDiagOneZero : TMatrixD ℝ :=
  { nrows := 2, ncols := 2, elem := fun r c => if r = 0 ∧ c = 0 then 1 else 0 }

/-- The `2 × 2` histogram with content `1/2` in every in-range cell: both true
slices sum to `1`. -/
def halvesTwoByTwo : TH2D ℚ :=
  { xaxis := unitAxis 2, yaxis := unitAxis 2,
    content := fun x y => if (1 ≤ x ∧ x ≤ 2) ∧ (1 ≤ y ∧ y ≤ 2) then 1 / 2 else 0,
    error := fun _ _ => 0 }

/-- The `2 × 2` histogram with content `1` in the cells `(1, 2)` and `(2, 1)`:
both true slices sum to `1`. -/
def swapTwoByTwo : TH2D ℚ :=
  { xaxis := unitAxis 2, yaxis := unitAxis 2,
    content := fun x y => if (x = 1 ∧ y = 2) ∨ (x = 2 ∧ y = 1) then 1 else 0,
    error := fun _ _ => 0 }

/-- A histogram with one x bin and three y bins, content `1` in every
in-range cell. -/
def oneByThree : TH2D ℚ :=
  { xaxis := unitAxis 1, yaxis := unitAxis 3,
    content := fun x y => if x = 1 ∧ 1 ≤ y ∧ y ≤ 3 then 1 else 0,
    error := fun _ _ => 0 }

/-- A fit that converges (status `0`, fitted function identically `0`) on a
range `min < max` and fails (status `4`) on an empty range. -/
def fitNeedsRange : TH1 ℚ → ℚ → ℚ → Int × (ℚ → ℚ → ℚ) :=
  fun _ min max => (if min < max then 0 else 4, fun _ _ => 0)

/-- The fit range the constructor sets: `fFitMin = 60`, `fFitMax = 105`,
`fFitStart = 75`. -/
def fitRangeDefault : FitRange ℚ := { fFitMin := 60, fFitMax := 105, fFitStart := 75 }

/-- A one-bin spectrum over `[0, 200)` with content `8` and error `4`. -/
def spectrumWideBin : TH1 ℚ :=
  { xaxis := { nbins := 1, edges := fun i => 200 * (i : ℚ) },
    content := fun c => if c = 1 then 8 else 0,
    error := fun c => if c = 1 then 4 else 0 }

/-- A one-bin spectrum over `[0, 1)` with content `4` and error `0`. -/
def spectrumFourZero : TH1 ℚ :=
  { xaxis := { nbins := 1, edges := fun i => (i : ℚ) },
    content := fun c => if c = 1 then 4 else 0,
    error := fun _ => 0 }

/-- The bin borders `0, 1`. -/
def oneBinBorders : TArrayD ℚ := { fN := 2, fArray := fun i => (i : ℚ) }

/-- A configured object with normalization switched off and the stored event
count `2`. -/
def stateCountTwoNoNormalize : State ℚ :=
  { State.init ℚ with
    fBinsTrue := some twoBinBorders
    fBinsRec := some twoBinBorders
    fNormalizeSpectra := false
    fEventCount := 2 }

/-- The static members of `AliUnfolding` with every pointer null and every
number zero. -/
def unfoldingBlank : AliUnfolding ℚ Unit :=
  { fgCorrelationMatrix := none, fgCorrelationMatrixSquared := none,
    fgCorrelationCovarianceMatrix := none, fgCurrentESDVector := none,
    fgEntropyAPriori := none, fgEfficiency := none, fgUnfoldedAxis := none,
    fgMeasuredAxis := none, fgFitFunction := none, fgMaxInput := 0, fgMaxParams := 0,
    fgOverflowBinLimit := 0, fgRegularizationWeight := 0, fgSkipBinsBegin := 0,
    fgMinuitStepSize := 0, fgMinuitPrecision := 0, fgMinuitMaxIterations := 0,
    fgMinuitStrategy := 0, fgMinimumInitialValue := false, fgMinimumInitialValueFix := 0,
    fgNormalizeInput := false, fgNotFoundEvents := 0, fgSkipBin0InChi2 := false,
    fgBayesianSmoothing := 0, fgBayesianIterations := 0, fgDebug := false, fgCallCount := 0,
    fgPowern := 0, fChi2FromFit := 0, fPenaltyVal := 0, fAvgResidual := 0,
    fgPrintChi2Details := 0, fgCanvas := none, fghUnfolded := none, fghCorrelation := none,
    fghEfficiency := none, fghMeasured := none, fgMethodType := 0, fgRegularizationType := 0 }

/-- A global state in which nothing has run yet. -/
def globalsBlank : FitGlobals ℚ Unit :=
  { unfolding := unfoldingBlank, fitter := none, gMinuit := none }

/-- A global state a previous unfolding has left: a fitter and a minimizer
exist, a correlation matrix and a cached vector are set, and step size,
regularization and fit results hold values of that run. -/
def globalsStale : FitGlobals ℚ Unit :=
  { unfolding :=
      { unfoldingBlank with
        fgCorrelationMatrix := some ()
        fgCurrentESDVector := some ()
        fgMinuitStepSize := 5
        fgMinuitMaxIterations := 7
        fgRegularizationWeight := 3
        fgRegularizationType := 2
        fgMethodType := 1
        fChi2FromFit := 12
        fPenaltyVal := 4
        fgCallCount := 250 }
    fitter := some ()
    gMinuit := some () }

/-- A spectrum with two bins of width `1` at `10^8`, borders `10^8`,
`10^8 + 1`, `10^8 + 2`, with contents `1` and `3` and errors `0`. -/
def spectrumNarrowBins : TH1 ℝ :=
  { xaxis := { nbins := 2, edges := fun i => 100000000 + (i : ℝ) },
    content := fun c => if c = 1 then 1 else if c = 2 then 3 else 0,
    error := fun _ => 0 }

/-- A configured object with normalization switched off and the event count
`-1` the constructor sets. -/
def stateNoNormalize : State ℚ :=
  { State.init ℚ with
    fBinsTrue := some twoBinBorders
    fBinsRec := some twoBinBorders
    fNormalizeSpectra := false }

/-- A one-bin spectrum over `[0, 1)` with content `-1` and error `1`. -/
def spectrumMinusOne : TH1 ℝ :=
  { xaxis := { nbins := 1, edges := fun i => (i : ℝ) },
    content := fun _ => -1, error := fun _ => 1 }


end AliJetFlowTools

namespace AliIsolationCut

/-! ## AliIsolationCut -/

/-- The isolation methods `fICMethod` selects. -/
inductive ICMethod where
  | kPtThresIC
  | kSumPtIC
  | kPtFracIC
  | kSumPtFracIC
  | kSumDensityIC
  | kSumBkgSubIC
  deriving DecidableEq

/-- The kinds of particles `fPartInCone` selects. -/
inductive PartInCone where
  | kNeutralAndCharged
  | kOnlyNeutral
  | kOnlyCharged
  deriving DecidableEq

/-- The data members of an `AliIsolationCut` object that the cone scans and
the isolation decision read. -/
structure Members (α : Type) where
  fConeSize : α
  fPtThreshold : α
  fPtThresholdMax : α
  fSumPtThreshold : α
  fSumPtThresholdMax : α
  fPtFraction : α
  fICMethod : ICMethod
  fPartInCone : PartInCone
  fFracIsThresh : Bool
  fIsTMClusterInConeRejected : Bool
  fDistMinToTrigger : α

/-- The values `InitParameters` sets (the constructor sets
`fIsTMClusterInConeRejected`). -/
def InitParameters (α : Type) [Field α] : Members α :=
  { fConeSize := 4 / 10, fPtThreshold := 5 / 10, fPtThresholdMax := 10000,
    fSumPtThreshold := 1, fSumPtThresholdMax := 10000, fPtFraction := 1 / 10,
    fPartInCone := .kNeutralAndCharged, fICMethod := .kSumPtIC, fFracIsThresh := true,
    fIsTMClusterInConeRejected := true, fDistMinToTrigger := -1 }

/-- The candidate particle: transverse momentum, pseudorapidity and azimuthal
angle, as the values the `Float_t` locals hold. -/
structure Candidate (α : Type) where
  Pt : α
  Eta : α
  Phi : α

/-- An entry of the list of tracks or clusters a cone scan loops over: its
kinematics (as the values the `Float_t` locals hold); whether the object has
one of the types the scan reads; whether it is the candidate itself or one of
its daughters (its label is one of the candidate's); and, for a cluster,
whether it is matched to a track. -/
structure Particle (α : Type) where
  Pt : α
  Eta : α
  Phi : α
  valid : Bool
  ownLabel : Bool
  trackMatched : Bool

/-- The variables a cone scan updates: the counters `nPart` and `nfrac`, the
momentum sum and the leading momentum in the cone, and the momentum sums in
the two bands outside the cone. -/
structure ConeSignal (α : Type) where
  nPart : Int
  nfrac : Int
  coneptsum : α
  coneptLead : α
  etaBandPtSum : α
  phiBandPtSum : α

/-- `AliIsolationCut::Radius`. -/
def Radius {α : Type} [LinearOrderedField α] (sqrt : α → α) (pi : α) (etaC phiC eta phi : α) :
    α :=
  let dEta := etaC - eta
  let dPhi := phiC - phi
  let dPhi := if |dPhi| ≥ pi then 2 * pi - |dPhi| else dPhi
  sqrt (dEta * dEta + dPhi * dPhi)

/-- The counting of a particle of momentum `pt` found in the cone: `nPart` is
incremented when `pt` lies between the two thresholds, `nfrac` when `pt`
exceeds the fraction threshold (the fixed threshold when `fFracIsThresh` is set
and the fraction of the candidate's momentum is below it). -/
def countInCone {α : Type} [LinearOrderedField α] (cut : Members α) (ptC pt : α)
    (s : ConeSignal α) : ConeSignal α :=
  let s := if pt > cut.fPtThreshold ∧ pt < cut.fPtThresholdMax then
    { s with nPart := s.nPart + 1 } else s
  if cut.fFracIsThresh then
    if cut.fPtFraction * ptC < cut.fPtThreshold then
      if pt > cut.fPtThreshold then { s with nfrac := s.nfrac + 1 } else s
    else
      if pt > cut.fPtFraction * ptC then { s with nfrac := s.nfrac + 1 } else s
  else
    if pt > cut.fPtFraction * ptC then { s with nfrac := s.nfrac + 1 } else s

/-- `AliIsolationCut::CalculateTrackSignalInCone`: nothing when only neutral
particles are selected or the track list is missing; otherwise every track
that is not left out, is not closer than `fDistMinToTrigger`, lies on the
candidate's side in azimuth and has a distance that does not exceed the cone
size is added to the sum, compared with the leading momentum and counted. -/
def CalculateTrackSignalInCone {α : Type} [LinearOrderedField α] (cut : Members α)
    (sqrt : α → α) (pi : α) (pCandidate : Candidate α) (plCTS : Option (List (Particle α)))
    (s : ConeSignal α) : ConeSignal α :=
  if cut.fPartInCone = .kOnlyNeutral then s
  else
    match plCTS with
    | none => s
    | some plCTS =>
      let ptTrig := pCandidate.Pt
      let phiTrig := if pCandidate.Phi < 0 then pCandidate.Phi + 2 * pi else pCandidate.Phi
      let etaTrig := pCandidate.Eta
      plCTS.foldl (fun (s : ConeSignal α) (track : Particle α) =>
        if ¬ track.valid ∨ track.ownLabel then s
        else
          let ptTrack := track.Pt
          let etaTrack := track.Eta
          let phiTrack := if track.Phi < 0 then track.Phi + 2 * pi else track.Phi
          let rad := Radius sqrt pi etaTrig phiTrig etaTrack phiTrack
          if rad < cut.fDistMinToTrigger then s
          else
            let s :=
              if rad > cut.fConeSize then
                let s := if etaTrack > etaTrig - cut.fConeSize ∧ etaTrack < etaTrig + cut.fConeSize
                  then { s with phiBandPtSum := s.phiBandPtSum + ptTrack } else s
                if phiTrack > phiTrig - cut.fConeSize ∧ phiTrack < phiTrig + cut.fConeSize
                  then { s with etaBandPtSum := s.etaBandPtSum + ptTrack } else s
              else s
            if |phiTrack - phiTrig| > pi / 2 then s
            else if rad > cut.fConeSize then s
            else
              let s : ConeSignal α := { s with coneptsum := s.coneptsum + ptTrack }
              let s := if s.coneptLead < ptTrack then { s with coneptLead := ptTrack } else s
              countInCone cut ptTrig ptTrack s) s

/-- `AliIsolationCut::CalculateCaloSignalInCone`: nothing when only charged
particles are selected or the cluster list is missing; otherwise every cluster
that is not left out (a track-matched cluster is left out when that is
requested and neutral and charged particles are selected), is not closer than
`fDistMinToTrigger`, lies on the candidate's side in azimuth and has a distance
below the cone size is added to the sum, compared with the leading momentum
and counted.  The filling of histograms is left out; for a missing cluster
list the source fills two of them before it returns, whether or not histograms
were requested, which needs them to exist. -/
def CalculateCaloSignalInCone {α : Type} [LinearOrderedField α] (cut : Members α)
    (sqrt : α → α) (pi : α) (pCandidate : Candidate α) (plNe : Option (List (Particle α)))
    (s : ConeSignal α) : ConeSignal α :=
  if cut.fPartInCone = .kOnlyCharged then s
  else
    match plNe with
    | none => s
    | some plNe =>
      let ptC := pCandidate.Pt
      let phiC := if pCandidate.Phi < 0 then pCandidate.Phi + 2 * pi else pCandidate.Phi
      let etaC := pCandidate.Eta
      plNe.foldl (fun (s : ConeSignal α) (calo : Particle α) =>
        if ¬ calo.valid ∨ calo.ownLabel then s
        else if cut.fIsTMClusterInConeRejected ∧ cut.fPartInCone = .kNeutralAndCharged
            ∧ calo.trackMatched then s
        else
          let pt := calo.Pt
          let eta := calo.Eta
          let phi := if calo.Phi < 0 then calo.Phi + 2 * pi else calo.Phi
          let rad := Radius sqrt pi etaC phiC eta phi
          if rad < cut.fDistMinToTrigger then s
          else
            let s :=
              if rad > cut.fConeSize then
                let s := if eta > etaC - cut.fConeSize ∧ eta < etaC + cut.fConeSize
                  then { s with phiBandPtSum := s.phiBandPtSum + pt } else s
                if phi > phiC - cut.fConeSize ∧ phi < phiC + cut.fConeSize
                  then { s with etaBandPtSum := s.etaBandPtSum + pt } else s
              else s
            if |phi - phiC| > pi / 2 then s
            else if rad < cut.fConeSize then
              let s : ConeSignal α := { s with coneptsum := s.coneptsum + pt }
              let s := if s.coneptLead < pt then { s with coneptLead := pt } else s
              countInCone cut ptC pt s
            else s) s

/-- What `MakeIsolationCut` leaves: the output parameters `nPart`, `nfrac`,
`coneptsum`, `ptLead` and `isolated`, and the two leading momenta it stores in
the candidate. -/
structure IsolationResult (α : Type) where
  nPart : Int
  nfrac : Int
  coneptsum : α
  ptLead : α
  isolated : Bool
  ChargedLeadPtInCone : α
  NeutralLeadPtInCone : α

/-- `AliIsolationCut::MakeIsolationCut` (histogram filling left out): `nPart`,
`nfrac` and `isolated` are reset, the track scan and the cluster scan are run,
`coneptsum` is set to the sum of the two cone sums, the leading-particle checks
are made on `ptLead`, and `isolated` (with `coneptsum`, which the background
subtraction changes) is decided by the selected method.
`ptLead` is the value the reference parameter has at entry; `cellDensity` is
what `GetCellDensity` returns and `coneptsumBkg` the background the band
normalization gives, both computed from the event reader. -/
def MakeIsolationCut {α : Type} [LinearOrderedField α] (cut : Members α) (sqrt : α → α)
    (pi : α) (pCandidate : Candidate α) (plCTS plNe : Option (List (Particle α)))
    (cellDensity coneptsumBkg : α) (ptLead : α) : IsolationResult α :=
  let ptC := pCandidate.Pt
  let track := CalculateTrackSignalInCone cut sqrt pi pCandidate plCTS
    { nPart := 0, nfrac := 0, coneptsum := 0, coneptLead := 0, etaBandPtSum := 0,
      phiBandPtSum := 0 }
  let calo := CalculateCaloSignalInCone cut sqrt pi pCandidate plNe
    { nPart := track.nPart, nfrac := track.nfrac, coneptsum := 0, coneptLead := 0,
      etaBandPtSum := 0, phiBandPtSum := 0 }
  let coneptsumTrack := track.coneptsum
  let coneptLeadTrack := track.coneptLead
  let coneptsumCluster := calo.coneptsum
  let coneptLeadCluster := calo.coneptLead
  let nPart := calo.nPart
  let nfrac := calo.nfrac
  let coneptsum := coneptsumCluster + coneptsumTrack
  let nPart := if ptLead > cut.fPtThreshold ∧ ptLead < cut.fPtThresholdMax then 1 else nPart
  let nfrac :=
    if cut.fFracIsThresh then
      if cut.fPtFraction * ptC < cut.fPtThreshold then
        if ptLead > cut.fPtThreshold then 1 else nfrac
      else
        if ptLead > cut.fPtFraction * ptC then 1 else nfrac
    else
      if ptLead > cut.fPtFraction * ptC then 1 else nfrac
  let decision : α × Bool :=
    match cut.fICMethod with
    | .kPtThresIC => (coneptsum, decide (nPart = 0))
    | .kSumPtIC =>
      (coneptsum,
        if coneptsum > cut.fSumPtThreshold ∧ coneptsum < cut.fSumPtThresholdMax then false
        else true)
    | .kPtFracIC => (coneptsum, decide (nfrac = 0))
    | .kSumPtFracIC =>
      if cut.fFracIsThresh then
        let isolated :=
          if cut.fPtFraction * ptC < cut.fSumPtThreshold ∧ coneptsum < cut.fSumPtThreshold
          then true else false
        let isolated :=
          if cut.fPtFraction * ptC > cut.fSumPtThreshold ∧ coneptsum < cut.fPtFraction * ptC
          then true else isolated
        (coneptsum, isolated)
      else (coneptsum, decide (coneptsum < cut.fPtFraction * ptC))
    | .kSumDensityIC => (coneptsum, decide (coneptsum < cut.fSumPtThreshold * cellDensity))
    | .kSumBkgSubIC =>
      let coneptsum := coneptsumCluster + coneptsumTrack
      let coneptsum := coneptsum - coneptsumBkg
      (coneptsum,
        if coneptsum > cut.fSumPtThreshold ∧ coneptsum < cut.fSumPtThresholdMax then false
        else true)
  { nPart := nPart, nfrac := nfrac, coneptsum := decision.1, ptLead := ptLead,
    isolated := decision.2, ChargedLeadPtInCone := coneptLeadTrack,
    NeutralLeadPtInCone := coneptLeadCluster }

/-- A candidate with momentum `10` at `eta = 0`, `phi = 0`. -/
def candidateTen : Candidate ℝ := { Pt := 10, Eta := 0, Phi := 0 }

/-- A track with momentum `5` in the direction of `candidateTen`. -/
def trackFive : Particle ℝ :=
  { Pt := 5, Eta := 0, Phi := 0, valid := true, ownLabel := false, trackMatched := false }

end AliIsolationCut

namespace AliJetFlowTools

/-! ## Theorems -/

/-! ### Loop lemmas -/

theorem forLoop_succ {σ : Type} (n : Nat) (body : Nat → σ → σ) (init : σ) :
    forLoop (n + 1) body init = body n (forLoop n body init) := rfl

theorem forLoop_sum {α : Type} [AddCommMonoid α] (f : Nat → α) (n : Nat) :
    forLoop n (fun j w => w + f j) 0 = ∑ j ∈ Finset.range n, f j := by
  induction n with
  | zero => simp [forLoop]
  | succ n ih => rw [forLoop_succ, ih, Finset.sum_range_succ]

theorem forLoop_id {σ : Type} (n : Nat) (init : σ) :
    forLoop n (fun _ s => s) init = init := by
  induction n with
  | zero => rfl
  | succ n ih => rw [forLoop_succ, ih]

/-! ### NormalizeTH2D -/

/-- The slice loop of `NormalizeTH2D` for slice `i` and a fixed weight `w`,
after `m` iterations: the cells `(i+1, 1..m)` are divided by `w`. -/
theorem normalize_slice_loop {α : Type} [LinearOrderedField α] (h : TH2D α) (i : Nat)
    (w : α) (hi : i < h.xaxis.nbins) (m : Nat) (hm : m ≤ h.yaxis.nbins) :
    forLoop m (fun j histo =>
        (histo.SetBinContent (1+i) (j+1) (histo.GetBinContent (1+i) (j+1) / w)).SetBinError
          (1+i) (j+1)
          ((histo.SetBinContent (1+i) (j+1) (histo.GetBinContent (1+i) (j+1) / w)).GetBinError
            (1+i) (j+1) / w)) h
      = { h with
          content := fun x y =>
            if x = i + 1 ∧ 1 ≤ y ∧ y ≤ m then h.content x y / w else h.content x y
          error := fun x y =>
            if x = i + 1 ∧ 1 ≤ y ∧ y ≤ m then h.error x y / w else h.error x y } := by
  induction m with
  | zero =>
    cases h
    simp only [forLoop, TH2D.mk.injEq, true_and]
    constructor <;> funext x y <;> rw [if_neg] <;> omega
  | succ m ih =>
    rw [forLoop_succ, ih (by omega)]
    have h1 : min (1 + i) (h.xaxis.nbins + 1) = i + 1 := by omega
    have h2 : min (m + 1) (h.yaxis.nbins + 1) = m + 1 := by omega
    cases h
    simp only [TH2D.SetBinContent, TH2D.SetBinError, TH2D.GetBinContent, TH2D.GetBinError,
      TH2D.GetBin, TH2D.mk.injEq, true_and] at h1 h2 ⊢
    rw [h1, h2]
    constructor
    · funext x y
      by_cases hx : x = i + 1
      · by_cases hy : y = m + 1
        · subst hx hy
          simp
        · have : (1 ≤ y ∧ y ≤ m + 1) ↔ (1 ≤ y ∧ y ≤ m) := by omega
          simp [hx, hy, this]
      · simp [hx]
    · funext x y
      by_cases hx : x = i + 1
      · by_cases hy : y = m + 1
        · subst hx hy
          simp
        · have : (1 ≤ y ∧ y ≤ m + 1) ↔ (1 ≤ y ∧ y ≤ m) := by omega
          simp [hx, hy, this]
      · simp [hx]

theorem slicesNormalized_sliceSum_next {α : Type} [LinearOrderedField α] (h : TH2D α)
    (n : Nat) (hn : n < h.xaxis.nbins) :
    forLoop h.yaxis.nbins
        (fun j weight => weight + (h.slicesNormalized n).GetBinContent (n+1) (j+1)) 0
      = h.sliceSum (n + 1) := by
  rw [forLoop_sum]
  unfold TH2D.sliceSum
  apply Finset.sum_congr rfl
  intro j _
  have h1 : min (n + 1) (h.xaxis.nbins + 1) = n + 1 := by omega
  simp only [TH2D.slicesNormalized, TH2D.GetBinContent, TH2D.GetBin, h1]
  rw [if_neg]
  omega

/-- The slice loop of `NormalizeTH2D`, after the slices `1..n`. -/
theorem normalize_loop {α : Type} [LinearOrderedField α] (h : TH2D α) (n : Nat)
    (hn : n ≤ h.xaxis.nbins) :
    forLoop n (fun i histo =>
      let weight :=
        forLoop h.yaxis.nbins (fun j weight => weight + histo.GetBinContent (i+1) (j+1)) 0
      forLoop h.yaxis.nbins (fun j histo =>
        if weight ≤ 0 then histo
        else
          let histo := histo.SetBinContent (1+i) (j+1) (histo.GetBinContent (1+i) (j+1) / weight)
          histo.SetBinError (1+i) (j+1) (histo.GetBinError (1+i) (j+1) / weight)) histo) h
      = h.slicesNormalized n := by
  induction n with
  | zero =>
    cases h
    simp only [forLoop, TH2D.slicesNormalized, TH2D.mk.injEq, true_and]
    constructor <;> funext x y <;> rw [if_neg] <;> omega
  | succ n ih =>
    rw [forLoop_succ, ih (by omega)]
    simp only []
    rw [slicesNormalized_sliceSum_next h n (by omega)]
    by_cases hw : h.sliceSum (n + 1) ≤ 0
    · simp only [if_pos hw, forLoop_id]
      cases h
      simp only [TH2D.slicesNormalized, TH2D.mk.injEq, true_and]
      constructor <;> funext x y <;> by_cases hx : x = n + 1
      · subst hx
        rw [if_neg (by intro hc; exact absurd hc.2.2 (not_lt.mpr hw)),
          if_neg (by intro hc; exact absurd hc.2.2 (not_lt.mpr hw))]
      · have : (1 ≤ x ∧ x ≤ n + 1) ↔ (1 ≤ x ∧ x ≤ n) := by omega
        simp only [this]
      · subst hx
        rw [if_neg (by intro hc; exact absurd hc.2.2 (not_lt.mpr hw)),
          if_neg (by intro hc; exact absurd hc.2.2 (not_lt.mpr hw))]
      · have : (1 ≤ x ∧ x ≤ n + 1) ↔ (1 ≤ x ∧ x ≤ n) := by omega
        simp only [this]
    · simp only [if_neg hw]
      have key := normalize_slice_loop (h.slicesNormalized n) n (h.sliceSum (n + 1))
        (by simpa [TH2D.slicesNormalized] using (show n < h.xaxis.nbins by omega))
        h.yaxis.nbins (by simp [TH2D.slicesNormalized])
      rw [key]
      have hpos : 0 < h.sliceSum (n + 1) := not_le.mp hw
      obtain ⟨xa, ya, c, e⟩ := h
      simp only [TH2D.slicesNormalized, TH2D.mk.injEq, true_and]
      constructor <;> funext x y <;> by_cases hx : x = n + 1
      · subst hx
        by_cases hyr : 1 ≤ y ∧ y ≤ ya.nbins
        · simp [hyr, hpos]
        · simp [hyr]
      · have : (1 ≤ x ∧ x ≤ n + 1) ↔ (1 ≤ x ∧ x ≤ n) := by omega
        simp only [this, hx, false_and, if_false]
      · subst hx
        by_cases hyr : 1 ≤ y ∧ y ≤ ya.nbins
        · simp [hyr, hpos]
        · simp [hyr]
      · have : (1 ≤ x ∧ x ≤ n + 1) ↔ (1 ≤ x ∧ x ≤ n) := by omega
        simp only [this, hx, false_and, if_false]

theorem NormalizeTH2D_eq {α : Type} [LinearOrderedField α] (h : TH2D α) :
    NormalizeTH2D (some h) = some (h.slicesNormalized h.xaxis.nbins) := by
  simp only [NormalizeTH2D]
  rw [normalize_loop h h.xaxis.nbins le_rfl]

theorem slicesNormalized_GetBinContent {α : Type} [LinearOrderedField α] (h : TH2D α)
    (x y : Nat) (hx1 : 1 ≤ x) (hx : x ≤ h.xaxis.nbins) (hy1 : 1 ≤ y) (hy : y ≤ h.yaxis.nbins) :
    (h.slicesNormalized h.xaxis.nbins).GetBinContent x y
      = if 0 < h.sliceSum x then h.GetBinContent x y / h.sliceSum x
        else h.GetBinContent x y := by
  have h1 : min x (h.xaxis.nbins + 1) = x := by omega
  have h2 : min y (h.yaxis.nbins + 1) = y := by omega
  simp only [TH2D.slicesNormalized, TH2D.GetBinContent, TH2D.GetBin, h1, h2]
  by_cases hs : 0 < h.sliceSum x
  · rw [if_pos ⟨⟨hx1, hx⟩, ⟨hy1, hy⟩, hs⟩, if_pos hs]
  · rw [if_neg (fun hc => hs hc.2.2), if_neg hs]

/-! ### MatrixMultiplication -/

/-- One row of `MatrixMultiplication`: the loop over `x2` writing `V x2` into
`(x2, y1)`, after `m` iterations. -/
theorem product_row_loop {α : Type} (c0 : TH2D α) (y1 : Nat) (V : Nat → α)
    (hy : y1 ≤ c0.yaxis.nbins + 1) (m : Nat) :
    forLoop m (fun ix c => c.SetBinContent (ix + 1) y1 (V (ix + 1))) c0
      = { c0 with
          content := fun x y =>
            if y = y1 ∧ 1 ≤ x ∧
                ((x ≤ m ∧ x ≤ c0.xaxis.nbins) ∨
                  (x = c0.xaxis.nbins + 1 ∧ c0.xaxis.nbins + 1 ≤ m)) then
              V (if x ≤ c0.xaxis.nbins then x else m)
            else c0.content x y } := by
  induction m with
  | zero =>
    obtain ⟨xa, ya, c, e⟩ := c0
    simp only [forLoop, TH2D.mk.injEq, true_and, and_true]
    funext x y
    rw [if_neg]
    omega
  | succ m ih =>
    rw [forLoop_succ, ih]
    obtain ⟨xa, ya, c, e⟩ := c0
    have h2 : min y1 (ya.nbins + 1) = y1 := by simpa using hy
    simp only [TH2D.SetBinContent, TH2D.GetBin, TH2D.mk.injEq, true_and, and_true, h2]
    funext x y
    by_cases hyy : y = y1
    · subst hyy
      simp only [true_and, and_true]
      rcases Nat.lt_or_ge m xa.nbins with hm | hm
      · have hmin : min (m + 1) (xa.nbins + 1) = m + 1 := by omega
        rw [hmin]
        split_ifs <;> first | rfl | (exfalso; omega) | (congr 1; omega)
      · have hmin : min (m + 1) (xa.nbins + 1) = xa.nbins + 1 := by omega
        rw [hmin]
        split_ifs <;> first | rfl | (exfalso; omega)
    · simp [hyy]

/-- The row loop of `MatrixMultiplication`, after the rows `1..n`. -/
theorem product_loop {α : Type} [Field α] (a b : TH2D α) (n : Nat) (hn : n ≤ a.yaxis.nbins) :
    forLoop n (fun iy c =>
      let y1 := iy + 1
      forLoop b.GetNbinsX (fun ix c =>
        let x2 := ix + 1
        let val := forLoop a.GetNbinsX (fun i val =>
          let x1 := i + 1
          let y2 := x1
          val + a.GetBinContent x1 y1 * b.GetBinContent x2 y2) 0
        c.SetBinContent x2 y1 val) c) a
      = a.productFilled b n := by
  induction n with
  | zero =>
    obtain ⟨xa, ya, c, e⟩ := a
    simp only [forLoop, TH2D.productFilled, TH2D.mk.injEq, true_and, and_true]
    funext x y
    rw [if_neg]
    omega
  | succ n ih =>
    rw [forLoop_succ, ih (by omega)]
    simp only [forLoop_sum, TH2D.GetNbinsX]
    have key := product_row_loop (a.productFilled b n) (n + 1)
      (fun x2 => productCell a b x2 (n + 1))
      (by simp only [TH2D.productFilled]; omega) b.xaxis.nbins
    simp only [productCell] at key ⊢
    rw [key]
    obtain ⟨xa, ya, c, e⟩ := a
    simp only [TH2D.productFilled, TH2D.mk.injEq, true_and, and_true, productCell]
    funext x y
    by_cases hyy : y = n + 1
    · subst hyy
      split_ifs <;> first | rfl | (exfalso; omega)
    · have : (1 ≤ y ∧ y ≤ n + 1) ↔ (1 ≤ y ∧ y ≤ n) := by omega
      simp only [hyy, false_and, if_false, this]

theorem MatrixMultiplication_eq {α : Type} [Field α] (a b : TH2D α)
    (hdim : a.GetNbinsX = b.GetNbinsY) :
    MatrixMultiplication a b = some (a.productFilled b a.yaxis.nbins) := by
  simp only [MatrixMultiplication]
  rw [if_neg (not_not.mpr hdim)]
  exact congrArg some (product_loop a b a.yaxis.nbins le_rfl)

/-! ### UnfoldSpectrumChi2 -/

theorem unfoldLoop_step {β : Type} (solver : Nat → FitReport β) (s : Chi2State β)
    (h : s.status < 0 ∧ s.i < 100) :
    unfoldLoop solver s
      = unfoldLoop solver
          { status := (solver s.i).status, i := s.i + 1,
            unfoldedLocal := (solver s.i).unfolded, fISW1 := (solver s.i).fISW1 } := by
  rw [unfoldLoop, if_pos h]

theorem unfoldLoop_stop {β : Type} (solver : Nat → FitReport β) (s : Chi2State β)
    (h : ¬ (s.status < 0 ∧ s.i < 100)) : unfoldLoop solver s = s := by
  rw [unfoldLoop, if_neg h]

/-- From counter `m ≤ N` on, with a negative current status, the loop runs
through the calls `m, ..., N` and stops after call `N`, the first that reports
status `0`. -/
theorem unfoldLoop_retry {β : Type} (solver : Nat → FitReport β) (N : Nat) (hN : N < 100)
    (hfail : ∀ m, m < N → (solver m).status < 0) (hok : (solver N).status = 0) :
    ∀ k m, m + k = N → ∀ s : Chi2State β, s.i = m → s.status < 0 →
      unfoldLoop solver s
        = { status := 0, i := N + 1, unfoldedLocal := (solver N).unfolded,
            fISW1 := (solver N).fISW1 } := by
  intro k
  induction k with
  | zero =>
    intro m hm s hi hs
    have hmN : s.i = N := by omega
    rw [unfoldLoop_step solver s ⟨hs, by omega⟩, unfoldLoop_stop]
    · rw [hmN, hok]
    · simp [hmN, hok]
  | succ k ih =>
    intro m hm s hi hs
    rw [unfoldLoop_step solver s ⟨hs, by omega⟩]
    exact ih (m + 1) (by omega) _ (by simp [hi]) (hfail s.i (by omega))

/-! ### ConstructDPtResponseFromTH1D -/

/-- One true slice `j` of `ConstructDPtResponseFromTH1D` when `skip` is never
set: after `m` iterations the cells `(j, 0..m-1)` hold `V`. -/
theorem dpt_slice_loop {α : Type} [Zero α] (c0 : TH2D α) (j : Nat) (V : Nat → α)
    (hj : j ≤ c0.xaxis.nbins + 1) (m : Nat) (hm : m ≤ c0.yaxis.nbins + 2) :
    forLoop m (fun k (s : TH2D α × Bool) =>
        (if s.2 = true then s.1.SetBinContent j k 0 else s.1.SetBinContent j k (V k), s.2))
      (c0, false)
      = ({ c0 with content := fun x y => if x = j ∧ y < m then V y else c0.content x y },
          false) := by
  induction m with
  | zero =>
    obtain ⟨xa, ya, c, e⟩ := c0
    simp [forLoop]
  | succ m ih =>
    rw [forLoop_succ, ih (by omega)]
    obtain ⟨xa, ya, c, e⟩ := c0
    have h1 : min j (xa.nbins + 1) = j := by simpa using hj
    have h2 : min m (ya.nbins + 1) = m := by
      simp only at hm
      omega
    simp only [TH2D.SetBinContent, TH2D.GetBin, h1, h2, Bool.false_eq_true, if_false,
      Prod.mk.injEq, TH2D.mk.injEq, true_and, and_true]
    funext x y
    by_cases hx : x = j
    · by_cases hy : y = m
      · simp [hx, hy]
      · have : y < m + 1 ↔ y < m := by omega
        simp [hx, hy, this]
    · simp [hx]

/-- The slice loop of `ConstructDPtResponseFromTH1D` when `skip` is never
set, after the slices `0..n-1`. -/
theorem dpt_loop {α : Type} [Zero α] (res0 : TH2D α) (bins : Nat) (V : Nat → Nat → α)
    (hx : res0.xaxis.nbins = bins) (hy : res0.yaxis.nbins = bins) (n : Nat)
    (hn : n ≤ bins + 1) :
    forLoop n (fun j res =>
        (forLoop (bins + 1) (fun k (s : TH2D α × Bool) =>
          (if s.2 = true then s.1.SetBinContent j k 0 else s.1.SetBinContent j k (V j k), s.2))
          (res, false)).1) res0
      = { res0 with
          content := fun x y => if x < n ∧ y < bins + 1 then V x y else res0.content x y } := by
  induction n with
  | zero =>
    obtain ⟨xa, ya, c, e⟩ := res0
    simp [forLoop]
  | succ n ih =>
    rw [forLoop_succ, ih (by omega)]
    rw [dpt_slice_loop _ n (V n) (by simp only [hx]; omega) (bins + 1) (by simp only [hy]; omega)]
    obtain ⟨xa, ya, c, e⟩ := res0
    simp only [TH2D.mk.injEq, true_and, and_true]
    funext x y
    by_cases hxn : x = n
    · subst hxn
      by_cases hyb : y < bins + 1
      · simp [hyb]
      · simp [hyb]
    · have : x < n + 1 ↔ x < n := by omega
      simp [hxn, this]

/-- One column `j` of the loops of `PrepareForUnfolding_rf` with
`fAvoidRoundingError` set, after `m` iterations: `skip` is set once a zero has
been met above `j`, the elements after such a zero are `0`, and the other
columns are untouched. -/
theorem rf_column_loop {α : Type} [LinearOrderedField α] (d : TH1 α) (j : Int)
    (rf0 : Int → Int → α) (m : Nat) :
    ((∃ kk' : Nat, kk' < m ∧ (kk' : Int) - 50 > j ∧ AreEqualAbs (dptAt d ((kk' : Int) - 50 - j)) 0
        (1 / 10 ^ 8)) →
      (forLoop m (PrepareForUnfolding_rfStep d true j) (rf0, false)).2 = true) ∧
    (∀ kk : Nat, kk < m →
      (∃ kk' : Nat, kk' < kk ∧ (kk' : Int) - 50 > j ∧ AreEqualAbs (dptAt d ((kk' : Int) - 50 - j)) 0
        (1 / 10 ^ 8)) →
      (forLoop m (PrepareForUnfolding_rfStep d true j) (rf0, false)).1 ((kk : Int) - 50) j = 0) ∧
    (∀ row col, col ≠ j →
      (forLoop m (PrepareForUnfolding_rfStep d true j) (rf0, false)).1 row col
        = rf0 row col) := by
  induction m with
  | zero =>
    refine ⟨?_, ?_, ?_⟩
    · rintro ⟨kk', h, _⟩
      omega
    · intro kk h
      omega
    · intro row col _
      rfl
  | succ m ih =>
    rw [forLoop_succ]
    generalize forLoop m (PrepareForUnfolding_rfStep d true j) (rf0, false) = s at ih ⊢
    obtain ⟨ih1, ih2, ih3⟩ := ih
    refine ⟨?_, ?_, ?_⟩
    · rintro ⟨kk', hlt, hgt, hz⟩
      simp only [PrepareForUnfolding_rfStep, true_and]
      by_cases hkk : kk' = m
      · subst hkk
        rw [if_pos ⟨hgt, hz⟩]
      · have hs := ih1 ⟨kk', by omega, hgt, hz⟩
        split_ifs <;> first | rfl | exact hs
    · intro kk hlt hex
      simp only [PrepareForUnfolding_rfStep]
      by_cases hkk : kk = m
      · subst hkk
        have hs := ih1 hex
        simp only [hs, and_self, if_true]
      · have h0 := ih2 kk (by omega) hex
        rw [if_neg (by
          intro hc
          have := hc.1
          omega)]
        exact h0
    · intro row col hcol
      simp only [PrepareForUnfolding_rfStep]
      rw [if_neg (fun hc => hcol hc.2)]
      exact ih3 row col hcol

/-- The column loop of `PrepareForUnfolding_rf` with `fAvoidRoundingError` set,
after the columns `0..n-1` (that is `j = -50..n-51`): in each of them the
elements after a zero met above `j` are `0`. -/
theorem rf_loop {α : Type} [LinearOrderedField α] (d : TH1 α) (n : Nat) :
    ∀ jj : Nat, jj < n → ∀ kk : Nat, kk < 300 →
      (∃ kk' : Nat, kk' < kk ∧ (kk' : Int) - 50 > (jj : Int) - 50 ∧
        AreEqualAbs (dptAt d ((kk' : Int) - 50 - ((jj : Int) - 50))) 0 (1 / 10 ^ 8)) →
      forLoop n (fun jj rf =>
        (forLoop 300 (PrepareForUnfolding_rfStep d true ((jj : Int) - 50)) (rf, false)).1)
        (fun _ _ => 0) ((kk : Int) - 50) ((jj : Int) - 50)
        = 0 := by
  induction n with
  | zero =>
    intro jj h
    omega
  | succ n ih =>
    intro jj hjj kk hkk hex
    rw [forLoop_succ]
    obtain ⟨_, h2, h3⟩ := rf_column_loop d ((n : Int) - 50)
      (forLoop n (fun jj rf =>
        (forLoop 300 (PrepareForUnfolding_rfStep d true ((jj : Int) - 50)) (rf, false)).1)
        (fun _ _ => 0)) 300
    by_cases hj : jj = n
    · subst hj
      exact h2 kk hkk hex
    · rw [h3 _ _ (by omega)]
      exact ih jj (by omega) kk hkk hex

/-! ### Bin lookup -/

theorem countLE_eq_min {α : Type} [LinearOrder α] (edges : Nat → α) (x : α) (i : Nat) :
    ∀ m, (∀ k, k < m → (edges k ≤ x ↔ k < i)) → countLE edges x m = min i m := by
  intro m
  induction m with
  | zero => intro _; simp [countLE]
  | succ m ih =>
    intro h
    rw [countLE, ih (fun k hk => h k (by omega))]
    by_cases hm : m < i
    · rw [if_pos ((h m (by omega)).mpr hm)]
      omega
    · rw [if_neg (fun hc => hm ((h m (by omega)).mp hc))]
      omega

/-- On an axis with increasing borders the center of an in-range bin is found
in that bin. -/
theorem FindBin_GetBinCenter {α : Type} [LinearOrderedField α] (ax : TAxis α)
    (hmono : ∀ a b, a < b → b ≤ ax.nbins → ax.edges a < ax.edges b)
    (i : Nat) (hi1 : 1 ≤ i) (hi : i ≤ ax.nbins) :
    ax.FindBin (ax.GetBinCenter i) = i := by
  have hlt : ax.edges (i - 1) < ax.edges i := hmono (i - 1) i (by omega) hi
  have hc : ax.GetBinCenter i = (ax.edges (i - 1) + ax.edges i) / 2 := by
    rw [TAxis.GetBinCenter, if_pos ⟨hi1, hi⟩]
  have hlo : ax.edges (i - 1) < ax.GetBinCenter i := by rw [hc]; linarith
  have hhi : ax.GetBinCenter i < ax.edges i := by rw [hc]; linarith
  have hle : ∀ k, k < i → ax.edges k ≤ ax.GetBinCenter i := by
    intro k hk
    rcases Nat.lt_or_ge k (i - 1) with h | h
    · exact le_of_lt (lt_trans (hmono k (i - 1) h (by omega)) hlo)
    · have : k = i - 1 := by omega
      rw [this]
      exact le_of_lt hlo
  have hgt : ∀ k, i ≤ k → k ≤ ax.nbins → ax.GetBinCenter i < ax.edges k := by
    intro k hk hkn
    rcases Nat.lt_or_ge i k with h | h
    · exact lt_trans hhi (hmono i k h hkn)
    · have : k = i := by omega
      rw [this]
      exact hhi
  rw [TAxis.FindBin, if_neg (not_lt.mpr (hle 0 (by omega))),
    if_neg (not_not.mpr (hgt ax.nbins hi le_rfl)),
    countLE_eq_min ax.edges _ i (ax.nbins + 1)]
  · omega
  · intro k hk
    constructor
    · intro hkx
      by_contra hki
      exact absurd hkx (not_le.mpr (hgt k (by omega) (by omega)))
    · exact hle k

/-- C1 (code evaluated at the failing input): for the covariance matrix
`diag(1, 0)` the call returns a matrix whose entry `(0, 1)` is `1`, the
coefficient computed for `(0, 0)` and left in the local `pearson`, although
the diagonal entry `C(1,1)` is zero. -/
theorem CalculatePearsonCoefficients_stale_entry :
    (CalculatePearsonCoefficients Real.sqrt covDiagOneZero).map (fun m => m.elem 0 1)
      = some 1 := by
  simp [CalculatePearsonCoefficients, covDiagOneZero, forLoop, TMatrixD.assign]

/-- C4: `NormalizeTH2D` returns the histogram with unchanged binning in which
every vertical slice (true slice) whose in-range content sum was positive has
in-range content sum exactly 1, each in-range cell being the old cell divided
by the old slice sum, and every slice whose in-range cells were all zero still
has all in-range cells exactly zero. -/
theorem NormalizeTH2D_slices {α : Type} [LinearOrderedField α] (h : TH2D α) :
    ∃ h' : TH2D α, NormalizeTH2D (some h) = some h' ∧
      h'.GetNbinsX = h.GetNbinsX ∧ h'.GetNbinsY = h.GetNbinsY ∧
      ∀ x, 1 ≤ x → x ≤ h.GetNbinsX →
        (0 < h.sliceSum x →
          h'.sliceSum x = 1 ∧
          ∀ y, 1 ≤ y → y ≤ h.GetNbinsY →
            h'.GetBinContent x y = h.GetBinContent x y / h.sliceSum x) ∧
        ((∀ y, 1 ≤ y → y ≤ h.GetNbinsY → h.GetBinContent x y = 0) →
          ∀ y, 1 ≤ y → y ≤ h.GetNbinsY → h'.GetBinContent x y = 0) := by
  refine ⟨h.slicesNormalized h.xaxis.nbins, NormalizeTH2D_eq h, rfl, rfl, ?_⟩
  intro x hx1 hx
  simp only [TH2D.GetNbinsX, TH2D.GetNbinsY] at hx ⊢
  constructor
  · intro hpos
    have cell : ∀ y, 1 ≤ y → y ≤ h.yaxis.nbins →
        (h.slicesNormalized h.xaxis.nbins).GetBinContent x y
          = h.GetBinContent x y / h.sliceSum x := by
      intro y hy1 hy
      rw [slicesNormalized_GetBinContent h x y hx1 hx hy1 hy, if_pos hpos]
    refine ⟨?_, cell⟩
    have hsum : (h.slicesNormalized h.xaxis.nbins).sliceSum x
        = ∑ j ∈ Finset.range h.yaxis.nbins, h.GetBinContent x (j + 1) / h.sliceSum x := by
      unfold TH2D.sliceSum
      apply Finset.sum_congr rfl
      intro j hj
      have hj' : j < h.yaxis.nbins := Finset.mem_range.mp hj
      exact cell (j + 1) (by omega) (by omega)
    rw [hsum, ← Finset.sum_div]
    exact div_self (ne_of_gt hpos)
  · intro hzero y hy1 hy
    have hs : h.sliceSum x = 0 := by
      unfold TH2D.sliceSum
      apply Finset.sum_eq_zero
      intro j hj
      have hj' : j < h.yaxis.nbins := Finset.mem_range.mp hj
      exact hzero (j + 1) (by omega) (by omega)
    rw [slicesNormalized_GetBinContent h x y hx1 hx hy1 hy, if_neg (by rw [hs]; exact lt_irrefl 0)]
    exact hzero y hy1 hy

/-- C5 (the claim fails as stated): `oneByOne` has one x bin and `threeByOne`
has one y bin, so the dimension check passes, but the result, a clone of
`oneByOne`, has a single in-range column: the value written for `x2 = 3` lands
in the cell that `x2 = 2` addresses, so the cell read back at `(x2 = 2, y1 = 1)`
is `3`, not the product sum `2`. -/
theorem MatrixMultiplication_counterexample :
    oneByOne.GetNbinsX = threeByOne.GetNbinsY ∧
    ∃ c : TH2D ℚ, MatrixMultiplication oneByOne threeByOne = some c ∧
      ¬ (∀ y1 x2 : Nat, 1 ≤ y1 → y1 ≤ oneByOne.GetNbinsY → 1 ≤ x2 → x2 ≤ threeByOne.GetNbinsX →
          c.GetBinContent x2 y1
            = ∑ k ∈ Finset.range oneByOne.GetNbinsX,
                oneByOne.GetBinContent (k + 1) y1 * threeByOne.GetBinContent x2 (k + 1)) := by
  refine ⟨rfl, _, MatrixMultiplication_eq oneByOne threeByOne rfl, ?_⟩
  intro hall
  have h21 := hall 1 2 (by decide) (by decide) (by decide) (by decide)
  simp [TH2D.productFilled, productCell, TH2D.GetBinContent, TH2D.GetBin, TH2D.GetNbinsX,
    oneByOne, threeByOne, unitAxis] at h21
  norm_num at h21

/-- C5 (amended): `MatrixMultiplication a b` is null exactly when `a`'s number
of x bins differs from `b`'s number of y bins; otherwise the result has `a`'s
binning and, reading a y bin as matrix row and an x bin as matrix column,
`result(row y1, col x2) = Σ_{k=1..a.NbinsX} a(row y1, col k) * b(row k, col x2)`
for every `y1` in `1..a.NbinsY` and every `x2` in `1..b.NbinsX` that is an
in-range column of the result (`x2 ≤ a.NbinsX`). -/
theorem MatrixMultiplication_cells {α : Type} [Field α] (a b : TH2D α) :
    (MatrixMultiplication a b = none ↔ a.GetNbinsX ≠ b.GetNbinsY) ∧
    (a.GetNbinsX = b.GetNbinsY →
      ∃ c : TH2D α, MatrixMultiplication a b = some c ∧
        c.GetNbinsX = a.GetNbinsX ∧ c.GetNbinsY = a.GetNbinsY ∧
        ∀ y1 x2 : Nat, 1 ≤ y1 → y1 ≤ a.GetNbinsY → 1 ≤ x2 → x2 ≤ b.GetNbinsX →
          x2 ≤ a.GetNbinsX →
          c.GetBinContent x2 y1
            = ∑ k ∈ Finset.range a.GetNbinsX,
                a.GetBinContent (k + 1) y1 * b.GetBinContent x2 (k + 1)) := by
  constructor
  · constructor
    · intro hnone hdim
      rw [MatrixMultiplication_eq a b hdim] at hnone
      exact Option.noConfusion hnone
    · intro hdim
      simp only [MatrixMultiplication]
      rw [if_pos hdim]
  · intro hdim
    refine ⟨_, MatrixMultiplication_eq a b hdim, rfl, rfl, ?_⟩
    intro y1 x2 hy1 hy hx1 hxb hxa
    simp only [TH2D.GetNbinsX, TH2D.GetNbinsY] at hy hxb hxa ⊢
    have h1 : min x2 (a.xaxis.nbins + 1) = x2 := by omega
    have h2 : min y1 (a.yaxis.nbins + 1) = y1 := by omega
    have hget : (a.productFilled b a.yaxis.nbins).GetBinContent x2 y1
        = productCell a b x2 y1 := by
      simp only [TH2D.productFilled, TH2D.GetBinContent, TH2D.GetBin, h1, h2]
      rw [if_pos ⟨⟨hy1, hy⟩, hx1, Or.inl ⟨hxb, hxa⟩⟩, if_pos hxa]
    rw [hget]
    rfl

/-- The amended C5 statement applied to two concrete histograms: `oneByOne`
times itself is defined and its in-range cell is the product sum. -/
theorem MatrixMultiplication_cells_witness :
    oneByOne.GetNbinsX = oneByOne.GetNbinsY ∧
    ∃ c : TH2D ℚ, MatrixMultiplication oneByOne oneByOne = some c ∧
      c.GetBinContent 1 1
        = ∑ k ∈ Finset.range oneByOne.GetNbinsX,
            oneByOne.GetBinContent (k + 1) 1 * oneByOne.GetBinContent 1 (k + 1) := by
  refine ⟨rfl, ?_⟩
  obtain ⟨c, hc, _, _, hcell⟩ := (MatrixMultiplication_cells oneByOne oneByOne).2 rfl
  exact ⟨c, hc, hcell 1 1 (by decide) (by decide) (by decide) (by decide) (by decide)⟩

/-- C2 (the claim fails as stated): the first call of the stub reports status
`4`, a fit status other than `0`, and its second call reports status `0` with
a reliable Hessian (`N = 1`); `UnfoldSpectrumChi2` nevertheless calls the
solver once only and returns false, because the loop repeats on a negative
status only. -/
theorem UnfoldSpectrumChi2_positive_status_counterexample :
    (stubFailsOnceWithStatus4 0).status ≠ 0 ∧
    (stubFailsOnceWithStatus4 1).status = 0 ∧ (stubFailsOnceWithStatus4 1).fISW1 = 3 ∧
    (UnfoldSpectrumChi2 stubFailsOnceWithStatus4 () 0).invocations = 1 ∧
    (UnfoldSpectrumChi2 stubFailsOnceWithStatus4 () 0).converged = false := by
  have h : unfoldLoop stubFailsOnceWithStatus4
      { status := -1, i := 0, unfoldedLocal := (), fISW1 := 0 }
      = { status := 4, i := 1, unfoldedLocal := (), fISW1 := 0 } := by
    rw [unfoldLoop_step _ _ (by decide), unfoldLoop_stop _ _ (by decide)]
    rfl
  refine ⟨by decide, by decide, by decide, ?_, ?_⟩
  · simp only [UnfoldSpectrumChi2, h]
  · simp only [UnfoldSpectrumChi2, h]
    decide

/-- C2 (amended): for every `N < 100` and every solver stub whose first `N`
invocations report a negative fit status and whose `(N+1)`-th invocation
returns status `0` with a reliable Hessian (`fISW[1] == 3`),
`UnfoldSpectrumChi2` invokes the solver exactly `N + 1` times and returns
true. -/
theorem UnfoldSpectrumChi2_retry {β : Type} (solver : Nat → FitReport β) (unfoldedLocal : β)
    (fISW1 : Int) (N : Nat) (hN : N < 100)
    (hfail : ∀ m, m < N → (solver m).status < 0)
    (hok : (solver N).status = 0) (hhess : (solver N).fISW1 = 3) :
    (UnfoldSpectrumChi2 solver unfoldedLocal fISW1).invocations = N + 1 ∧
    (UnfoldSpectrumChi2 solver unfoldedLocal fISW1).converged = true := by
  have h := unfoldLoop_retry solver N hN hfail hok N 0 (by omega)
    { status := -1, i := 0, unfoldedLocal := unfoldedLocal, fISW1 := fISW1 } rfl
    (show (-1 : Int) < 0 by decide)
  simp [UnfoldSpectrumChi2, h, hhess]

/-- The amended C2 statement applied to a stub that fails once with status
`-1`: two invocations, converged. -/
theorem UnfoldSpectrumChi2_retry_witness :
    (UnfoldSpectrumChi2 stubFailsOnceWithStatusNeg () 0).invocations = 1 + 1 ∧
    (UnfoldSpectrumChi2 stubFailsOnceWithStatusNeg () 0).converged = true :=
  UnfoldSpectrumChi2_retry stubFailsOnceWithStatusNeg () 0 1 (by decide)
    (by intro m hm; have : m = 0 := by omega
        subst this; decide)
    (by decide) (by decide)

/-- C3 (the claim fails as stated): with the chi-square algorithm, the
in-plane unfolding converging and the out-of-plane unfolding returning false,
`Make` still writes a ratio graph, under the name `[NC]RatioInOutPlane`, and
the graph `v2`. -/
theorem Make_not_converged_counterexample :
    (unfoldPlane unfoldingAlgorithm.kChi2 planeConverging).1 = true ∧
    (unfoldPlane unfoldingAlgorithm.kChi2 planeFailing).1 = false ∧
    Written.NCRatioInOutPlane ∈
      Make Real.sqrt Real.pi 1 (-1) true true false unfoldingAlgorithm.kChi2
        planeConverging planeFailing ∧
    Written.v2 ∈
      Make Real.sqrt Real.pi 1 (-1) true true false unfoldingAlgorithm.kChi2
        planeConverging planeFailing := by
  have hc : unfoldLoop planeConverging.solver
      { status := -1, i := 0, unfoldedLocal := flatSpectrum, fISW1 := 0 }
      = { status := 0, i := 1, unfoldedLocal := flatSpectrum, fISW1 := 3 } := by
    rw [unfoldLoop_step _ _ (by decide), unfoldLoop_stop _ _ (by decide)]
    rfl
  have hf : unfoldLoop planeFailing.solver
      { status := -1, i := 0, unfoldedLocal := flatSpectrum, fISW1 := 0 }
      = { status := 4, i := 1, unfoldedLocal := flatSpectrum, fISW1 := 0 } := by
    rw [unfoldLoop_step _ _ (by decide), unfoldLoop_stop _ _ (by decide)]
    rfl
  have h1 : unfoldPlane unfoldingAlgorithm.kChi2 planeConverging = (true, some flatSpectrum) := by
    simp [unfoldPlane, UnfoldSpectrumChi2, planeConverging, hc] at hc ⊢
  have h2 : unfoldPlane unfoldingAlgorithm.kChi2 planeFailing = (false, some flatSpectrum) := by
    simp [unfoldPlane, UnfoldSpectrumChi2, planeFailing, hf] at hf ⊢
  refine ⟨by rw [h1], by rw [h2], ?_, ?_⟩ <;>
    simp [Make, h1, h2, GetRatio, GetV2]

/-- C3 (amended): when `Make` runs and both unfolded spectra exist after the
two unfoldings (as they do after every chi-square and every `kNone`
unfolding), then for every algorithm choice: the graph `RatioInOutPlane` is
written if and only if both unfoldings returned true; when either returned
false the ratio graph is written under the name `[NC]RatioInOutPlane`
instead; and the graph `v2` is written in both cases. -/
theorem Make_derived_graphs {α : Type} [LinearOrderedField α] [FloorRing α] (sqrt : α → α)
    (pi r : α)
    (xmax : Int) (fRefreshInput prepared fSaveFull : Bool) (alg : unfoldingAlgorithm)
    (planeIn planeOut : PlaneRun α)
    (hrun : fRefreshInput = true → prepared = true)
    (hIn : (unfoldPlane alg planeIn).2.isSome = true)
    (hOut : (unfoldPlane alg planeOut).2.isSome = true) :
    (Written.RatioInOutPlane ∈
        Make sqrt pi r xmax fRefreshInput prepared fSaveFull alg planeIn planeOut
      ↔ (unfoldPlane alg planeIn).1 = true ∧ (unfoldPlane alg planeOut).1 = true) ∧
    (Written.NCRatioInOutPlane ∈
        Make sqrt pi r xmax fRefreshInput prepared fSaveFull alg planeIn planeOut
      ↔ ¬ ((unfoldPlane alg planeIn).1 = true ∧ (unfoldPlane alg planeOut).1 = true)) ∧
    Written.v2 ∈ Make sqrt pi r xmax fRefreshInput prepared fSaveFull alg planeIn planeOut := by
  have hgo : ¬ (fRefreshInput = true ∧ ¬ prepared = true) := fun h => h.2 (hrun h.1)
  unfold Make
  rw [if_neg hgo]
  rcases hi : unfoldPlane alg planeIn with ⟨ci, ui⟩
  rcases ho : unfoldPlane alg planeOut with ⟨co, uo⟩
  rw [hi] at hIn
  rw [ho] at hOut
  cases ui with
  | none => simp at hIn
  | some ui =>
    cases uo with
    | none => simp at hOut
    | some uo =>
      cases ci <;> cases co <;> simp [GetRatio, GetV2]

/-- The amended C3 statement applied to the chi-square run in which the
in-plane unfolding converges and the out-of-plane unfolding fails. -/
theorem Make_derived_graphs_witness :
    (Written.RatioInOutPlane ∈
        Make Real.sqrt Real.pi 1 (-1) true true false unfoldingAlgorithm.kChi2
          planeConverging planeFailing
      ↔ (unfoldPlane unfoldingAlgorithm.kChi2 planeConverging).1 = true ∧
        (unfoldPlane unfoldingAlgorithm.kChi2 planeFailing).1 = true) ∧
    (Written.NCRatioInOutPlane ∈
        Make Real.sqrt Real.pi 1 (-1) true true false unfoldingAlgorithm.kChi2
          planeConverging planeFailing
      ↔ ¬ ((unfoldPlane unfoldingAlgorithm.kChi2 planeConverging).1 = true ∧
        (unfoldPlane unfoldingAlgorithm.kChi2 planeFailing).1 = true)) ∧
    Written.v2 ∈
      Make Real.sqrt Real.pi 1 (-1) true true false unfoldingAlgorithm.kChi2
        planeConverging planeFailing :=
  Make_derived_graphs Real.sqrt Real.pi 1 (-1) true true false unfoldingAlgorithm.kChi2
    planeConverging planeFailing (fun _ => rfl) rfl rfl

/-- C7: with `AvoidRoundingError` disabled, for every delta-pt distribution
with `n` bins the result of `ConstructDPtResponseFromTH1D` is an `n × n`
histogram in which every cell `(true = j, rec = k)` the loops fill
(`0 ≤ j, k ≤ n`) equals the distribution's value at `k - j`; hence two filled
cells with the same `k - j` are equal, and every diagonal cell equals the
distribution's value at `0`. -/
theorem ConstructDPtResponseFromTH1D_cells {α : Type} [LinearOrderedField α] [FloorRing α]
    (dpt : TH1 α) :
    (ConstructDPtResponseFromTH1D dpt false).GetNbinsX = dpt.GetNbinsX ∧
    (ConstructDPtResponseFromTH1D dpt false).GetNbinsY = dpt.GetNbinsX ∧
    (∀ j k : Nat, j ≤ dpt.GetNbinsX → k ≤ dpt.GetNbinsX →
      (ConstructDPtResponseFromTH1D dpt false).GetBinContent j k
        = dptAt dpt ((k : Int) - (j : Int))) ∧
    (∀ j k j' k' : Nat, j ≤ dpt.GetNbinsX → k ≤ dpt.GetNbinsX → j' ≤ dpt.GetNbinsX →
      k' ≤ dpt.GetNbinsX → (k : Int) - (j : Int) = (k' : Int) - (j' : Int) →
      (ConstructDPtResponseFromTH1D dpt false).GetBinContent j k
        = (ConstructDPtResponseFromTH1D dpt false).GetBinContent j' k') ∧
    (∀ j : Nat, j ≤ dpt.GetNbinsX →
      (ConstructDPtResponseFromTH1D dpt false).GetBinContent j j = dptAt dpt 0) := by
  have hform : ConstructDPtResponseFromTH1D dpt false
      = { xaxis := (ConstructDPtResponseFromTH1D dpt false).xaxis,
          yaxis := (ConstructDPtResponseFromTH1D dpt false).yaxis,
          content := fun x y =>
            if x < dpt.xaxis.nbins + 1 ∧ y < dpt.xaxis.nbins + 1 then
              dptAt dpt ((y : Int) - (x : Int))
            else 0,
          error := fun _ _ => 0 } ∧
      (ConstructDPtResponseFromTH1D dpt false).xaxis.nbins = dpt.xaxis.nbins ∧
      (ConstructDPtResponseFromTH1D dpt false).yaxis.nbins = dpt.xaxis.nbins := by
    simp only [ConstructDPtResponseFromTH1D, Bool.false_eq_true, false_and, if_false]
    rw [dpt_loop _ dpt.xaxis.nbins
      (fun j k => dpt.GetBinContent (dpt.xaxis.FindBin (((k : Int) - (j : Int) : Int) : α)))
      rfl rfl _ le_rfl]
    exact ⟨rfl, rfl, rfl⟩
  obtain ⟨hf, hnx, hny⟩ := hform
  have hcell : ∀ j k : Nat, j ≤ dpt.GetNbinsX → k ≤ dpt.GetNbinsX →
      (ConstructDPtResponseFromTH1D dpt false).GetBinContent j k
        = dptAt dpt ((k : Int) - (j : Int)) := by
    intro j k hj hk
    simp only [TH1.GetNbinsX] at hj hk
    have h1 : min j (dpt.xaxis.nbins + 1) = j := by omega
    have h2 : min k (dpt.xaxis.nbins + 1) = k := by omega
    simp only [TH2D.GetBinContent, TH2D.GetBin, hnx, hny, h1, h2]
    rw [hf]
    simp only []
    rw [if_pos ⟨by omega, by omega⟩]
  refine ⟨hnx, hny, hcell, ?_, ?_⟩
  · intro j k j' k' hj hk hj' hk' hd
    rw [hcell j k hj hk, hcell j' k' hj' hk', hd]
  · intro j hj
    rw [hcell j j hj hj, sub_self]

/-- C6 (code evaluated at the failing input): for `dptWithGap` and the true
index `j = 1`, the distribution is exactly zero at `k0 - j = 1` (`k0 = 2`),
but with `AvoidRoundingError` enabled the cell `(true = 1, rec = 3)` of the
result is `5`: the test that sets `skip` reads
`dpt->GetBinContent(dpt->GetBinContent(k-j))`, here the content of bin `1`,
which is `1`. -/
theorem ConstructDPtResponseFromTH1D_skip_not_set :
    dptAt dptWithGap (2 - 1) = 0 ∧
    (ConstructDPtResponseFromTH1D dptWithGap true).GetBinContent 1 3 = 5 := by
  constructor
  · simp [dptAt, dptWithGap, TH1.GetBinContent, TH1.cell, TAxis.FindBin, countLE]
    norm_num
    rfl
  · simp [ConstructDPtResponseFromTH1D, dptWithGap, forLoop, TH2D.GetBinContent, TH2D.GetBin,
      TH2D.SetBinContent, TH1.GetBinContent, TH1.cell, TAxis.FindBin, countLE, AreEqualAbs,
      toInt]
    norm_num
    rfl

/-- C8 (code evaluated at the failing input): a bin with content `8` and bin
error `4` (variance `16`), normalized with event count `2`: the new content is
`4`, and the new bin error is set to `16 / 2² = 4`, so the new variance, the
square of the new bin error, is `16` and not the old variance divided by `N²`,
which is `4`. -/
theorem PrepareForUnfolding_eventCount_error (sqrt : ℚ → ℚ) :
    (PrepareForUnfolding_eventCount sqrt spectrumEightFour spectrumEightFour 2 0).1.GetBinContent 1
      = 8 / 2 ∧
    (PrepareForUnfolding_eventCount sqrt spectrumEightFour spectrumEightFour 2 0).1.GetBinError 1
      = 4 ^ 2 / 2 ^ 2 ∧
    (PrepareForUnfolding_eventCount sqrt spectrumEightFour spectrumEightFour 2 0).1.GetBinError 1 ^ 2
      ≠ 4 ^ 2 / 2 ^ 2 := by
  simp [PrepareForUnfolding_eventCount, PrepareForUnfolding_normalizeSpectrum, forLoop,
    spectrumEightFour, TH1.GetBinContent, TH1.GetBinError, TH1.SetBinContent, TH1.SetBinError,
    TH1.cell]
  norm_num

/-! ### Single precision -/

theorem roundHalfEven_sub_le {α : Type} [LinearOrderedField α] [FloorRing α] (x : α) :
    |((roundHalfEven x : Int) : α) - x| ≤ 1 / 2 := by
  have h0 : (0 : α) ≤ x - ⌊x⌋ := sub_nonneg.mpr (Int.floor_le x)
  have h1 : x - ⌊x⌋ < 1 := by
    have := Int.lt_floor_add_one x
    linarith
  unfold roundHalfEven
  split_ifs with ha hb hc
  · rw [abs_le]; constructor <;> linarith
  · push_cast; rw [abs_le]; constructor <;> linarith
  · have : x - ⌊x⌋ = 1 / 2 := le_antisymm (not_lt.mp hb) (not_lt.mp ha)
    rw [abs_le]; constructor <;> linarith
  · have : x - ⌊x⌋ = 1 / 2 := le_antisymm (not_lt.mp hb) (not_lt.mp ha)
    push_cast; rw [abs_le]; constructor <;> linarith

theorem roundHalfEven_eq {α : Type} [LinearOrderedField α] [FloorRing α] (x : α) (n : Int)
    (h : |x - n| < 1 / 2) : roundHalfEven x = n := by
  rw [abs_lt] at h
  have hfl : ⌊x⌋ = n ∨ ⌊x⌋ = n - 1 := by
    by_cases hx : (n : α) ≤ x
    · left
      rw [Int.floor_eq_iff]
      constructor
      · exact hx
      · linarith
    · right
      rw [Int.floor_eq_iff]
      push_cast
      constructor
      · linarith
      · linarith [not_le.mp hx]
  unfold roundHalfEven
  rcases hfl with hf | hf
  · rw [hf, if_pos (by linarith)]
  · rw [hf]
    have hlt : ¬ (x - ((n - 1 : Int) : α) < 1 / 2) := by
      push_cast
      linarith
    have hgt : 1 / 2 < x - ((n - 1 : Int) : α) := by
      push_cast
      linarith
    rw [if_neg hlt, if_pos hgt]
    ring

theorem Float_t_zero {α : Type} [LinearOrderedField α] [FloorRing α] : Float_t (0 : α) = 0 := by
  simp [Float_t]

/-- The value of the conversion for `2^e ≤ |x| < 2^(e+1)`: the multiple
`n · 2^(e-23)` that lies within half a unit of `x`. -/
theorem Float_t_eq {α : Type} [LinearOrderedField α] [FloorRing α] (x : α) (e n : Int)
    (he1 : (2 : α) ^ e ≤ |x|) (he2 : |x| < (2 : α) ^ (e + 1))
    (hn : |x / (2 : α) ^ (e - 23) - n| < 1 / 2) : Float_t x = (n : α) * (2 : α) ^ (e - 23) := by
  have hpos : 0 < |x| := lt_of_lt_of_le (zpow_pos (by norm_num) e) he1
  have hx : x ≠ 0 := abs_pos.mp hpos
  have hlog : Int.log 2 |x| = e := by
    apply le_antisymm
    · have := (Int.lt_zpow_iff_log_lt (R := α) (b := 2) (by norm_num) hpos (x := e + 1)).mp
        (by simpa using he2)
      omega
    · exact (Int.zpow_le_iff_le_log (R := α) (b := 2) (by norm_num) hpos).mp (by simpa using he1)
  rw [Float_t, if_neg hx, hlog, roundHalfEven_eq _ n hn]

/-- The conversion changes a value by at most the fraction `2^-24` of it. -/
theorem Float_t_sub_le {α : Type} [LinearOrderedField α] [FloorRing α] (x : α) :
    |Float_t x - x| ≤ |x| / 2 ^ 24 := by
  by_cases hx : x = 0
  · simp [hx, Float_t]
  · have hpos : 0 < |x| := abs_pos.mpr hx
    have hu : (0 : α) < (2 : α) ^ (Int.log 2 |x| - 23) := zpow_pos (by norm_num) _
    have hle : (2 : α) ^ Int.log 2 |x| ≤ |x| := by
      simpa using Int.zpow_log_le_self (R := α) (b := 2) (by norm_num) hpos
    rw [Float_t, if_neg hx]
    have hr := roundHalfEven_sub_le (x / (2 : α) ^ (Int.log 2 |x| - 23))
    have heq : ((roundHalfEven (x / (2 : α) ^ (Int.log 2 |x| - 23)) : Int) : α)
          * (2 : α) ^ (Int.log 2 |x| - 23) - x
        = (((roundHalfEven (x / (2 : α) ^ (Int.log 2 |x| - 23)) : Int) : α)
          - x / (2 : α) ^ (Int.log 2 |x| - 23)) * (2 : α) ^ (Int.log 2 |x| - 23) := by
      field_simp
    rw [heq, abs_mul, abs_of_pos hu]
    have hsplit : (2 : α) ^ (Int.log 2 |x| - 23) = (2 : α) ^ Int.log 2 |x| / 2 ^ 23 := by
      rw [zpow_sub₀ (by norm_num : (2 : α) ≠ 0)]
      norm_num
    calc |((roundHalfEven (x / (2 : α) ^ (Int.log 2 |x| - 23)) : Int) : α)
            - x / (2 : α) ^ (Int.log 2 |x| - 23)| * (2 : α) ^ (Int.log 2 |x| - 23)
        ≤ 1 / 2 * (2 : α) ^ (Int.log 2 |x| - 23) := mul_le_mul_of_nonneg_right hr (le_of_lt hu)
      _ = (2 : α) ^ Int.log 2 |x| / 2 ^ 24 := by rw [hsplit]; ring
      _ ≤ |x| / 2 ^ 24 := by
        apply div_le_div_of_nonneg_right hle
        positivity

theorem Float_t_pos {α : Type} [LinearOrderedField α] [FloorRing α] (x : α) (h : 0 < x) :
    0 < Float_t x := by
  have hb := Float_t_sub_le x
  rw [abs_of_pos h, abs_le] at hb
  have : x / 2 ^ 24 < x := by
    rw [div_lt_iff₀ (by positivity)]
    have : (1 : α) < 2 ^ 24 := by norm_num
    nlinarith
  linarith [hb.1]

/-- For `in = -1` and `out = 1` the sum `in + out` is zero: `GetV2` emits a
point whose value and error are not finite. -/
theorem GetV2_not_finite :
    (GetV2 Real.sqrt Real.pi (some spectrumMinusOne) (some flatSpectrum) 1).map
        (List.map (fun p => (p.x, p.y, p.ey)))
      = some [(1 / 2, none, none)] := by
  have hcent : Float_t (spectrumMinusOne.xaxis.GetBinCenter 1) = 1 / 2 := by
    have hv : spectrumMinusOne.xaxis.GetBinCenter 1 = 1 / 2 := by
      simp [TAxis.GetBinCenter, spectrumMinusOne]
    rw [hv, Float_t_eq (1 / 2 : ℝ) (-1) 8388608 (by norm_num [abs_of_pos])
      (by norm_num [abs_of_pos]) (by norm_num [abs_lt])]
    norm_num
  have hfind : flatSpectrum.FindBin (1 / 2) = 1 := by
    simp [TH1.FindBin, TAxis.FindBin, flatSpectrum, countLE]
    norm_num
  simp only [GetV2, TH1.GetNbinsX, forLoop, Option.map_some']
  have hn : spectrumMinusOne.xaxis.nbins = 1 := rfl
  simp only [hn, forLoop, hcent, hfind]
  simp [spectrumMinusOne, flatSpectrum, TH1.GetBinContent, TH1.GetBinError, TH1.cell, ddiv]

/-- C10 (code evaluated at the failing input): for the in-plane and
out-of-plane spectrum both equal to `spectrumNarrowBins` (bins `[10^8, 10^8+1)`
and `[10^8+1, 10^8+2)` with contents `1` and `3`) and `r = 1`, `GetV2` holds
both bin centers in single precision as `10^8`, looks both up in the first bin
and emits for the second bin a point whose value is `π/4 · (3 − 1)/(3 + 1)` in
single precision, which is above `1/3` and not `0`. -/
theorem GetV2_single_precision_center :
    (GetV2 Real.sqrt Real.pi (some spectrumNarrowBins) (some spectrumNarrowBins) 1).map
        (List.map (fun p => (p.x, p.y)))
      = some [(100000000, some 0),
          (100000000, some (Float_t (Real.pi / (4 * 1) * ((3 - 1) / (3 + 1)))))] ∧
    spectrumNarrowBins.xaxis.GetBinCenter 2 = 100000001 + 1 / 2 ∧
    1 / 3 < Float_t (Real.pi / (4 * 1) * ((3 - 1) / (3 + 1))) := by
  have hc1 : Float_t (spectrumNarrowBins.xaxis.GetBinCenter 1) = 100000000 := by
    have hv : spectrumNarrowBins.xaxis.GetBinCenter 1 = 100000000.5 := by
      simp [TAxis.GetBinCenter, spectrumNarrowBins]
      norm_num
    rw [hv, Float_t_eq (100000000.5 : ℝ) 26 12500000 (by norm_num [abs_of_pos])
      (by norm_num [abs_of_pos]) (by norm_num [abs_lt])]
    norm_num
  have hc2 : Float_t (spectrumNarrowBins.xaxis.GetBinCenter 2) = 100000000 := by
    have hv : spectrumNarrowBins.xaxis.GetBinCenter 2 = 100000001.5 := by
      simp [TAxis.GetBinCenter, spectrumNarrowBins]
      norm_num
    rw [hv, Float_t_eq (100000001.5 : ℝ) 26 12500000 (by norm_num [abs_of_pos])
      (by norm_num [abs_of_pos]) (by norm_num [abs_lt])]
    norm_num
  have hfind : spectrumNarrowBins.FindBin 100000000 = 1 := by
    simp [TH1.FindBin, TAxis.FindBin, spectrumNarrowBins, countLE]
    norm_num
  refine ⟨?_, ?_, ?_⟩
  · simp only [GetV2, TH1.GetNbinsX, forLoop, Option.map_some']
    have hn : spectrumNarrowBins.xaxis.nbins = 2 := rfl
    simp only [hn, forLoop, hc1, hc2, hfind]
    simp [spectrumNarrowBins, TH1.GetBinContent, TH1.cell, ddiv, Float_t_zero]
    exact ⟨_, ⟨by norm_num, rfl⟩, rfl⟩
  · simp [TAxis.GetBinCenter, spectrumNarrowBins]
    norm_num
  · have hpi := Real.pi_gt_three
    have hx : (3 : ℝ) / 8 < Real.pi / (4 * 1) * ((3 - 1) / (3 + 1)) := by
      norm_num
      linarith
    have hb := Float_t_sub_le (Real.pi / (4 * 1) * ((3 - 1) / (3 + 1)))
    have habs : |Real.pi / (4 * 1) * ((3 - 1) / (3 + 1))|
        = Real.pi / (4 * 1) * ((3 - 1) / (3 + 1)) := abs_of_pos (by linarith)
    rw [habs] at hb
    have hb' := (abs_le.mp hb).1
    have h24 : Real.pi / (4 * 1) * ((3 - 1) / (3 + 1)) / 2 ^ 24
        ≤ Real.pi / (4 * 1) * ((3 - 1) / (3 + 1)) / 100 := by
      apply div_le_div_of_nonneg_left (by linarith) (by norm_num) (by norm_num)
    linarith

/-- C9 (code evaluated at the failing input): for one bin with `in = out = 1`,
`ein = 1`, `eout = 0` and `r = 1`, `GetV2` emits one point whose error is
`sqrt((4r/π) · (out²·ein² + in²·eout²)/(in+out)⁴) = sqrt(4/π · 1/16)` (the
radicand and the root held in single precision), which differs from the
first-order propagated error
`(π/(4r)) · 2 · sqrt(out²·ein² + in²·eout²)/(in+out)² = π/8`. -/
theorem GetV2_error_prefactor :
    (GetV2 Real.sqrt Real.pi (some unitErrorSpectrum) (some flatSpectrum) 1).map
        (List.map (fun p => p.ey))
      = some [some (Float_t (Real.sqrt (Float_t (4 / Real.pi * (1 / 16)))))] ∧
    Float_t (Real.sqrt (Float_t (4 / Real.pi * (1 / 16))))
      ≠ Real.pi / (4 * 1) * 2 * Real.sqrt (1 ^ 2 * 1 ^ 2 + 1 ^ 2 * 0 ^ 2) / (1 + 1) ^ 2 := by
  have hpi := Real.pi_gt_three
  have hpi0 : (0 : ℝ) < Real.pi := by linarith
  have hpos : (0 : ℝ) < 4 / Real.pi * (1 / 16) := by positivity
  have hzpos : 0 < Float_t (4 / Real.pi * (1 / 16)) := Float_t_pos _ hpos
  constructor
  · have hcent : Float_t (unitErrorSpectrum.xaxis.GetBinCenter 1) = 1 / 2 := by
      have hv : unitErrorSpectrum.xaxis.GetBinCenter 1 = 1 / 2 := by
        simp [TAxis.GetBinCenter, unitErrorSpectrum]
      rw [hv, Float_t_eq (1 / 2 : ℝ) (-1) 8388608 (by norm_num [abs_of_pos])
        (by norm_num [abs_of_pos]) (by norm_num [abs_lt])]
      norm_num
    have hfind : flatSpectrum.FindBin (1 / 2) = 1 := by
      simp [TH1.FindBin, TAxis.FindBin, flatSpectrum, countLE]
      norm_num
    simp only [GetV2, TH1.GetNbinsX, forLoop, Option.map_some']
    have hn : unitErrorSpectrum.xaxis.nbins = 1 := rfl
    simp only [hn, forLoop, hcent, hfind]
    have hne : Real.pi ≠ 0 := ne_of_gt hpi0
    simp [unitErrorSpectrum, flatSpectrum, TH1.GetBinContent, TH1.GetBinError, TH1.cell, ddiv, hne]
    have h16 : (((1 : ℝ) + 1) ^ 4)⁻¹ = 1 / 16 := by norm_num
    have h16' : (16 : ℝ)⁻¹ = 1 / 16 := by norm_num
    rw [h16, h16', if_pos hzpos]
  · have hx : 4 / Real.pi * (1 / 16) < 1 / 12 := by
      rw [div_mul_eq_mul_div, div_lt_iff₀ hpi0]
      linarith
    have hz := Float_t_sub_le (4 / Real.pi * (1 / 16))
    rw [abs_of_pos hpos] at hz
    have hz' := (abs_le.mp hz).2
    have hz24 : 4 / Real.pi * (1 / 16) / 2 ^ 24 ≤ 4 / Real.pi * (1 / 16) / 100 :=
      div_le_div_of_nonneg_left (le_of_lt hpos) (by norm_num) (by norm_num)
    have hzlt : Float_t (4 / Real.pi * (1 / 16)) < (3 / 10) ^ 2 := by
      norm_num
      linarith
    have hy : Real.sqrt (Float_t (4 / Real.pi * (1 / 16))) < 3 / 10 :=
      (Real.sqrt_lt' (by norm_num)).mpr hzlt
    have hypos : 0 < Real.sqrt (Float_t (4 / Real.pi * (1 / 16))) := Real.sqrt_pos.mpr hzpos
    have hf := Float_t_sub_le (Real.sqrt (Float_t (4 / Real.pi * (1 / 16))))
    rw [abs_of_pos hypos] at hf
    have hf' := (abs_le.mp hf).2
    have hf24 : Real.sqrt (Float_t (4 / Real.pi * (1 / 16))) / 2 ^ 24
        ≤ Real.sqrt (Float_t (4 / Real.pi * (1 / 16))) / 100 :=
      div_le_div_of_nonneg_left (le_of_lt hypos) (by norm_num) (by norm_num)
    have hrhs : Real.pi / (4 * 1) * 2 * Real.sqrt (1 ^ 2 * 1 ^ 2 + 1 ^ 2 * 0 ^ 2) / (1 + 1) ^ 2
        = Real.pi / 8 := by
      norm_num
      ring
    rw [hrhs]
    apply ne_of_lt
    linarith

/-- The sibling loop of `ConstructDPtResponseFromTH1D`: in the matrix
`PrepareForUnfolding` fills with `fAvoidRoundingError` set, for every delta-pt
distribution and all indices
`-50 ≤ j < k0 < k ≤ 249`: if the distribution's value at `k0 - j` is zero
within `1e-8`, the element `(rec = k, true = j)` is exactly `0`. -/
theorem PrepareForUnfolding_rf_zero_after_zero {α : Type} [LinearOrderedField α]
    (fDptDist : TH1 α) (j k0 k : Int) (hj : -50 ≤ j) (hjk : j < k0) (hk : k0 < k)
    (hk249 : k ≤ 249) (hzero : AreEqualAbs (dptAt fDptDist (k0 - j)) 0 (1 / 10 ^ 8)) :
    PrepareForUnfolding_rf fDptDist true k j = 0 := by
  have h := rf_loop fDptDist 300 (j + 50).toNat (by omega) (k + 50).toNat (by omega)
    ⟨(k0 + 50).toNat, by omega, by omega, by
      have e : ((k0 + 50).toNat : Int) - 50 - (((j + 50).toNat : Int) - 50) = k0 - j := by omega
      rw [e]
      exact hzero⟩
  have e1 : (((k + 50).toNat : Nat) : Int) - 50 = k := by omega
  have e2 : (((j + 50).toNat : Nat) : Int) - 50 = j := by omega
  rw [e1, e2] at h
  exact h

/-- The sibling-loop statement applied to the distribution `dptWithGap` at
`j = 1`, `k0 = 2`, `k = 3`. -/
theorem PrepareForUnfolding_rf_zero_after_zero_witness :
    AreEqualAbs (dptAt dptWithGap (2 - 1)) 0 (1 / 10 ^ 8) ∧
    PrepareForUnfolding_rf dptWithGap true 3 1 = 0 :=
  have hz : AreEqualAbs (dptAt dptWithGap (2 - 1)) 0 (1 / 10 ^ 8) := by
    simp [AreEqualAbs, dptAt, dptWithGap, TH1.GetBinContent, TH1.cell, TAxis.FindBin, countLE]
    norm_num
    rw [show Int.toNat 2 = 2 from rfl]
    norm_num
  ⟨hz, PrepareForUnfolding_rf_zero_after_zero dptWithGap 1 2 3 (by decide) (by decide)
    (by decide) (by decide) hz⟩

/-! ### The retry loop for every solver behaviour -/

/-- What the retry loop guarantees from any state `s` on: the counter does not
decrease and stays within `100`; the loop ends on a state that fails the loop
condition; it leaves `s` only when `s` meets the loop condition; every call
but the last reported a negative status; and after at least one call the
status, the Hessian indicator and the spectrum are those of the last call. -/
theorem unfoldLoop_post {β : Type} (solver : Nat → FitReport β) :
    ∀ (k : Nat) (s : Chi2State β), 100 - s.i = k →
      s.i ≤ (unfoldLoop solver s).i ∧
      ((unfoldLoop solver s).i ≤ 100 ∨ unfoldLoop solver s = s) ∧
      ¬ ((unfoldLoop solver s).status < 0 ∧ (unfoldLoop solver s).i < 100) ∧
      (s.i < (unfoldLoop solver s).i → s.status < 0 ∧ s.i < 100) ∧
      (s.i = (unfoldLoop solver s).i → unfoldLoop solver s = s) ∧
      (∀ m, s.i ≤ m → m + 1 < (unfoldLoop solver s).i → (solver m).status < 0) ∧
      (s.i < (unfoldLoop solver s).i →
        (unfoldLoop solver s).status = (solver ((unfoldLoop solver s).i - 1)).status ∧
        (unfoldLoop solver s).fISW1 = (solver ((unfoldLoop solver s).i - 1)).fISW1 ∧
        (unfoldLoop solver s).unfoldedLocal
          = (solver ((unfoldLoop solver s).i - 1)).unfolded) := by
  intro k
  induction k using Nat.strong_induction_on with
  | _ k ih =>
    intro s hk
    by_cases hc : s.status < 0 ∧ s.i < 100
    · rw [unfoldLoop_step solver s hc]
      obtain ⟨h1, h2, h3, h4, h5, h6, h7⟩ := ih (100 - (s.i + 1)) (by omega)
        { status := (solver s.i).status, i := s.i + 1,
          unfoldedLocal := (solver s.i).unfolded, fISW1 := (solver s.i).fISW1 } rfl
      simp only at h1 h2 h4 h5 h6 h7
      refine ⟨by omega, ?_, h3, fun _ => hc, fun h => by omega, ?_, ?_⟩
      · rcases h2 with h2 | h2
        · exact Or.inl h2
        · left
          rw [h2]
          simp only
          omega
      · intro m hm1 hm2
        rcases Nat.lt_or_ge s.i m with h | h
        · exact h6 m (by omega) hm2
        · have hms : m = s.i := by omega
          rw [hms]
          exact (h4 (by omega)).1
      · intro _
        rcases Nat.lt_or_ge (s.i + 1) (unfoldLoop solver
            { status := (solver s.i).status, i := s.i + 1,
              unfoldedLocal := (solver s.i).unfolded, fISW1 := (solver s.i).fISW1 }).i with h | h
        · exact h7 h
        · have he := h5 (by omega)
          rw [he]
          exact ⟨rfl, rfl, rfl⟩
    · rw [unfoldLoop_stop solver s hc]
      exact ⟨le_rfl, Or.inr rfl, hc, fun h => absurd h (lt_irrefl _), fun _ => rfl,
        fun m h1 h2 => by omega, fun h => absurd h (lt_irrefl _)⟩

/-- The retry loop of `UnfoldSpectrumChi2`, started with `status = -1` and
`i = 0`: between one and one hundred calls, every call but the last with a
negative status, and the final status, Hessian indicator and spectrum are
those of the last call. -/
theorem unfoldLoop_from_start {β : Type} (solver : Nat → FitReport β) (unfoldedLocal : β)
    (fISW1 : Int) :
    1 ≤ (unfoldLoop solver
      { status := -1, i := 0, unfoldedLocal := unfoldedLocal, fISW1 := fISW1 }).i ∧
    (unfoldLoop solver
      { status := -1, i := 0, unfoldedLocal := unfoldedLocal, fISW1 := fISW1 }).i ≤ 100 ∧
    ¬ ((unfoldLoop solver
        { status := -1, i := 0, unfoldedLocal := unfoldedLocal, fISW1 := fISW1 }).status < 0 ∧
      (unfoldLoop solver
        { status := -1, i := 0, unfoldedLocal := unfoldedLocal, fISW1 := fISW1 }).i < 100) ∧
    (∀ m, m + 1 < (unfoldLoop solver
        { status := -1, i := 0, unfoldedLocal := unfoldedLocal, fISW1 := fISW1 }).i →
      (solver m).status < 0) ∧
    (unfoldLoop solver
        { status := -1, i := 0, unfoldedLocal := unfoldedLocal, fISW1 := fISW1 }).status
      = (solver ((unfoldLoop solver
        { status := -1, i := 0, unfoldedLocal := unfoldedLocal, fISW1 := fISW1 }).i - 1)).status ∧
    (unfoldLoop solver
        { status := -1, i := 0, unfoldedLocal := unfoldedLocal, fISW1 := fISW1 }).fISW1
      = (solver ((unfoldLoop solver
        { status := -1, i := 0, unfoldedLocal := unfoldedLocal, fISW1 := fISW1 }).i - 1)).fISW1 ∧
    (unfoldLoop solver
        { status := -1, i := 0, unfoldedLocal := unfoldedLocal, fISW1 := fISW1 }).unfoldedLocal
      = (solver ((unfoldLoop solver
        { status := -1, i := 0, unfoldedLocal := unfoldedLocal, fISW1 := fISW1 }).i - 1)).unfolded := by
  obtain ⟨_, h2, h3, _, h5, h6, h7⟩ := unfoldLoop_post solver 100
    { status := -1, i := 0, unfoldedLocal := unfoldedLocal, fISW1 := fISW1 } rfl
  have hpos : 0 < (unfoldLoop solver
      { status := -1, i := 0, unfoldedLocal := unfoldedLocal, fISW1 := fISW1 }).i := by
    by_contra hc
    have he := h5 (by simp only; omega)
    rw [he] at h3
    exact h3 ⟨show (-1 : Int) < 0 by decide, show (0 : Nat) < 100 by decide⟩
  have hle : (unfoldLoop solver
      { status := -1, i := 0, unfoldedLocal := unfoldedLocal, fISW1 := fISW1 }).i ≤ 100 := by
    rcases h2 with h | h
    · exact h
    · rw [h]
      exact Nat.zero_le 100
  obtain ⟨e1, e2, e3⟩ := h7 hpos
  exact ⟨hpos, hle, h3, fun m hm => h6 m (Nat.zero_le m) hm, e1, e2, e3⟩

/-- C15: `UnfoldSpectrumChi2` returns true if and only if the last solver
invocation returned fit status `0` and left the Hessian indicator `fISW[1]`
equal to `3`; in particular a status-`0` fit with any other Hessian indicator
returns false. -/
theorem UnfoldSpectrumChi2_converged_iff {β : Type} (solver : Nat → FitReport β)
    (unfoldedLocal : β) (fISW1 : Int) :
    1 ≤ (UnfoldSpectrumChi2 solver unfoldedLocal fISW1).invocations ∧
    ((UnfoldSpectrumChi2 solver unfoldedLocal fISW1).converged = true ↔
      (solver ((UnfoldSpectrumChi2 solver unfoldedLocal fISW1).invocations - 1)).status = 0 ∧
      (solver ((UnfoldSpectrumChi2 solver unfoldedLocal fISW1).invocations - 1)).fISW1 = 3) ∧
    ((solver ((UnfoldSpectrumChi2 solver unfoldedLocal fISW1).invocations - 1)).status = 0 →
      (solver ((UnfoldSpectrumChi2 solver unfoldedLocal fISW1).invocations - 1)).fISW1 ≠ 3 →
      (UnfoldSpectrumChi2 solver unfoldedLocal fISW1).converged = false) := by
  obtain ⟨hpos, _, _, _, e1, e2, _⟩ := unfoldLoop_from_start solver unfoldedLocal fISW1
  have hiff : (UnfoldSpectrumChi2 solver unfoldedLocal fISW1).converged = true ↔
      (solver ((UnfoldSpectrumChi2 solver unfoldedLocal fISW1).invocations - 1)).status = 0 ∧
      (solver ((UnfoldSpectrumChi2 solver unfoldedLocal fISW1).invocations - 1)).fISW1 = 3 := by
    simp only [UnfoldSpectrumChi2, decide_eq_true_eq]
    rw [← e1, ← e2]
    constructor
    · intro h
      by_contra hc
      rw [if_neg hc] at h
      exact absurd h (by decide)
    · intro h
      rw [if_pos h]
      exact h.1
  refine ⟨hpos, hiff, ?_⟩
  intro h0 h3
  cases hb : (UnfoldSpectrumChi2 solver unfoldedLocal fISW1).converged with
  | false => rfl
  | true => exact absurd (hiff.mp hb).2 h3

/-- C16: for every behaviour of the solver the retry loop of
`UnfoldSpectrumChi2` ends after at least one and at most one hundred solver
invocations; no invocation follows one that returned status `0`; the spectrum
handed back is the one of the last invocation; and when all hundred
invocations report a negative status the function makes exactly one hundred
invocations and returns false, handing back the spectrum of the hundredth. -/
theorem UnfoldSpectrumChi2_terminates {β : Type} (solver : Nat → FitReport β)
    (unfoldedLocal : β) (fISW1 : Int) :
    1 ≤ (UnfoldSpectrumChi2 solver unfoldedLocal fISW1).invocations ∧
    (UnfoldSpectrumChi2 solver unfoldedLocal fISW1).invocations ≤ 100 ∧
    (∀ m, m + 1 < (UnfoldSpectrumChi2 solver unfoldedLocal fISW1).invocations →
      (solver m).status ≠ 0) ∧
    (UnfoldSpectrumChi2 solver unfoldedLocal fISW1).unfolded
      = (solver ((UnfoldSpectrumChi2 solver unfoldedLocal fISW1).invocations - 1)).unfolded ∧
    ((∀ m, m < 100 → (solver m).status < 0) →
      (UnfoldSpectrumChi2 solver unfoldedLocal fISW1).invocations = 100 ∧
      (UnfoldSpectrumChi2 solver unfoldedLocal fISW1).converged = false ∧
      (UnfoldSpectrumChi2 solver unfoldedLocal fISW1).unfolded = (solver 99).unfolded) := by
  obtain ⟨hpos, hle, hstop, hneg, e1, e2, e3⟩ := unfoldLoop_from_start solver unfoldedLocal fISW1
  have hinv : (UnfoldSpectrumChi2 solver unfoldedLocal fISW1).invocations
      = (unfoldLoop solver
          { status := -1, i := 0, unfoldedLocal := unfoldedLocal, fISW1 := fISW1 }).i := rfl
  have hunf : (UnfoldSpectrumChi2 solver unfoldedLocal fISW1).unfolded
      = (unfoldLoop solver
          { status := -1, i := 0, unfoldedLocal := unfoldedLocal, fISW1 := fISW1 }).unfoldedLocal :=
    rfl
  refine ⟨hpos, hle, ?_, ?_, ?_⟩
  · intro m hm
    exact ne_of_lt (hneg m hm)
  · rw [hunf, e3, hinv]
  · intro hall
    have h100 : (unfoldLoop solver
        { status := -1, i := 0, unfoldedLocal := unfoldedLocal, fISW1 := fISW1 }).i = 100 := by
      by_contra hne
      apply hstop
      refine ⟨?_, by omega⟩
      rw [e1]
      exact hall _ (by omega)
    refine ⟨by rw [hinv, h100], ?_, by rw [hunf, e3, h100]⟩
    have hst : (unfoldLoop solver
        { status := -1, i := 0, unfoldedLocal := unfoldedLocal, fISW1 := fISW1 }).status < 0 := by
      rw [e1]
      exact hall _ (by omega)
    simp only [UnfoldSpectrumChi2, decide_eq_false_iff_not]
    rw [if_neg (fun h => absurd h.1 (ne_of_lt hst))]
    decide

/-! ### NormalizeTH2D on slices with a sum that is not positive -/

/-- A slice with a positive content sum sums to `1` once normalized. -/
theorem slicesNormalized_sliceSum_pos {α : Type} [LinearOrderedField α] (h : TH2D α)
    (x : Nat) (hx1 : 1 ≤ x) (hx : x ≤ h.xaxis.nbins) (hpos : 0 < h.sliceSum x) :
    (h.slicesNormalized h.xaxis.nbins).sliceSum x = 1 := by
  have hsum : (h.slicesNormalized h.xaxis.nbins).sliceSum x
      = ∑ j ∈ Finset.range h.yaxis.nbins, h.GetBinContent x (j + 1) / h.sliceSum x := by
    unfold TH2D.sliceSum
    apply Finset.sum_congr rfl
    intro j hj
    have hj' : j < h.yaxis.nbins := Finset.mem_range.mp hj
    have := slicesNormalized_GetBinContent h x (j + 1) hx1 hx (by omega) (by omega)
    rw [if_pos hpos] at this
    exact this
  rw [hsum, ← Finset.sum_div]
  exact div_self (ne_of_gt hpos)



/-- C17 (the claim fails as stated): the only slice of `minusOneByOne` has the
nonzero content sum `-1`; after `NormalizeTH2D` its content sum is still `-1`,
not `1`. -/
theorem NormalizeTH2D_negative_sum_counterexample :
    minusOneByOne.sliceSum 1 ≠ 0 ∧
    ∃ h' : TH2D ℚ, NormalizeTH2D (some minusOneByOne) = some h' ∧ h'.sliceSum 1 ≠ 1 := by
  refine ⟨?_, _, NormalizeTH2D_eq minusOneByOne, ?_⟩
  · simp [TH2D.sliceSum, TH2D.GetBinContent, TH2D.GetBin, minusOneByOne, unitAxis]
  · simp [TH2D.sliceSum, TH2D.slicesNormalized, TH2D.GetBinContent, TH2D.GetBin, minusOneByOne,
      unitAxis]
    norm_num

/-- C17 (amended): after `NormalizeTH2D` every true slice whose original
in-range content sum is positive sums to `1`, and every slice whose content
sum is zero or negative is left untouched cell by cell (content and error of
every cell of the slice). -/
theorem NormalizeTH2D_positive_or_untouched {α : Type} [LinearOrderedField α] (h : TH2D α) :
    ∃ h' : TH2D α, NormalizeTH2D (some h) = some h' ∧
      ∀ x, 1 ≤ x → x ≤ h.GetNbinsX →
        (0 < h.sliceSum x → h'.sliceSum x = 1) ∧
        (h.sliceSum x ≤ 0 → ∀ y,
          h'.GetBinContent x y = h.GetBinContent x y ∧
          h'.GetBinError x y = h.GetBinError x y) := by
  refine ⟨_, NormalizeTH2D_eq h, ?_⟩
  intro x hx1 hx
  simp only [TH2D.GetNbinsX] at hx
  refine ⟨slicesNormalized_sliceSum_pos h x hx1 hx, ?_⟩
  intro hle y
  have h1 : min x (h.xaxis.nbins + 1) = x := by omega
  simp only [TH2D.slicesNormalized, TH2D.GetBinContent, TH2D.GetBinError, TH2D.GetBin, h1]
  rw [if_neg (fun hc => absurd hc.2.2 (not_lt.mpr hle)),
    if_neg (fun hc => absurd hc.2.2 (not_lt.mpr hle))]
  exact ⟨rfl, rfl⟩

/-! ### GetRatio -/

theorem forLoop_append_unless {β : Type} (a c : Nat → Prop) [DecidablePred a] [DecidablePred c]
    (g : Nat → β) (n : Nat) :
    forLoop n (fun idx gr => if a idx then gr else if c idx then gr ++ [g idx] else gr) []
      = (List.range n).filterMap
          (fun idx => if ¬ a idx ∧ c idx then some (g idx) else none) := by
  induction n with
  | zero => rfl
  | succ n ih =>
    rw [forLoop_succ, ih, List.range_succ, List.filterMap_append]
    by_cases ha : a n
    · simp [ha]
    · by_cases hc : c n
      · simp [ha, hc]
      · simp [ha, hc]

/-- The error `GetRatio` attaches to a point is the root of the sum of the
squared relative contributions, when the error of the denominator is not
negative. -/
theorem GetRatio_error {α : Type} [LinearOrderedField α] (sqrt : α → α) (hsqrt : sqrt 0 = 0)
    (c1 e1 c2 e2 : α) (he2 : 0 ≤ e2) :
    (if (if e2 > 0 then 1 / c2 * e1 * (1 / c2 * e1)
            + -1 * c1 / (c2 * c2) * e2 * (-1 * c1 / (c2 * c2) * e2)
          else 1 / c2 * e1 * (1 / c2 * e1)) > 0 then
        sqrt (if e2 > 0 then 1 / c2 * e1 * (1 / c2 * e1)
            + -1 * c1 / (c2 * c2) * e2 * (-1 * c1 / (c2 * c2) * e2)
          else 1 / c2 * e1 * (1 / c2 * e1))
      else (if e2 > 0 then 1 / c2 * e1 * (1 / c2 * e1)
            + -1 * c1 / (c2 * c2) * e2 * (-1 * c1 / (c2 * c2) * e2)
          else 1 / c2 * e1 * (1 / c2 * e1)))
      = sqrt ((e1 / c2) ^ 2 + (c1 * e2 / c2 ^ 2) ^ 2) := by
  have hE : (if e2 > 0 then 1 / c2 * e1 * (1 / c2 * e1)
            + -1 * c1 / (c2 * c2) * e2 * (-1 * c1 / (c2 * c2) * e2)
          else 1 / c2 * e1 * (1 / c2 * e1))
      = (e1 / c2) ^ 2 + (c1 * e2 / c2 ^ 2) ^ 2 := by
    by_cases h : e2 > 0
    · rw [if_pos h]
      ring
    · rw [if_neg h]
      have h0 : e2 = 0 := le_antisymm (not_lt.mp h) he2
      rw [h0]
      ring
  rw [hE]
  by_cases hp : (e1 / c2) ^ 2 + (c1 * e2 / c2 ^ 2) ^ 2 > 0
  · rw [if_pos hp]
  · rw [if_neg hp]
    have hnn : 0 ≤ (e1 / c2) ^ 2 + (c1 * e2 / c2 ^ 2) ^ 2 := by positivity
    have h0 : (e1 / c2) ^ 2 + (c1 * e2 / c2 ^ 2) ^ 2 = 0 := le_antisymm (not_lt.mp hp) hnn
    rw [h0, hsqrt]

/-- C11: for all histograms `h1`, `h2` (binnings may differ; the bin errors of
`h2` are not negative, as bin errors are), `GetRatio` emits, in increasing bin
order, exactly one point for each `h1` bin whose center is not beyond a
positive `xmax` and falls in an `h2` bin with content `> 0`, and no point for
any other bin, so every division is by a positive content; the point sits at
the bin center, has value `h1/h2`, error
`sqrt((err1/h2)² + (h1·err2/h2²)²)` and x-error half the `h1` bin width. -/
theorem GetRatio_points {α : Type} [LinearOrderedField α] (sqrt : α → α) (h1 h2 : TH1 α)
    (xmax : Int) (hsqrt : sqrt 0 = 0) (herr : ∀ b, 0 ≤ h2.error b) :
    GetRatio sqrt (some h1) (some h2) xmax
      = some ((List.range h1.GetNbinsX).filterMap (fun idx =>
          if ¬ ((xmax : α) > 0 ∧ h1.xaxis.GetBinCenter (idx + 1) > (xmax : α)) ∧
              h2.GetBinContent (h2.FindBin (h1.xaxis.GetBinCenter (idx + 1))) > 0 then
            some
              { x := h1.xaxis.GetBinCenter (idx + 1)
                y := h1.GetBinContent ((idx + 1 : Nat) : Int)
                  / h2.GetBinContent (h2.FindBin (h1.xaxis.GetBinCenter (idx + 1)))
                ex := (1 / 2) * h1.xaxis.GetBinWidth (idx + 1)
                ey := sqrt
                  ((h1.GetBinError ((idx + 1 : Nat) : Int)
                      / h2.GetBinContent (h2.FindBin (h1.xaxis.GetBinCenter (idx + 1)))) ^ 2
                    + (h1.GetBinContent ((idx + 1 : Nat) : Int)
                        * h2.GetBinError (h2.FindBin (h1.xaxis.GetBinCenter (idx + 1)))
                        / h2.GetBinContent (h2.FindBin (h1.xaxis.GetBinCenter (idx + 1))) ^ 2)
                      ^ 2) }
          else none)) := by
  have he : ∀ j : Int, 0 ≤ h2.GetBinError j := fun j => herr (h2.cell j)
  simp only [GetRatio]
  rw [forLoop_append_unless]
  congr 2
  funext idx
  rw [GetRatio_error sqrt hsqrt _ _ _ _ (he _)]

/-- The C11 statement applied to two concrete spectra over the reals, with the
real square root and no upper limit. -/
theorem GetRatio_points_witness :
    Real.sqrt 0 = 0 ∧ (∀ b, 0 ≤ flatSpectrum.error b) ∧
    GetRatio Real.sqrt (some unitErrorSpectrum) (some flatSpectrum) (-1)
      = some ((List.range unitErrorSpectrum.GetNbinsX).filterMap (fun idx =>
          if ¬ (((-1 : Int) : ℝ) > 0 ∧
                unitErrorSpectrum.xaxis.GetBinCenter (idx + 1) > ((-1 : Int) : ℝ)) ∧
              flatSpectrum.GetBinContent
                (flatSpectrum.FindBin (unitErrorSpectrum.xaxis.GetBinCenter (idx + 1))) > 0 then
            some
              { x := unitErrorSpectrum.xaxis.GetBinCenter (idx + 1)
                y := unitErrorSpectrum.GetBinContent ((idx + 1 : Nat) : Int)
                  / flatSpectrum.GetBinContent
                      (flatSpectrum.FindBin (unitErrorSpectrum.xaxis.GetBinCenter (idx + 1)))
                ex := (1 / 2) * unitErrorSpectrum.xaxis.GetBinWidth (idx + 1)
                ey := Real.sqrt
                  ((unitErrorSpectrum.GetBinError ((idx + 1 : Nat) : Int)
                      / flatSpectrum.GetBinContent
                          (flatSpectrum.FindBin
                            (unitErrorSpectrum.xaxis.GetBinCenter (idx + 1)))) ^ 2
                    + (unitErrorSpectrum.GetBinContent ((idx + 1 : Nat) : Int)
                        * flatSpectrum.GetBinError
                            (flatSpectrum.FindBin
                              (unitErrorSpectrum.xaxis.GetBinCenter (idx + 1)))
                        / flatSpectrum.GetBinContent
                            (flatSpectrum.FindBin
                              (unitErrorSpectrum.xaxis.GetBinCenter (idx + 1))) ^ 2)
                      ^ 2) }
          else none)) :=
  ⟨Real.sqrt_zero, fun _ => le_rfl,
    GetRatio_points Real.sqrt unitErrorSpectrum flatSpectrum (-1) Real.sqrt_zero
      (fun _ => le_rfl)⟩

/-! ### GetUnfoldingTemplate -/

/-- On borders that increase up to index `n`, the borders `≤ x` among the
first `n'` are exactly the first `countLE edges x n'`. -/
theorem countLE_spec {α : Type} [LinearOrder α] (edges : Nat → α) (x : α) (n : Nat)
    (hmono : ∀ a b, a < b → b ≤ n → edges a < edges b) :
    ∀ n', n' ≤ n + 1 →
      countLE edges x n' ≤ n' ∧
      (∀ k, k < countLE edges x n' → edges k ≤ x) ∧
      (∀ k, countLE edges x n' ≤ k → k < n' → x < edges k) := by
  intro n'
  induction n' with
  | zero =>
    intro _
    refine ⟨le_rfl, ?_, ?_⟩
    · intro k hk
      simp [countLE] at hk
    · intro k _ hk
      omega
  | succ n' ih =>
    intro hn'
    obtain ⟨h1, h2, h3⟩ := ih (by omega)
    rw [countLE]
    by_cases hle : edges n' ≤ x
    · rw [if_pos hle]
      have hc : countLE edges x n' = n' := by
        by_contra hne
        have hlt : countLE edges x n' < n' := by omega
        have ha := h3 (countLE edges x n') le_rfl hlt
        have hb := hmono (countLE edges x n') n' hlt (by omega)
        exact absurd (lt_trans ha hb) (not_lt.mpr hle)
      refine ⟨by omega, ?_, ?_⟩
      · intro k hk
        rcases Nat.lt_or_ge k n' with h | h
        · exact h2 k (by omega)
        · have : k = n' := by omega
          rw [this]
          exact hle
      · intro k hk1 hk2
        omega
    · rw [if_neg hle]
      refine ⟨by omega, ?_, ?_⟩
      · intro k hk
        exact h2 k (by omega)
      · intro k hk1 hk2
        rcases Nat.lt_or_ge k n' with h | h
        · exact h3 k (by omega) h
        · have : k = n' := by omega
          rw [this]
          exact not_le.mp hle

/-- On an axis with increasing borders, `FindBin` returns the in-range bin `m`
exactly for the values in `[edges (m-1), edges m)`. -/
theorem FindBin_eq_iff {α : Type} [LinearOrder α] (ax : TAxis α)
    (hmono : ∀ a b, a < b → b ≤ ax.nbins → ax.edges a < ax.edges b)
    (x : α) (m : Nat) (hm1 : 1 ≤ m) (hm : m ≤ ax.nbins) :
    ax.FindBin x = m ↔ ax.edges (m - 1) ≤ x ∧ x < ax.edges m := by
  obtain ⟨h1, h2, h3⟩ := countLE_spec ax.edges x ax.nbins hmono (ax.nbins + 1) le_rfl
  unfold TAxis.FindBin
  by_cases hlo : x < ax.edges 0
  · rw [if_pos hlo]
    constructor
    · intro h
      omega
    · intro h
      have : ax.edges 0 ≤ ax.edges (m - 1) := by
        rcases Nat.eq_zero_or_pos (m - 1) with h0 | h0
        · rw [h0]
        · exact le_of_lt (hmono 0 (m - 1) h0 (by omega))
      exact absurd (lt_of_lt_of_le hlo (le_trans this h.1)) (lt_irrefl x)
  · rw [if_neg hlo]
    by_cases hhi : x < ax.edges ax.nbins
    · rw [if_neg (not_not.mpr hhi)]
      constructor
      · intro h
        rw [h] at h2 h3
        exact ⟨h2 (m - 1) (by omega), h3 m le_rfl (by omega)⟩
      · intro h
        by_contra hne
        rcases Nat.lt_or_ge (countLE ax.edges x (ax.nbins + 1)) m with hc | hc
        · have := h3 (m - 1) (by omega) (by omega)
          exact absurd this (not_lt.mpr h.1)
        · have := h2 m (by omega)
          exact absurd this (not_le.mpr h.2)
    · rw [if_pos hhi]
      constructor
      · intro h
        omega
      · intro h
        have : ax.edges m ≤ ax.edges ax.nbins := by
          rcases Nat.lt_or_ge m ax.nbins with h0 | h0
          · exact le_of_lt (hmono m ax.nbins h0 le_rfl)
          · have : m = ax.nbins := by omega
            rw [this]
        exact absurd (lt_of_lt_of_le h.2 this) hhi

/-- The fill loop of `GetUnfoldingTemplate` after `n` iterations: every bin
has received the weights of the values found in it. -/
theorem fill_loop {α : Type} [LinearOrderedField α] (r0 : TH1 α) (c w : Nat → α) (n : Nat) :
    forLoop n (fun i rebinned => rebinned.Fill (c i) (w i)) r0
      = { r0 with
          content := fun b =>
            r0.content b + ∑ i ∈ Finset.range n, if r0.xaxis.FindBin (c i) = b then w i else 0 } := by
  induction n with
  | zero =>
    obtain ⟨xa, co, e⟩ := r0
    simp [forLoop]
  | succ n ih =>
    rw [forLoop_succ, ih]
    obtain ⟨xa, co, e⟩ := r0
    simp only [TH1.Fill, TH1.FindBin, TH1.mk.injEq, true_and, and_true]
    funext b
    rw [Finset.sum_range_succ]
    by_cases hb : b = xa.FindBin (c n)
    · rw [if_pos hb, if_pos hb.symm]
      ring
    · rw [if_neg hb, if_neg (fun h => hb h.symm)]
      ring

/-- C14: `GetUnfoldingTemplate` returns null exactly when the histogram or the
border array is missing; for a source histogram and strictly increasing
borders `e_0 < ... < e_M` it returns a new `M`-bin histogram in which the
content of bin `m` is the sum of the contents of exactly those in-range source
bins whose center `c` satisfies `e_(m-1) ≤ c < e_m` (so a source bin whose
center lies outside `[e_0, e_M)` contributes to no in-range bin). -/
theorem GetUnfoldingTemplate_bins {α : Type} [LinearOrderedField α] (histo : TH1 α)
    (bins : TArrayD α)
    (hmono : ∀ a b, a < b → b ≤ bins.GetSize - 1 → bins.At a < bins.At b) :
    (∀ (ho : Option (TH1 α)) (bo : Option (TArrayD α)),
      GetUnfoldingTemplate ho bo = none ↔ (ho = none ∨ bo = none)) ∧
    ∃ r : TH1 α, GetUnfoldingTemplate (some histo) (some bins) = some r ∧
      r.GetNbinsX = bins.GetSize - 1 ∧
      ∀ m : Nat, 1 ≤ m → m ≤ bins.GetSize - 1 →
        r.GetBinContent (m : Int)
          = ∑ i ∈ (Finset.range histo.GetNbinsX).filter (fun i =>
              bins.At (m - 1) ≤ histo.xaxis.GetBinCenter (i + 1) ∧
              histo.xaxis.GetBinCenter (i + 1) < bins.At m),
              histo.GetBinContent ((i + 1 : Nat) : Int) := by
  constructor
  · intro ho bo
    cases ho <;> cases bo <;> simp [GetUnfoldingTemplate]
  · refine ⟨_, rfl, ?_, ?_⟩
    · rw [fill_loop]
      rfl
    · intro m hm1 hm
      rw [fill_loop]
      have hcell : min (m : Int).toNat (bins.GetSize - 1 + 1) = m := by
        simp only [Int.toNat_ofNat]
        omega
      simp only [TH1.GetBinContent, TH1.cell, hcell, zero_add, TH1.GetNbinsX]
      rw [Finset.sum_filter]
      apply Finset.sum_congr rfl
      intro i _
      have hiff : ({ nbins := bins.GetSize - 1, edges := bins.fArray } : TAxis α).FindBin
            (histo.xaxis.GetBinCenter (i + 1)) = m ↔
          bins.At (m - 1) ≤ histo.xaxis.GetBinCenter (i + 1) ∧
            histo.xaxis.GetBinCenter (i + 1) < bins.At m :=
        FindBin_eq_iff
          ({ nbins := bins.GetSize - 1, edges := bins.fArray } : TAxis α) hmono
          (histo.xaxis.GetBinCenter (i + 1)) m hm1 hm
      by_cases hf : ({ nbins := bins.GetSize - 1, edges := bins.fArray } : TAxis α).FindBin
          (histo.xaxis.GetBinCenter (i + 1)) = m
      · rw [if_pos hf, if_pos (hiff.mp hf)]
      · rw [if_neg hf, if_neg (fun h => hf (hiff.mpr h))]

/-- The C14 statement applied to a four-bin spectrum and the borders
`0 < 2 < 4`. -/
theorem GetUnfoldingTemplate_bins_witness :
    (∀ a b, a < b → b ≤ twoBinBorders.GetSize - 1 → twoBinBorders.At a < twoBinBorders.At b) ∧
    ∃ r : TH1 ℚ, GetUnfoldingTemplate (some fourBinSpectrum) (some twoBinBorders) = some r ∧
      r.GetNbinsX = twoBinBorders.GetSize - 1 ∧
      ∀ m : Nat, 1 ≤ m → m ≤ twoBinBorders.GetSize - 1 →
        r.GetBinContent (m : Int)
          = ∑ i ∈ (Finset.range fourBinSpectrum.GetNbinsX).filter (fun i =>
              twoBinBorders.At (m - 1) ≤ fourBinSpectrum.xaxis.GetBinCenter (i + 1) ∧
              fourBinSpectrum.xaxis.GetBinCenter (i + 1) < twoBinBorders.At m),
              fourBinSpectrum.GetBinContent ((i + 1 : Nat) : Int) :=
  have hmono : ∀ a b, a < b → b ≤ twoBinBorders.GetSize - 1 →
      twoBinBorders.At a < twoBinBorders.At b := by
    intro a b hab _
    simp only [twoBinBorders, TArrayD.At]
    have : (a : ℚ) < (b : ℚ) := by exact_mod_cast hab
    linarith
  ⟨hmono, (GetUnfoldingTemplate_bins fourBinSpectrum twoBinBorders hmono).2⟩

/-! ### PrepareForUnfolding and SetRawInput -/

/-- Without raw input, `PrepareForUnfolding` returns false whenever the input
list, the detector response or a binning array is missing. -/
theorem PrepareForUnfolding_missing_configuration {α : Type} [LinearOrderedField α]
    (sqrt : α → α) (s : State α) (hraw : s.fRawInputProvided = false)
    (hmiss : s.fInputList = none ∨ s.fDetectorResponse = none ∨ s.fBinsTrue = none ∨
      s.fBinsRec = none) :
    PrepareForUnfolding sqrt s = some (false, s) := by
  unfold PrepareForUnfolding
  rw [hraw]
  simp only [Bool.false_eq_true, if_false]
  cases hl : s.fInputList with
  | none => rfl
  | some list =>
    simp only
    rcases hmiss with h | h | h | h
    · rw [hl] at h
      exact Option.noConfusion h
    · rw [h]
      simp
    · rw [h]
      by_cases hd : s.fDetectorResponse.isNone = true
      · simp [hd]
      · simp [hd]
    · rw [h]
      by_cases hd : s.fDetectorResponse.isNone = true
      · simp [hd]
      · simp [hd]

/-- C12 (code evaluated at the failing input): on a freshly constructed
object, `SetRawInput` called without a detector response returns false but
leaves `fRawInputProvided` set; in that state the detector response, both
binning arrays and the input list are missing, and `PrepareForUnfolding`
returns true. -/
theorem PrepareForUnfolding_after_failed_SetRawInput (sqrt : ℚ → ℚ) :
    ∃ s : State ℚ, SetRawInput (State.init ℚ) none none none none none 0 = some (false, s) ∧
      s.fDetectorResponse = none ∧ s.fBinsTrue = none ∧ s.fBinsRec = none ∧
      s.fInputList = none ∧
      PrepareForUnfolding sqrt s = some (true, s) := by
  refine ⟨_, rfl, rfl, rfl, rfl, rfl, rfl⟩

/-- Without raw input and with a complete configuration, `PrepareForUnfolding`
returns false when the jet spectrum is not found, and when normalization is
requested and the event-count histogram is not found. -/
theorem PrepareForUnfolding_missing_spectrum_or_rho {α : Type} [LinearOrderedField α]
    (sqrt : α → α) (s : State α) (list : TList α) (hraw : s.fRawInputProvided = false)
    (hlist : s.fInputList = some list) (hdet : s.fDetectorResponse.isNone = false)
    (htrue : s.fBinsTrue.isNone = false) (hrec : s.fBinsRec.isNone = false)
    (hmiss : list.fHistJetPsi2Pt s.fCentralityBin = none ∨
      (s.fNormalizeSpectra = true ∧ list.fHistRho s.fCentralityBin = none)) :
    ∃ s' : State α, PrepareForUnfolding sqrt s = some (false, s') := by
  unfold PrepareForUnfolding
  rw [hraw, hlist]
  simp only [Bool.false_eq_true, if_false, hdet, htrue, hrec, or_self]
  cases hj : list.fHistJetPsi2Pt s.fCentralityBin with
  | none => exact ⟨_, rfl⟩
  | some jet =>
    rcases hmiss with h | ⟨hn, hr⟩
    · rw [hj] at h
      exact Option.noConfusion h
    · simp only [hn, if_true, hr]
      exact ⟨_, rfl⟩

/-- C13 (code evaluated at the failing input): raw input was not supplied, the
configuration is complete, the jet spectrum and the event-count histogram are
found, but the delta-pt histogram is not: `PrepareForUnfolding` does not
return false, it goes on to use the null pointer. -/
theorem PrepareForUnfolding_missing_deltaPt (sqrt : ℚ → ℚ) :
    stateWithoutDeltaPt.fRawInputProvided = false ∧
    (∃ list, stateWithoutDeltaPt.fInputList = some list ∧
      list.fHistDeltaPtDeltaPhi2 stateWithoutDeltaPt.fCentralityBin = none) ∧
    PrepareForUnfolding sqrt stateWithoutDeltaPt = none := by
  refine ⟨rfl, ⟨_, rfl, rfl⟩, rfl⟩

theorem ProjectionY_GetBinContent {α : Type} [Field α] (sqrt : α → α) (h : TH2D α)
    (first last : Nat) (hlast : last ≤ h.xaxis.nbins + 1) (y : Nat) :
    (h.ProjectionY sqrt first last).GetBinContent (y : Int)
      = ∑ x ∈ Finset.Icc first last, h.GetBinContent x y := by
  have hmin : min last (h.xaxis.nbins + 1) = last := by omega
  simp only [TH2D.ProjectionY, TH1.GetBinContent, TH1.cell, Int.toNat_ofNat, hmin,
    TH2D.GetBinContent, TH2D.GetBin]
  apply Finset.sum_congr rfl
  intro x hx
  have hx2 := (Finset.mem_Icc.mp hx).2
  have : min x (h.xaxis.nbins + 1) = x := by omega
  rw [this]

/-- C20: for every input histogram with 40 angle bins and every momentum bin
`y`, the in-plane spectrum `PrepareForUnfolding` extracts (before any
normalization) is the sum over the angle bins `1..10` and `31..40`, the
out-of-plane spectrum is the sum over the angle bins `11..30`, so that
in-plane plus out-of-plane is the projection over all 40 angle bins; with
`fNoDphi` both spectra equal that full projection. -/
theorem PrepareForUnfolding_spectra_sums {α : Type} [Field α] (sqrt : α → α)
    (fJetPtDeltaPhi : TH2D α) (h40 : fJetPtDeltaPhi.GetNbinsX = 40) (y : Nat) :
    (PrepareForUnfolding_spectra sqrt fJetPtDeltaPhi false).1.GetBinContent (y : Int)
      = ∑ x ∈ Finset.Icc 1 10, fJetPtDeltaPhi.GetBinContent x y
        + ∑ x ∈ Finset.Icc 31 40, fJetPtDeltaPhi.GetBinContent x y ∧
    (PrepareForUnfolding_spectra sqrt fJetPtDeltaPhi false).2.GetBinContent (y : Int)
      = ∑ x ∈ Finset.Icc 11 30, fJetPtDeltaPhi.GetBinContent x y ∧
    (PrepareForUnfolding_spectra sqrt fJetPtDeltaPhi false).1.GetBinContent (y : Int)
        + (PrepareForUnfolding_spectra sqrt fJetPtDeltaPhi false).2.GetBinContent (y : Int)
      = ∑ x ∈ Finset.Icc 1 40, fJetPtDeltaPhi.GetBinContent x y ∧
    (PrepareForUnfolding_spectra sqrt fJetPtDeltaPhi true).1.GetBinContent (y : Int)
      = ∑ x ∈ Finset.Icc 1 40, fJetPtDeltaPhi.GetBinContent x y ∧
    (PrepareForUnfolding_spectra sqrt fJetPtDeltaPhi true).2.GetBinContent (y : Int)
      = ∑ x ∈ Finset.Icc 1 40, fJetPtDeltaPhi.GetBinContent x y := by
  have hn : fJetPtDeltaPhi.xaxis.nbins = 40 := h40
  have hin : (PrepareForUnfolding_spectra sqrt fJetPtDeltaPhi false).1.GetBinContent (y : Int)
      = ∑ x ∈ Finset.Icc 1 10, fJetPtDeltaPhi.GetBinContent x y
        + ∑ x ∈ Finset.Icc 31 40, fJetPtDeltaPhi.GetBinContent x y := by
    rw [← ProjectionY_GetBinContent sqrt fJetPtDeltaPhi 1 10 (by omega) y,
      ← ProjectionY_GetBinContent sqrt fJetPtDeltaPhi 31 40 (by omega) y]
    rfl
  have hout : (PrepareForUnfolding_spectra sqrt fJetPtDeltaPhi false).2.GetBinContent (y : Int)
      = ∑ x ∈ Finset.Icc 11 30, fJetPtDeltaPhi.GetBinContent x y := by
    rw [← ProjectionY_GetBinContent sqrt fJetPtDeltaPhi 11 30 (by omega) y]
    rfl
  have hall1 : (PrepareForUnfolding_spectra sqrt fJetPtDeltaPhi true).1.GetBinContent (y : Int)
      = ∑ x ∈ Finset.Icc 1 40, fJetPtDeltaPhi.GetBinContent x y := by
    rw [← ProjectionY_GetBinContent sqrt fJetPtDeltaPhi 1 40 (by omega) y]
    rfl
  have hall2 : (PrepareForUnfolding_spectra sqrt fJetPtDeltaPhi true).2.GetBinContent (y : Int)
      = ∑ x ∈ Finset.Icc 1 40, fJetPtDeltaPhi.GetBinContent x y := by
    rw [← ProjectionY_GetBinContent sqrt fJetPtDeltaPhi 1 40 (by omega) y]
    rfl
  refine ⟨hin, hout, ?_, hall1, hall2⟩
  rw [hin, hout]
  have e1 : Finset.Icc 1 10 = Finset.Ico 1 11 := rfl
  have e2 : Finset.Icc 31 40 = Finset.Ico 31 41 := rfl
  have e3 : Finset.Icc 11 30 = Finset.Ico 11 31 := rfl
  have e4 : Finset.Icc 1 40 = Finset.Ico 1 41 := rfl
  rw [e1, e2, e3, e4,
    ← Finset.sum_Ico_consecutive (fun x => fJetPtDeltaPhi.GetBinContent x y)
      (show 1 ≤ 31 by decide) (show 31 ≤ 41 by decide),
    ← Finset.sum_Ico_consecutive (fun x => fJetPtDeltaPhi.GetBinContent x y)
      (show 1 ≤ 11 by decide) (show 11 ≤ 31 by decide)]
  ring

/-- The C20 statement applied to a concrete histogram with 40 angle bins, at
momentum bin `1`. -/
theorem PrepareForUnfolding_spectra_sums_witness :
    jetFortyAngleBins.GetNbinsX = 40 ∧
    (PrepareForUnfolding_spectra Rat.sqrt jetFortyAngleBins false).1.GetBinContent
          ((1 : Nat) : Int)
        + (PrepareForUnfolding_spectra Rat.sqrt jetFortyAngleBins false).2.GetBinContent
            ((1 : Nat) : Int)
      = ∑ x ∈ Finset.Icc 1 40, jetFortyAngleBins.GetBinContent x 1 :=
  ⟨rfl, (PrepareForUnfolding_spectra_sums Rat.sqrt jetFortyAngleBins rfl 1).2.2.1⟩

/-! ### SmoothenSpectrum -/

/-- The bin loop of `SmoothenSpectrum` after `m` iterations (bins `0..m-1`). -/
theorem smooth_loop {α : Type} [LinearOrderedField α] [FloorRing α] (sqrt : α → α)
    (spectrum : TH1 α) (Integral : α → α → α) (start : α) (counts : Bool) (m : Nat)
    (hm : m ≤ spectrum.xaxis.nbins + 1) :
    forLoop m (fun i temp =>
      if temp.xaxis.GetBinCenter i > start then
        let temp := temp.SetBinContent (i : Int) (smoothContent temp.xaxis Integral counts i)
        if temp.GetBinContent (i : Int) > 0 then
          temp.SetBinError (i : Int) (sqrt (temp.GetBinContent (i : Int)))
        else temp
      else temp) spectrum
      = { spectrum with
          content := fun c =>
            if c < m ∧ spectrum.xaxis.GetBinCenter c > start then
              smoothContent spectrum.xaxis Integral counts c
            else spectrum.content c
          error := fun c =>
            if c < m ∧ spectrum.xaxis.GetBinCenter c > start
                ∧ smoothContent spectrum.xaxis Integral counts c > 0 then
              sqrt (smoothContent spectrum.xaxis Integral counts c)
            else spectrum.error c } := by
  induction m with
  | zero =>
    obtain ⟨xa, co, e⟩ := spectrum
    simp [forLoop]
  | succ m ih =>
    rw [forLoop_succ, ih (by omega)]
    obtain ⟨xa, co, e⟩ := spectrum
    have hcell : min (m : Int).toNat (xa.nbins + 1) = m := by
      simp only [Int.toNat_ofNat]
      simp only at hm
      omega
    simp only [TH1.SetBinContent, TH1.SetBinError, TH1.GetBinContent, TH1.cell, hcell, if_true]
    by_cases hc : xa.GetBinCenter m > start
    · rw [if_pos hc]
      by_cases hp : smoothContent xa Integral counts m > 0
      · rw [if_pos hp]
        simp only [TH1.mk.injEq, true_and]
        constructor
        · funext c
          by_cases hcm : c = m
          · subst hcm
            simp [hc]
          · have : c < m + 1 ↔ c < m := by omega
            simp [hcm, this]
        · funext c
          by_cases hcm : c = m
          · subst hcm
            simp [hc, hp]
          · have : c < m + 1 ↔ c < m := by omega
            simp [hcm, this]
      · rw [if_neg hp]
        simp only [TH1.mk.injEq, true_and]
        constructor
        · funext c
          by_cases hcm : c = m
          · subst hcm
            simp [hc]
          · have : c < m + 1 ↔ c < m := by omega
            simp [hcm, this]
        · funext c
          by_cases hcm : c = m
          · subst hcm
            simp [hc, hp]
          · have : c < m + 1 ↔ c < m := by omega
            simp [hcm, this]
    · rw [if_neg hc]
      simp only [TH1.mk.injEq, true_and]
      constructor
      · funext c
        by_cases hcm : c = m
        · subst hcm
          simp [hc]
        · have : c < m + 1 ↔ c < m := by omega
          simp [hcm, this]
      · funext c
        by_cases hcm : c = m
        · subst hcm
          simp [hc]
        · have : c < m + 1 ↔ c < m := by omega
          simp [hcm, this]

/-- C19 (the claim fails as stated): the fit converges (`r = 0`) and the fitted
function integrates to `0`; bin `1` of `spectrumFiveTwo` has its center `1/2`
beyond `start = 0` and gets the content `0`, but its error stays `2` and is not
the square root of that content. -/
theorem SmoothenSpectrum_error_counterexample :
    spectrumFiveTwo.xaxis.GetBinCenter 1 > 0 ∧
    (SmoothenSpectrum Real.sqrt spectrumFiveTwo 0 (fun _ _ => 0) 0 false).GetBinContent 1 = 0 ∧
    (SmoothenSpectrum Real.sqrt spectrumFiveTwo 0 (fun _ _ => 0) 0 false).GetBinError 1 = 2 ∧
    (SmoothenSpectrum Real.sqrt spectrumFiveTwo 0 (fun _ _ => 0) 0 false).GetBinError 1
      ≠ Real.sqrt
        ((SmoothenSpectrum Real.sqrt spectrumFiveTwo 0 (fun _ _ => 0) 0 false).GetBinContent 1) := by
  have hres : SmoothenSpectrum Real.sqrt spectrumFiveTwo 0 (fun _ _ => 0) 0 false
      = { spectrumFiveTwo with
          content := fun c =>
            if c < 2 ∧ spectrumFiveTwo.xaxis.GetBinCenter c > 0 then
              smoothContent spectrumFiveTwo.xaxis (fun _ _ => 0) false c
            else spectrumFiveTwo.content c
          error := fun c =>
            if c < 2 ∧ spectrumFiveTwo.xaxis.GetBinCenter c > 0
                ∧ smoothContent spectrumFiveTwo.xaxis (fun _ _ => 0) false c > 0 then
              Real.sqrt (smoothContent spectrumFiveTwo.xaxis (fun _ _ => 0) false c)
            else spectrumFiveTwo.error c } := by
    simp only [SmoothenSpectrum, if_true]
    exact smooth_loop Real.sqrt spectrumFiveTwo (fun _ _ => 0) 0 false 2 le_rfl
  have hcenter : spectrumFiveTwo.xaxis.GetBinCenter 1 > 0 := by
    simp [TAxis.GetBinCenter, spectrumFiveTwo]
  have hcont : (SmoothenSpectrum Real.sqrt spectrumFiveTwo 0 (fun _ _ => 0) 0 false).GetBinContent 1
      = 0 := by
    rw [hres]
    simp [TH1.GetBinContent, TH1.cell, smoothContent, spectrumFiveTwo, TAxis.GetBinCenter]
  have herr : (SmoothenSpectrum Real.sqrt spectrumFiveTwo 0 (fun _ _ => 0) 0 false).GetBinError 1
      = 2 := by
    rw [hres]
    simp [TH1.GetBinError, TH1.cell, smoothContent, spectrumFiveTwo, TAxis.GetBinCenter]
  refine ⟨hcenter, hcont, herr, ?_⟩
  rw [herr, hcont, Real.sqrt_zero]
  norm_num

/-- C19 (amended): `SmoothenSpectrum` (with `counts` not selected) returns a
copy of the input such that: if the fit fails, every bin content and error
equals the input's; if the fit converges, the overflow bin and every bin whose
center is `≤ start` are unchanged, and every other bin whose center is
`> start` has content equal to the function's integral over the bin divided
by the bin width, and error equal to the square root of that content when the
content is positive and equal to the input's error otherwise. -/
theorem SmoothenSpectrum_bins {α : Type} [LinearOrderedField α] [FloorRing α] (sqrt : α → α)
    (spectrum : TH1 α) (r : Int) (Integral : α → α → α) (start : α) :
    (r ≠ 0 → SmoothenSpectrum sqrt spectrum r Integral start false = spectrum) ∧
    (r = 0 →
      (SmoothenSpectrum sqrt spectrum r Integral start false).xaxis = spectrum.xaxis ∧
      ∀ i : Nat, i ≤ spectrum.GetNbinsX + 1 →
        ((i = spectrum.GetNbinsX + 1 ∨ ¬ spectrum.xaxis.GetBinCenter i > start) →
          (SmoothenSpectrum sqrt spectrum r Integral start false).GetBinContent (i : Int)
            = spectrum.GetBinContent (i : Int) ∧
          (SmoothenSpectrum sqrt spectrum r Integral start false).GetBinError (i : Int)
            = spectrum.GetBinError (i : Int)) ∧
        (i ≤ spectrum.GetNbinsX → spectrum.xaxis.GetBinCenter i > start →
          (SmoothenSpectrum sqrt spectrum r Integral start false).GetBinContent (i : Int)
            = Integral (spectrum.xaxis.GetBinLowEdge i) (spectrum.xaxis.GetBinUpEdge i)
                / spectrum.xaxis.GetBinWidth i ∧
          ((SmoothenSpectrum sqrt spectrum r Integral start false).GetBinContent (i : Int) > 0 →
            (SmoothenSpectrum sqrt spectrum r Integral start false).GetBinError (i : Int)
              = sqrt ((SmoothenSpectrum sqrt spectrum r Integral start false).GetBinContent
                  (i : Int))) ∧
          (¬ (SmoothenSpectrum sqrt spectrum r Integral start false).GetBinContent (i : Int) > 0 →
            (SmoothenSpectrum sqrt spectrum r Integral start false).GetBinError (i : Int)
              = spectrum.GetBinError (i : Int)))) := by
  constructor
  · intro hr
    simp only [SmoothenSpectrum, if_neg hr]
  · intro hr
    have hres := smooth_loop sqrt spectrum Integral start false (spectrum.xaxis.nbins + 1) le_rfl
    have heq : SmoothenSpectrum sqrt spectrum r Integral start false
        = { spectrum with
            content := fun c =>
              if c < spectrum.xaxis.nbins + 1 ∧ spectrum.xaxis.GetBinCenter c > start then
                smoothContent spectrum.xaxis Integral false c
              else spectrum.content c
            error := fun c =>
              if c < spectrum.xaxis.nbins + 1 ∧ spectrum.xaxis.GetBinCenter c > start
                  ∧ smoothContent spectrum.xaxis Integral false c > 0 then
                sqrt (smoothContent spectrum.xaxis Integral false c)
              else spectrum.error c } := by
      simp only [SmoothenSpectrum, if_pos hr, TH1.GetNbinsX]
      exact hres
    rw [heq]
    refine ⟨rfl, ?_⟩
    intro i hi
    simp only [TH1.GetNbinsX] at hi ⊢
    have hcell : min (i : Int).toNat (spectrum.xaxis.nbins + 1) = i := by
      simp only [Int.toNat_ofNat]
      omega
    simp only [TH1.GetBinContent, TH1.GetBinError, TH1.cell, hcell]
    constructor
    · intro h
      have hn : ¬ (i < spectrum.xaxis.nbins + 1 ∧ spectrum.xaxis.GetBinCenter i > start) := by
        rintro ⟨h1, h2⟩
        rcases h with h | h
        · omega
        · exact h h2
      rw [if_neg hn, if_neg (fun hc => hn ⟨hc.1, hc.2.1⟩)]
      exact ⟨rfl, rfl⟩
    · intro hin hc
      rw [if_pos ⟨by omega, hc⟩]
      refine ⟨by simp [smoothContent], ?_, ?_⟩
      · intro hp
        rw [if_pos ⟨by omega, hc, hp⟩]
      · intro hp
        rw [if_neg (fun h => hp h.2.2)]

/-! ### Normalizing a product -/

theorem productFilled_GetBinContent {α : Type} [Field α] (a b : TH2D α) (x y : Nat)
    (hx1 : 1 ≤ x) (hxa : x ≤ a.xaxis.nbins) (hxb : x ≤ b.xaxis.nbins)
    (hy1 : 1 ≤ y) (hy : y ≤ a.yaxis.nbins) :
    (a.productFilled b a.yaxis.nbins).GetBinContent x y = productCell a b x y := by
  have h1 : min x (a.xaxis.nbins + 1) = x := by omega
  have h2 : min y (a.yaxis.nbins + 1) = y := by omega
  simp only [TH2D.productFilled, TH2D.GetBinContent, TH2D.GetBin, h1, h2]
  rw [if_pos ⟨⟨hy1, hy⟩, hx1, Or.inl ⟨hxb, hxa⟩⟩, if_pos hxa]

/-- The slice sums of a product: the slice `x` of the product sums to the sum
over `k` of (slice sum `k` of `a`) times `b(x, k)`. -/
theorem productFilled_sliceSum {α : Type} [Field α] (a b : TH2D α) (x : Nat)
    (hx1 : 1 ≤ x) (hxa : x ≤ a.xaxis.nbins) (hxb : x ≤ b.xaxis.nbins) :
    (a.productFilled b a.yaxis.nbins).sliceSum x
      = ∑ k ∈ Finset.range a.xaxis.nbins, a.sliceSum (k + 1) * b.GetBinContent x (k + 1) := by
  have h : (a.productFilled b a.yaxis.nbins).sliceSum x
      = ∑ j ∈ Finset.range a.yaxis.nbins, productCell a b x (j + 1) := by
    unfold TH2D.sliceSum
    apply Finset.sum_congr rfl
    intro j hj
    have hj' : j < a.yaxis.nbins := Finset.mem_range.mp hj
    exact productFilled_GetBinContent a b x (j + 1) hx1 hxa hxb (by omega) (by omega)
  rw [h]
  simp only [productCell, TH2D.sliceSum]
  rw [Finset.sum_comm]
  apply Finset.sum_congr rfl
  intro k _
  rw [Finset.sum_mul]

/-- C18 (the claim fails as stated): `diagOneTwo` and `allOnesTwoByTwo` are
`2 × 2` with positive slice sums, but the cell `(1, 1)` of the normalized
product is `1/3` while the product of the normalized operands has `1/2`
there. -/
theorem Normalize_product_counterexample :
    (∀ x, 1 ≤ x → x ≤ 2 → 0 < diagOneTwo.sliceSum x ∧ 0 < allOnesTwoByTwo.sliceSum x) ∧
    ∃ l r : TH2D ℚ,
      NormalizeTH2D (MatrixMultiplication diagOneTwo allOnesTwoByTwo) = some l ∧
      (NormalizeTH2D (some diagOneTwo)).bind (fun a =>
        (NormalizeTH2D (some allOnesTwoByTwo)).bind (fun b => MatrixMultiplication a b))
          = some r ∧
      l.GetBinContent 1 1 = 1 / 3 ∧ r.GetBinContent 1 1 = 1 / 2 := by
  constructor
  · intro x hx1 hx2
    have hx : x = 1 ∨ x = 2 := by omega
    rcases hx with h | h <;> subst h <;>
      simp only [TH2D.sliceSum, TH2D.GetBinContent, TH2D.GetBin, diagOneTwo, allOnesTwoByTwo,
        unitAxis, Finset.sum_range_succ, Finset.sum_range_zero] <;>
      norm_num
  · refine ⟨(diagOneTwo.productFilled allOnesTwoByTwo 2).slicesNormalized 2,
      (diagOneTwo.slicesNormalized 2).productFilled (allOnesTwoByTwo.slicesNormalized 2) 2,
      ?_, ?_, ?_, ?_⟩
    · rw [MatrixMultiplication_eq diagOneTwo allOnesTwoByTwo rfl, NormalizeTH2D_eq]
      rfl
    · rw [NormalizeTH2D_eq, NormalizeTH2D_eq]
      simp only [Option.some_bind]
      rw [MatrixMultiplication_eq (diagOneTwo.slicesNormalized diagOneTwo.xaxis.nbins)
        (allOnesTwoByTwo.slicesNormalized allOnesTwoByTwo.xaxis.nbins) rfl]
      rfl
    · simp only [TH2D.slicesNormalized, TH2D.productFilled, productCell, TH2D.sliceSum,
        TH2D.GetBinContent, TH2D.GetBin, diagOneTwo, allOnesTwoByTwo, unitAxis,
        Finset.sum_range_succ, Finset.sum_range_zero]
      norm_num
    · simp only [TH2D.slicesNormalized, TH2D.productFilled, productCell, TH2D.sliceSum,
        TH2D.GetBinContent, TH2D.GetBin, diagOneTwo, allOnesTwoByTwo, unitAxis,
        Finset.sum_range_succ, Finset.sum_range_zero]
      norm_num

/-- C18 (amended): for all square histograms `a` and `b` of the same dimension
`n` in which every true slice of `b` has a positive content sum and all true
slices of `a` have the same positive content sum, normalizing the product,
`NormalizeTH2D(MatrixMultiplication(a, b))`, gives the same in-range bin
contents as multiplying the normalized operands,
`MatrixMultiplication(NormalizeTH2D(a), NormalizeTH2D(b))`. -/
theorem Normalize_product_equal_slices {α : Type} [LinearOrderedField α] (a b : TH2D α)
    (n : Nat) (s : α) (hax : a.GetNbinsX = n) (hay : a.GetNbinsY = n) (hbx : b.GetNbinsX = n)
    (hby : b.GetNbinsY = n) (hs : 0 < s)
    (ha : ∀ x, 1 ≤ x → x ≤ n → a.sliceSum x = s)
    (hb : ∀ x, 1 ≤ x → x ≤ n → 0 < b.sliceSum x) :
    ∃ l r : TH2D α,
      NormalizeTH2D (MatrixMultiplication a b) = some l ∧
      (NormalizeTH2D (some a)).bind (fun a' =>
        (NormalizeTH2D (some b)).bind (fun b' => MatrixMultiplication a' b')) = some r ∧
      ∀ x y, 1 ≤ x → x ≤ n → 1 ≤ y → y ≤ n → l.GetBinContent x y = r.GetBinContent x y := by
  simp only [TH2D.GetNbinsX, TH2D.GetNbinsY] at hax hay hbx hby
  refine ⟨(a.productFilled b a.yaxis.nbins).slicesNormalized
      (a.productFilled b a.yaxis.nbins).xaxis.nbins,
    (a.slicesNormalized a.xaxis.nbins).productFilled (b.slicesNormalized b.xaxis.nbins)
      (a.slicesNormalized a.xaxis.nbins).yaxis.nbins, ?_, ?_, ?_⟩
  · rw [MatrixMultiplication_eq a b (by simp only [TH2D.GetNbinsX, TH2D.GetNbinsY]; omega),
      NormalizeTH2D_eq]
  · rw [NormalizeTH2D_eq, NormalizeTH2D_eq]
    simp only [Option.some_bind]
    exact MatrixMultiplication_eq (a.slicesNormalized a.xaxis.nbins)
      (b.slicesNormalized b.xaxis.nbins)
      (by simp only [TH2D.GetNbinsX, TH2D.GetNbinsY, TH2D.slicesNormalized]; omega)
  · intro x y hx1 hx hy1 hy
    have hPx : (a.productFilled b a.yaxis.nbins).xaxis.nbins = a.xaxis.nbins := rfl
    have hPy : (a.productFilled b a.yaxis.nbins).yaxis.nbins = a.yaxis.nbins := rfl
    have hsum : (a.productFilled b a.yaxis.nbins).sliceSum x = s * b.sliceSum x := by
      rw [productFilled_sliceSum a b x hx1 (by omega) (by omega)]
      simp only [TH2D.sliceSum]
      rw [hby, hax, Finset.mul_sum]
      apply Finset.sum_congr rfl
      intro k hk
      have hk' : k < n := Finset.mem_range.mp hk
      have := ha (k + 1) (by omega) (by omega)
      simp only [TH2D.sliceSum] at this
      rw [this]
    have hbpos := hb x hx1 hx
    have hpos : 0 < (a.productFilled b a.yaxis.nbins).sliceSum x := by
      rw [hsum]
      exact mul_pos hs hbpos
    rw [slicesNormalized_GetBinContent (a.productFilled b a.yaxis.nbins) x y hx1
        (by rw [hPx]; omega) hy1 (by rw [hPy]; omega),
      if_pos hpos, hsum, productFilled_GetBinContent a b x y hx1 (by omega) (by omega) hy1
        (by omega)]
    have hr := productFilled_GetBinContent (a.slicesNormalized a.xaxis.nbins)
      (b.slicesNormalized b.xaxis.nbins) x y hx1
      (by simp only [TH2D.slicesNormalized]; omega)
      (by simp only [TH2D.slicesNormalized]; omega) hy1
      (by simp only [TH2D.slicesNormalized]; omega)
    rw [hr]
    simp only [productCell]
    have hnx : (a.slicesNormalized a.xaxis.nbins).xaxis.nbins = a.xaxis.nbins := rfl
    rw [hnx, Finset.sum_div]
    apply Finset.sum_congr rfl
    intro k hk
    have hk' : k < a.xaxis.nbins := Finset.mem_range.mp hk
    rw [slicesNormalized_GetBinContent a (k + 1) y (by omega) (by omega) hy1 (by omega),
      slicesNormalized_GetBinContent b x (k + 1) hx1 (by omega) (by omega) (by omega),
      ha (k + 1) (by omega) (by omega), if_pos hs, if_pos hbpos]
    field_simp

/-- The amended C18 statement applied to the `2 × 2` histogram with content `1`
in every cell (every slice sums to `2`), multiplied with itself. -/
theorem Normalize_product_equal_slices_witness :
    (∀ x, 1 ≤ x → x ≤ 2 → allOnesTwoByTwo.sliceSum x = 2) ∧
    ∃ l r : TH2D ℚ,
      NormalizeTH2D (MatrixMultiplication allOnesTwoByTwo allOnesTwoByTwo) = some l ∧
      (NormalizeTH2D (some allOnesTwoByTwo)).bind (fun a' =>
        (NormalizeTH2D (some allOnesTwoByTwo)).bind (fun b' => MatrixMultiplication a' b'))
          = some r ∧
      ∀ x y, 1 ≤ x → x ≤ 2 → 1 ≤ y → y ≤ 2 → l.GetBinContent x y = r.GetBinContent x y :=
  have hsum : ∀ x, 1 ≤ x → x ≤ 2 → allOnesTwoByTwo.sliceSum x = 2 := by
    intro x hx1 hx2
    have hx : x = 1 ∨ x = 2 := by omega
    rcases hx with h | h <;> subst h <;>
      simp only [TH2D.sliceSum, TH2D.GetBinContent, TH2D.GetBin, allOnesTwoByTwo,
        unitAxis, Finset.sum_range_succ, Finset.sum_range_zero] <;>
      norm_num
  ⟨hsum, Normalize_product_equal_slices allOnesTwoByTwo allOnesTwoByTwo 2 2 rfl rfl rfl rfl
    (by norm_num) hsum (fun x hx1 hx2 => by rw [hsum x hx1 hx2]; norm_num)⟩

theorem slicesNormalized_of_unit {α : Type} [LinearOrderedField α] (g : TH2D α) (n : Nat)
    (hs : ∀ x, 1 ≤ x → x ≤ n → 0 < g.sliceSum x → g.sliceSum x = 1) :
    g.slicesNormalized n = g := by
  obtain ⟨xa, ya, c, e⟩ := g
  simp only [TH2D.slicesNormalized]
  congr 1
  · funext x y
    split_ifs with hc
    · rw [hs x hc.1.1 hc.1.2 hc.2.2, div_one]
    · rfl
  · funext x y
    split_ifs with hc
    · rw [hs x hc.1.1 hc.1.2 hc.2.2, div_one]
    · rfl

theorem slicesNormalized_sliceSum_nonpos {α : Type} [LinearOrderedField α] (h : TH2D α)
    (x : Nat) (hx1 : 1 ≤ x) (hx : x ≤ h.xaxis.nbins) (hpos : ¬ 0 < h.sliceSum x) :
    (h.slicesNormalized h.xaxis.nbins).sliceSum x = h.sliceSum x := by
  unfold TH2D.sliceSum
  apply Finset.sum_congr rfl
  intro j hj
  have hj' : j < h.yaxis.nbins := Finset.mem_range.mp hj
  have := slicesNormalized_GetBinContent h x (j + 1) hx1 hx (by omega) (by omega)
  rw [if_neg hpos] at this
  exact this

/-- C30: `NormalizeTH2D` is idempotent: applying it to its own result gives
that result again, the same histogram with the same bin contents and bin
errors (and null for null). -/
theorem NormalizeTH2D_idempotent {α : Type} [LinearOrderedField α] (histo : Option (TH2D α)) :
    NormalizeTH2D (NormalizeTH2D histo) = NormalizeTH2D histo := by
  cases histo with
  | none => rfl
  | some h =>
    rw [NormalizeTH2D_eq h, NormalizeTH2D_eq (h.slicesNormalized h.xaxis.nbins)]
    congr 1
    apply slicesNormalized_of_unit
    intro x hx1 hx hpos
    have hx' : x ≤ h.xaxis.nbins := hx
    by_cases hp : 0 < h.sliceSum x
    · exact slicesNormalized_sliceSum_pos h x hx1 hx' hp
    · rw [slicesNormalized_sliceSum_nonpos h x hx1 hx' hp] at hpos
      exact absurd hpos hp
/-- C27: for square `n × n` histograms `a` and `b` in which every true slice
(column) sums to `1`, `MatrixMultiplication` returns a histogram in which
every true slice sums to `1`, and `NormalizeTH2D` returns that histogram
unchanged. -/
theorem MatrixMultiplication_stochastic {α : Type} [LinearOrderedField α] (a b : TH2D α)
    (n : Nat) (hax : a.GetNbinsX = n) (hay : a.GetNbinsY = n) (hbx : b.GetNbinsX = n)
    (hby : b.GetNbinsY = n)
    (ha : ∀ x, 1 ≤ x → x ≤ n → a.sliceSum x = 1)
    (hb : ∀ x, 1 ≤ x → x ≤ n → b.sliceSum x = 1) :
    ∃ c : TH2D α, MatrixMultiplication a b = some c ∧
      (∀ x, 1 ≤ x → x ≤ n → c.sliceSum x = 1) ∧
      NormalizeTH2D (some c) = some c := by
  simp only [TH2D.GetNbinsX, TH2D.GetNbinsY] at hax hay hbx hby
  have hsum : ∀ x, 1 ≤ x → x ≤ n → (a.productFilled b a.yaxis.nbins).sliceSum x = 1 := by
    intro x hx1 hx
    rw [productFilled_sliceSum a b x hx1 (by omega) (by omega)]
    rw [← hb x hx1 hx]
    unfold TH2D.sliceSum
    rw [hax, hby]
    apply Finset.sum_congr rfl
    intro k hk
    have hk' : k < n := Finset.mem_range.mp hk
    have := ha (k + 1) (by omega) (by omega)
    unfold TH2D.sliceSum at this
    rw [this, one_mul]
  refine ⟨_, MatrixMultiplication_eq a b (by simp only [TH2D.GetNbinsX, TH2D.GetNbinsY]; omega),
    hsum, ?_⟩
  rw [NormalizeTH2D_eq]
  congr 1
  apply slicesNormalized_of_unit
  intro x hx1 hx _
  have hx' : x ≤ a.xaxis.nbins := hx
  exact hsum x hx1 (by omega)

/-- The C27 statement applied to two `2 × 2` histograms whose true slices sum
to `1`. -/
theorem MatrixMultiplication_stochastic_witness :
    (∀ x, 1 ≤ x → x ≤ 2 → halvesTwoByTwo.sliceSum x = 1) ∧
    (∀ x, 1 ≤ x → x ≤ 2 → swapTwoByTwo.sliceSum x = 1) ∧
    ∃ c : TH2D ℚ, MatrixMultiplication halvesTwoByTwo swapTwoByTwo = some c ∧
      (∀ x, 1 ≤ x → x ≤ 2 → c.sliceSum x = 1) ∧
      NormalizeTH2D (some c) = some c :=
  have h1 : ∀ x, 1 ≤ x → x ≤ 2 → halvesTwoByTwo.sliceSum x = 1 := by
    intro x hx1 hx2
    have hx : x = 1 ∨ x = 2 := by omega
    rcases hx with h | h <;> subst h <;>
      simp only [TH2D.sliceSum, TH2D.GetBinContent, TH2D.GetBin, halvesTwoByTwo,
        unitAxis, Finset.sum_range_succ, Finset.sum_range_zero] <;>
      norm_num
  have h2 : ∀ x, 1 ≤ x → x ≤ 2 → swapTwoByTwo.sliceSum x = 1 := by
    intro x hx1 hx2
    have hx : x = 1 ∨ x = 2 := by omega
    rcases hx with h | h <;> subst h <;>
      simp only [TH2D.sliceSum, TH2D.GetBinContent, TH2D.GetBin, swapTwoByTwo,
        unitAxis, Finset.sum_range_succ, Finset.sum_range_zero] <;>
      norm_num
  ⟨h1, h2, MatrixMultiplication_stochastic halvesTwoByTwo swapTwoByTwo 2 rfl rfl rfl rfl h1 h2⟩

/-- C28: a histogram returned by `MatrixMultiplication` has the axes of `a`;
and when the dimension check passes and `b` has fewer x bins than `a`, every
cell of the result in a column `x > b.NbinsX` holds the content `a` has in
that cell. -/
theorem MatrixMultiplication_keeps_binning {α : Type} [Field α] (a b : TH2D α) :
    (∀ c : TH2D α, MatrixMultiplication a b = some c →
      c.xaxis = a.xaxis ∧ c.yaxis = a.yaxis ∧
      c.GetNbinsX = a.GetNbinsX ∧ c.GetNbinsY = a.GetNbinsY) ∧
    (a.GetNbinsX = b.GetNbinsY → b.GetNbinsX < a.GetNbinsX →
      ∃ c : TH2D α, MatrixMultiplication a b = some c ∧
        ∀ x y, b.GetNbinsX < x → c.GetBinContent x y = a.GetBinContent x y) := by
  constructor
  · intro c hc
    by_cases hdim : a.GetNbinsX = b.GetNbinsY
    · rw [MatrixMultiplication_eq a b hdim] at hc
      cases hc
      exact ⟨rfl, rfl, rfl, rfl⟩
    · simp [MatrixMultiplication, hdim] at hc
  · intro hdim hlt
    refine ⟨_, MatrixMultiplication_eq a b hdim, ?_⟩
    intro x y hx
    simp only [TH2D.GetNbinsX] at hlt hx
    simp only [TH2D.productFilled, TH2D.GetBinContent, TH2D.GetBin]
    rw [if_neg]
    rintro ⟨_, _, h | h⟩ <;> omega

/-- The C28 statement applied to a `3 × 1` histogram `a` and a `1 × 3`
histogram `b`. -/
theorem MatrixMultiplication_keeps_binning_witness :
    threeByOne.GetNbinsX = oneByThree.GetNbinsY ∧ oneByThree.GetNbinsX < threeByOne.GetNbinsX ∧
    ∃ c : TH2D ℚ, MatrixMultiplication threeByOne oneByThree = some c ∧
      ∀ x y, oneByThree.GetNbinsX < x → c.GetBinContent x y = threeByOne.GetBinContent x y :=
  ⟨rfl, by decide,
    (MatrixMultiplication_keeps_binning threeByOne oneByThree).2 rfl (by decide)⟩

/-! ### Totals of GetUnfoldingTemplate -/

theorem countLE_le {α : Type} [LinearOrder α] (edges : Nat → α) (x : α) (n : Nat) :
    countLE edges x n ≤ n := by
  induction n with
  | zero => simp [countLE]
  | succ n ih =>
    rw [countLE]
    split_ifs <;> omega

theorem countLE_pos {α : Type} [LinearOrder α] (edges : Nat → α) (x : α)
    (h0 : edges 0 ≤ x) (n : Nat) : 1 ≤ countLE edges x (n + 1) := by
  induction n with
  | zero => simp [countLE, h0]
  | succ n ih =>
    rw [countLE]
    omega

/-- `FindBin` returns a bin number between `0` and `nbins + 1`. -/
theorem FindBin_le {α : Type} [LinearOrder α] (ax : TAxis α) (x : α) :
    ax.FindBin x ≤ ax.nbins + 1 := by
  unfold TAxis.FindBin
  split_ifs
  · omega
  · exact countLE_le ax.edges x (ax.nbins + 1)
  · omega

/-- `FindBin` returns an in-range bin for a value inside the axis range. -/
theorem FindBin_in_range {α : Type} [LinearOrder α] (ax : TAxis α) (x : α)
    (h0 : ax.edges 0 ≤ x) (h1 : x < ax.edges ax.nbins) :
    1 ≤ ax.FindBin x ∧ ax.FindBin x ≤ ax.nbins := by
  rw [TAxis.FindBin, if_neg (not_lt.mpr h0), if_neg (not_not.mpr h1)]
  refine ⟨countLE_pos ax.edges x h0 ax.nbins, ?_⟩
  rw [countLE, if_neg (not_le.mpr h1)]
  exact countLE_le ax.edges x ax.nbins

/-- The histogram `GetUnfoldingTemplate` returns: bin `b` holds the sum of the
contents of the source bins whose center is found in `b`. -/
theorem GetUnfoldingTemplate_eq {α : Type} [LinearOrderedField α] (histo : TH1 α)
    (bins : TArrayD α) :
    GetUnfoldingTemplate (some histo) (some bins)
      = some
        { xaxis := { nbins := bins.GetSize - 1, edges := bins.fArray }
          content := fun b => ∑ i ∈ Finset.range histo.xaxis.nbins,
            if ({ nbins := bins.GetSize - 1, edges := bins.fArray } : TAxis α).FindBin
                (histo.xaxis.GetBinCenter (i + 1)) = b
              then histo.GetBinContent ((i + 1 : Nat) : Int) else 0
          error := fun _ => 0 } := by
  simp only [GetUnfoldingTemplate]
  rw [fill_loop]
  simp

/-- Weights sorted into the bins `0..M+1` of a histogram: underflow, in-range
bins and overflow together hold the sum of all weights. -/
theorem sorted_total {α : Type} [LinearOrderedField α] (r : TH1 α) (F : Nat → Nat)
    (w : Nat → α) (n : Nat)
    (hc : ∀ b, r.content b = ∑ i ∈ Finset.range n, if F i = b then w i else 0)
    (hF : ∀ i, F i ≤ r.xaxis.nbins + 1) :
    r.GetBinContent 0
      + (∑ b ∈ Finset.range r.xaxis.nbins, r.GetBinContent ((b + 1 : Nat) : Int))
      + r.GetBinContent ((r.xaxis.nbins + 1 : Nat) : Int)
      = ∑ i ∈ Finset.range n, w i := by
  have h : ∑ b ∈ Finset.range (r.xaxis.nbins + 2),
        ∑ i ∈ Finset.range n, (if F i = b then w i else 0)
      = ∑ i ∈ Finset.range n, w i := by
    rw [Finset.sum_comm]
    apply Finset.sum_congr rfl
    intro i _
    rw [Finset.sum_ite_eq]
    rw [if_pos (Finset.mem_range.mpr (by have := hF i; omega))]
  have hcell : ∀ b : Nat, b ≤ r.xaxis.nbins + 1 →
      min ((b : Int)).toNat (r.xaxis.nbins + 1) = b := by
    intro b hb
    simp only [Int.toNat_ofNat]
    omega
  have h0 : min (0 : Int).toNat (r.xaxis.nbins + 1) = 0 := by simp
  have hin : ∑ b ∈ Finset.range r.xaxis.nbins, r.GetBinContent ((b + 1 : Nat) : Int)
      = ∑ b ∈ Finset.range r.xaxis.nbins,
          ∑ i ∈ Finset.range n, (if F i = b + 1 then w i else 0) := by
    apply Finset.sum_congr rfl
    intro b hb
    have hb' : b < r.xaxis.nbins := Finset.mem_range.mp hb
    simp only [TH1.GetBinContent, TH1.cell]
    rw [hcell (b + 1) (by omega), hc]
  rw [hin]
  simp only [TH1.GetBinContent, TH1.cell]
  rw [hcell (r.xaxis.nbins + 1) le_rfl, h0, hc, hc, ← h, Finset.sum_range_succ,
    Finset.sum_range_succ']
  ring

/-- Weights sorted into in-range bins only: the in-range bins hold the sum of
all weights. -/
theorem sorted_in_range {α : Type} [LinearOrderedField α] (r : TH1 α) (F : Nat → Nat)
    (w : Nat → α) (n : Nat)
    (hc : ∀ b, r.content b = ∑ i ∈ Finset.range n, if F i = b then w i else 0)
    (hF : ∀ i, i < n → 1 ≤ F i ∧ F i ≤ r.xaxis.nbins) :
    (∑ b ∈ Finset.range r.xaxis.nbins, r.GetBinContent ((b + 1 : Nat) : Int))
      = ∑ i ∈ Finset.range n, w i := by
  have hcell : ∀ b : Nat, b ≤ r.xaxis.nbins + 1 →
      min ((b : Int)).toNat (r.xaxis.nbins + 1) = b := by
    intro b hb
    simp only [Int.toNat_ofNat]
    omega
  have hin : ∑ b ∈ Finset.range r.xaxis.nbins, r.GetBinContent ((b + 1 : Nat) : Int)
      = ∑ b ∈ Finset.range r.xaxis.nbins,
          ∑ i ∈ Finset.range n, (if F i = b + 1 then w i else 0) := by
    apply Finset.sum_congr rfl
    intro b hb
    have hb' : b < r.xaxis.nbins := Finset.mem_range.mp hb
    simp only [TH1.GetBinContent, TH1.cell]
    rw [hcell (b + 1) (by omega), hc]
  rw [hin, Finset.sum_comm]
  apply Finset.sum_congr rfl
  intro i hi
  have hr := hF i (Finset.mem_range.mp hi)
  rw [Finset.sum_eq_single (F i - 1)]
  · rw [if_pos (by omega)]
  · intro b _ hb
    rw [if_neg (by omega)]
  · intro hb
    exfalso
    apply hb
    rw [Finset.mem_range]
    omega

/-- C29: for every source histogram and border array, the contents
`GetUnfoldingTemplate` puts in the underflow bin, the in-range bins and the
overflow bin of the result add up to the sum of the in-range contents of the
source; when every source bin center lies inside the target range
`[bins[0], bins[M])` the in-range contents of the result alone add up to that
sum; and on the source's own (increasing) borders the result has the source's
content in every in-range bin. -/
theorem GetUnfoldingTemplate_totals {α : Type} [LinearOrderedField α] (histo : TH1 α)
    (bins : TArrayD α) :
    (∃ r : TH1 α, GetUnfoldingTemplate (some histo) (some bins) = some r ∧
      (r.GetBinContent 0 + (∑ b ∈ Finset.range r.GetNbinsX, r.GetBinContent ((b + 1 : Nat) : Int))
          + r.GetBinContent ((r.GetNbinsX + 1 : Nat) : Int)
        = ∑ i ∈ Finset.range histo.GetNbinsX, histo.GetBinContent ((i + 1 : Nat) : Int)) ∧
      ((∀ i, 1 ≤ i → i ≤ histo.GetNbinsX →
          bins.At 0 ≤ histo.xaxis.GetBinCenter i ∧
          histo.xaxis.GetBinCenter i < bins.At (bins.GetSize - 1)) →
        ∑ b ∈ Finset.range r.GetNbinsX, r.GetBinContent ((b + 1 : Nat) : Int)
          = ∑ i ∈ Finset.range histo.GetNbinsX, histo.GetBinContent ((i + 1 : Nat) : Int))) ∧
    ((∀ a b, a < b → b ≤ histo.GetNbinsX → histo.xaxis.edges a < histo.xaxis.edges b) →
      ∃ r : TH1 α,
        GetUnfoldingTemplate (some histo)
          (some { fN := histo.GetNbinsX + 1, fArray := histo.xaxis.edges }) = some r ∧
        r.GetNbinsX = histo.GetNbinsX ∧
        ∀ i : Nat, 1 ≤ i → i ≤ histo.GetNbinsX →
          r.GetBinContent (i : Int) = histo.GetBinContent (i : Int)) := by
  constructor
  · refine ⟨_, GetUnfoldingTemplate_eq histo bins, ?_, ?_⟩
    · exact sorted_total _
        (fun i => ({ nbins := bins.GetSize - 1, edges := bins.fArray } : TAxis α).FindBin
          (histo.xaxis.GetBinCenter (i + 1)))
        (fun i => histo.GetBinContent ((i + 1 : Nat) : Int)) histo.xaxis.nbins
        (fun b => rfl) (fun i => FindBin_le _ _)
    · intro hin
      refine sorted_in_range _
        (fun i => ({ nbins := bins.GetSize - 1, edges := bins.fArray } : TAxis α).FindBin
          (histo.xaxis.GetBinCenter (i + 1)))
        (fun i => histo.GetBinContent ((i + 1 : Nat) : Int)) histo.xaxis.nbins
        (fun b => rfl) ?_
      intro i hi
      exact FindBin_in_range
        ({ nbins := bins.GetSize - 1, edges := bins.fArray } : TAxis α)
        (histo.xaxis.GetBinCenter (i + 1))
        (hin (i + 1) (by omega) (by simp only [TH1.GetNbinsX]; omega)).1
        (hin (i + 1) (by omega) (by simp only [TH1.GetNbinsX]; omega)).2
  · intro hmono
    refine ⟨_, GetUnfoldingTemplate_eq histo _, rfl, ?_⟩
    intro i hi1 hi
    simp only [TH1.GetNbinsX] at hi hmono
    have hax : ({ nbins := histo.xaxis.nbins + 1 - 1, edges := histo.xaxis.edges } : TAxis α)
        = histo.xaxis := by
      cases histo.xaxis
      simp
    have hcell : min ((i : Int)).toNat (histo.xaxis.nbins + 1 - 1 + 1) = i := by
      simp only [Int.toNat_ofNat]
      omega
    simp only [TH1.GetNbinsX, TArrayD.GetSize, hax]
    rw [TH1.GetBinContent]
    simp only [TH1.cell, hcell]
    rw [Finset.sum_eq_single (i - 1)]
    · rw [FindBin_GetBinCenter histo.xaxis hmono (i - 1 + 1) (by omega) (by omega)]
      rw [if_pos (by omega)]
      have h2 : i - 1 + 1 = i := by omega
      rw [h2]
    · intro k hk hne
      have hk' : k < histo.xaxis.nbins := Finset.mem_range.mp hk
      rw [FindBin_GetBinCenter histo.xaxis hmono (k + 1) (by omega) (by omega)]
      rw [if_neg (by omega)]
    · intro hni
      exfalso
      apply hni
      rw [Finset.mem_range]
      omega

/-- The C29 statement applied to a four-bin spectrum, the borders `0 < 2 < 4`
and the spectrum's own borders. -/
theorem GetUnfoldingTemplate_totals_witness :
    (∀ i, 1 ≤ i → i ≤ fourBinSpectrum.GetNbinsX →
      twoBinBorders.At 0 ≤ fourBinSpectrum.xaxis.GetBinCenter i ∧
      fourBinSpectrum.xaxis.GetBinCenter i < twoBinBorders.At (twoBinBorders.GetSize - 1)) ∧
    (∀ a b, a < b → b ≤ fourBinSpectrum.GetNbinsX →
      fourBinSpectrum.xaxis.edges a < fourBinSpectrum.xaxis.edges b) ∧
    (∃ r : TH1 ℚ, GetUnfoldingTemplate (some fourBinSpectrum) (some twoBinBorders) = some r ∧
      ∑ b ∈ Finset.range r.GetNbinsX, r.GetBinContent ((b + 1 : Nat) : Int)
        = ∑ i ∈ Finset.range fourBinSpectrum.GetNbinsX,
            fourBinSpectrum.GetBinContent ((i + 1 : Nat) : Int)) ∧
    (∃ r : TH1 ℚ,
      GetUnfoldingTemplate (some fourBinSpectrum)
        (some { fN := fourBinSpectrum.GetNbinsX + 1, fArray := fourBinSpectrum.xaxis.edges })
          = some r ∧
      r.GetNbinsX = fourBinSpectrum.GetNbinsX ∧
      ∀ i : Nat, 1 ≤ i → i ≤ fourBinSpectrum.GetNbinsX →
        r.GetBinContent (i : Int) = fourBinSpectrum.GetBinContent (i : Int)) :=
  have hin : ∀ i, 1 ≤ i → i ≤ fourBinSpectrum.GetNbinsX →
      twoBinBorders.At 0 ≤ fourBinSpectrum.xaxis.GetBinCenter i ∧
      fourBinSpectrum.xaxis.GetBinCenter i < twoBinBorders.At (twoBinBorders.GetSize - 1) := by
    intro i hi1 hi
    have hi4 : i ≤ 4 := hi
    interval_cases i <;>
      simp only [TAxis.GetBinCenter, fourBinSpectrum, unitAxis, twoBinBorders, TArrayD.At,
        TArrayD.GetSize] <;>
      norm_num
  have hmono : ∀ a b, a < b → b ≤ fourBinSpectrum.GetNbinsX →
      fourBinSpectrum.xaxis.edges a < fourBinSpectrum.xaxis.edges b := by
    intro a b hab _
    simp only [fourBinSpectrum, unitAxis]
    exact_mod_cast hab
  ⟨hin, hmono,
    (let ⟨r, hr, _, h2⟩ := (GetUnfoldingTemplate_totals fourBinSpectrum twoBinBorders).1
     ⟨r, hr, h2 hin⟩),
    (GetUnfoldingTemplate_totals fourBinSpectrum twoBinBorders).2 hmono⟩

/-! ### SetRawInput without normalization -/

/-- C24 (the claim fails as stated): with `fNormalizeSpectra` off and the
stored event count `2`, `SetRawInput` called with four different histograms
and `eventCount = 7` returns true and leaves the in-plane spectrum with content
`2` in bin `4`, where the supplied spectrum has `4`, and the out-of-plane
spectrum with content `4` in bin `1`, where the supplied spectrum has `8`: the
spectra are scaled by the inverse of the stored count. -/
theorem SetRawInput_stored_count_counterexample :
    stateCountTwoNoNormalize.fNormalizeSpectra = false ∧
    fourBinSpectrum.GetBinContent 4 = 4 ∧
    spectrumEightFour.GetBinContent 1 = 8 ∧
    (SetRawInput stateCountTwoNoNormalize (some oneByOne) (some fourBinSpectrum)
        (some spectrumEightFour) (some spectrumFourZero) (some spectrumWideBin) 7).map
      (fun p => (p.1, p.2.fSpectrumIn.map (fun h => h.GetBinContent 4),
        p.2.fSpectrumOut.map (fun h => h.GetBinContent 1))) = some (true, some 2, some 4) := by
  refine ⟨rfl, ?_, ?_, ?_⟩
  · simp [TH1.GetBinContent, TH1.cell, fourBinSpectrum, unitAxis]
  · simp [TH1.GetBinContent, TH1.cell, spectrumEightFour]
  · simp [SetRawInput, stateCountTwoNoNormalize, State.init, TH1.Scale, TH1.GetBinContent,
      TH1.cell, fourBinSpectrum, spectrumEightFour, unitAxis]
    norm_num

/-- C24 (amended): with `fNormalizeSpectra` off and a stored event count that
is zero or negative, for every state of the object, every combination of
supplied and missing inputs and every `eventCount` argument: `SetRawInput`
fails on a null pointer exactly when the detector response and both binning
arrays are set and a delta-pt distribution is missing, and in every other case
it returns and the spectra it holds are the supplied in-plane and out-of-plane
spectra, unscaled. -/
theorem SetRawInput_without_normalization {α : Type} [LinearOrderedField α] [FloorRing α]
    (s : State α) (detectorResponse : Option (TH2D α))
    (jetPtIn jetPtOut dptIn dptOut : Option (TH1 α)) (eventCount : Int)
    (hn : s.fNormalizeSpectra = false) (hcount : s.fEventCount ≤ 0) :
    (SetRawInput s detectorResponse jetPtIn jetPtOut dptIn dptOut eventCount = none ↔
      detectorResponse.isSome = true ∧ s.fBinsTrue.isSome = true ∧ s.fBinsRec.isSome = true ∧
        (dptIn = none ∨ dptOut = none)) ∧
    ∀ (ret : Bool) (s' : State α),
      SetRawInput s detectorResponse jetPtIn jetPtOut dptIn dptOut eventCount = some (ret, s') →
        s'.fSpectrumIn = jetPtIn ∧ s'.fSpectrumOut = jetPtOut := by
  have hpos : ¬ s.fEventCount > 0 := not_lt.mpr hcount
  cases detectorResponse with
  | none =>
    constructor
    · simp [SetRawInput]
    · intro ret s' h
      simp only [SetRawInput, Option.isNone_none, if_true, Option.some.injEq, Prod.mk.injEq] at h
      rw [← h.2]
      exact ⟨rfl, rfl⟩
  | some d =>
    cases hbt : s.fBinsTrue with
    | none =>
      constructor
      · simp [SetRawInput, hbt]
      · intro ret s' h
        simp [SetRawInput, hbt] at h
        rw [← h.2]
        exact ⟨rfl, rfl⟩
    | some bt =>
      cases hbr : s.fBinsRec with
      | none =>
        constructor
        · simp [SetRawInput, hbt, hbr]
        · intro ret s' h
          simp [SetRawInput, hbt, hbr] at h
          rw [← h.2]
          exact ⟨rfl, rfl⟩
      | some br =>
        cases dptIn with
        | none =>
          constructor
          · simp [SetRawInput, hbt, hbr, hn, hpos]
          · intro ret s' h
            simp [SetRawInput, hbt, hbr, hn, hpos] at h
        | some di =>
          cases dptOut with
          | none =>
            constructor
            · simp [SetRawInput, hbt, hbr, hn, hpos]
            · intro ret s' h
              simp [SetRawInput, hbt, hbr, hn, hpos] at h
          | some dout =>
            constructor
            · simp [SetRawInput, hbt, hbr, hn, hpos]
            · intro ret s' h
              simp [SetRawInput, hbt, hbr, hn, hpos] at h
              rw [← h.2]
              exact ⟨rfl, rfl⟩

/-- The C24 statement (amended) applied to a configured object with
normalization off and the event count `-1` of the constructor, called with
four histograms. -/
theorem SetRawInput_without_normalization_witness :
    stateNoNormalize.fNormalizeSpectra = false ∧ stateNoNormalize.fEventCount ≤ 0 ∧
    (SetRawInput stateNoNormalize (some oneByOne) (some fourBinSpectrum)
        (some spectrumEightFour) (some spectrumFourZero) (some spectrumWideBin) 7 = none ↔
      (some oneByOne).isSome = true ∧ stateNoNormalize.fBinsTrue.isSome = true ∧
        stateNoNormalize.fBinsRec.isSome = true ∧
        (some spectrumFourZero = none ∨ some spectrumWideBin = none)) ∧
    ∀ (ret : Bool) (s' : State ℚ),
      SetRawInput stateNoNormalize (some oneByOne) (some fourBinSpectrum)
          (some spectrumEightFour) (some spectrumFourZero) (some spectrumWideBin) 7
          = some (ret, s') →
        s'.fSpectrumIn = some fourBinSpectrum ∧ s'.fSpectrumOut = some spectrumEightFour :=
  ⟨rfl, by decide,
    SetRawInput_without_normalization stateNoNormalize (some oneByOne) (some fourBinSpectrum)
      (some spectrumEightFour) (some spectrumFourZero) (some spectrumWideBin) 7 rfl (by decide)⟩

/-! ### The fit range of the smoothing calls -/

/-- C23 (code evaluated at the failing input): the `kNone` case of `Make`
always reports the plane converged, but it passes `fFitMin` both as lower and
as upper end of the fit range: with the constructor's range (`60`, `105`,
`75`) and a fit that needs a range of positive length, the `kNone` case hands
on the spectrum unsmoothened (content `8` in bin `1`), while the call the
chi-square path makes, over `[fFitMin, fFitMax]`, smoothens it (content `0`). -/
theorem Make_kNone_fit_range :
    (∀ (Fit : TH1 ℚ → ℚ → ℚ → Int × (ℚ → ℚ → ℚ)) (fSmoothenSpectrum : Bool) (fit : FitRange ℚ)
        (counts : Bool) (h : TH1 ℚ),
      (Make_kNone Rat.sqrt Fit fSmoothenSpectrum fit counts h).1 = true) ∧
    (∀ (Fit : TH1 ℚ → ℚ → ℚ → Int × (ℚ → ℚ → ℚ)) (fit : FitRange ℚ) (counts : Bool) (h : TH1 ℚ),
      (Make_kNone Rat.sqrt Fit true fit counts h).2
        = some (SmoothenSpectrumFit Rat.sqrt Fit h fit.fFitMin fit.fFitMin fit.fFitStart counts)) ∧
    (Make_kNone Rat.sqrt fitNeedsRange true fitRangeDefault false spectrumWideBin).2.map
      (fun h => h.GetBinContent 1) = some 8 ∧
    (UnfoldSpectrumChi2_resizedJetPtLocal Rat.sqrt fitNeedsRange true fitRangeDefault false
      spectrumWideBin).GetBinContent 1 = 0 := by
  refine ⟨fun _ _ _ _ _ => rfl, fun _ _ _ _ => rfl, ?_, ?_⟩
  · simp [Make_kNone, SmoothenSpectrumFit, SmoothenSpectrum, fitNeedsRange, fitRangeDefault,
      TH1.GetBinContent, TH1.cell, spectrumWideBin]
  · have hres : UnfoldSpectrumChi2_resizedJetPtLocal Rat.sqrt fitNeedsRange true fitRangeDefault
        false spectrumWideBin
        = { spectrumWideBin with
            content := fun c =>
              if c < 2 ∧ spectrumWideBin.xaxis.GetBinCenter c > 75 then
                smoothContent spectrumWideBin.xaxis (fun _ _ => 0) false c
              else spectrumWideBin.content c
            error := fun c =>
              if c < 2 ∧ spectrumWideBin.xaxis.GetBinCenter c > 75
                  ∧ smoothContent spectrumWideBin.xaxis (fun _ _ => 0) false c > 0 then
                Rat.sqrt (smoothContent spectrumWideBin.xaxis (fun _ _ => 0) false c)
              else spectrumWideBin.error c } := by
      have hfit : fitNeedsRange spectrumWideBin 60 105 = (0, fun _ _ => 0) := by
        simp [fitNeedsRange]
        norm_num
      simp only [UnfoldSpectrumChi2_resizedJetPtLocal, SmoothenSpectrumFit, fitRangeDefault,
        if_true, hfit, SmoothenSpectrum]
      exact smooth_loop Rat.sqrt spectrumWideBin (fun _ _ => 0) 75 false 2 le_rfl
    rw [hres]
    simp [TH1.GetBinContent, TH1.cell, smoothContent, spectrumWideBin, TAxis.GetBinCenter]
    norm_num

/-! ### The orientation of the diagnostic ratio -/

/-- C25 (code evaluated at the failing input): for a measured spectrum with
content `8` and a refolded spectrum with content `4` in their one bin, the
graph `UnfoldSpectrumChi2` writes as `RatioRefoldedMeasured` has the value
`1/2`, which is refolded/measured, while measured/refolded is `2`, the value
of the graph of the SVD routines. -/
theorem UnfoldSpectrumChi2_ratio_orientation :
    (UnfoldSpectrumChi2_ratio Rat.sqrt (some spectrumFourZero) (some spectrumEightFour)
      oneBinBorders).map (fun gr => gr.map (fun p => p.y)) = some [1 / 2] ∧
    spectrumEightFour.GetBinContent 1 / spectrumFourZero.GetBinContent 1 = 2 ∧
    (UnfoldSpectrumSVD_ratio Rat.sqrt (some spectrumEightFour) (some spectrumFourZero)
      (-1)).map (fun gr => gr.map (fun p => p.y)) = some [2] := by
  refine ⟨?_, ?_, ?_⟩
  · simp [UnfoldSpectrumChi2_ratio, GetRatio, forLoop, TH1.GetNbinsX, TH1.FindBin,
      TAxis.FindBin, countLE, TAxis.GetBinCenter, TAxis.GetBinWidth, TH1.GetBinContent,
      TH1.GetBinError, TH1.cell, spectrumFourZero, spectrumEightFour, oneBinBorders,
      TArrayD.At, TArrayD.GetSize, toInt]
    norm_num
  · simp [TH1.GetBinContent, TH1.cell, spectrumFourZero, spectrumEightFour]
    norm_num
  · simp [UnfoldSpectrumSVD_ratio, GetRatio, forLoop, TH1.GetNbinsX, TH1.FindBin,
      TAxis.FindBin, countLE, TAxis.GetBinCenter, TAxis.GetBinWidth, TH1.GetBinContent,
      TH1.GetBinError, TH1.cell, spectrumFourZero, spectrumEightFour]
    norm_num

/-! ### The binning members across the SVD routines -/

/-- C26 (code evaluated at the failing input): with the chi-square prior, a
separate prior binning set and a chi-square unfolding that does not converge,
`UnfoldSpectrumSVD` and `UnfoldSpectrumSVDlegacy` return false and leave
`fBinsTrue` and `fBinsRec` pointing to the prior binning; with the configured
borders `0, 2, 4` and the prior borders `0, 1` the second border of `fBinsTrue`
is `1` on return, not `2`. -/
theorem UnfoldSpectrumSVD_binning_not_restored :
    (∀ (bt br pt pr : TArrayD ℚ) (u measuredPrior : Option (TH1 ℚ))
        (steps : Option (TH1 ℚ) → Bool),
      UnfoldSpectrumSVD .kPriorChi2 (fun _ _ => (false, u)) measuredPrior steps
          { fBinsTrue := some bt, fBinsRec := some br, fBinsTruePrior := some pt,
            fBinsRecPrior := some pr }
        = (false,
            { fBinsTrue := some pt, fBinsRec := some pr, fBinsTruePrior := some pt,
              fBinsRecPrior := some pr }) ∧
      UnfoldSpectrumSVDlegacy .kPriorChi2 (fun _ _ => (false, u)) measuredPrior steps
          { fBinsTrue := some bt, fBinsRec := some br, fBinsTruePrior := some pt,
            fBinsRecPrior := some pr }
        = (false,
            { fBinsTrue := some pt, fBinsRec := some pr, fBinsTruePrior := some pt,
              fBinsRecPrior := some pr })) ∧
    (UnfoldSpectrumSVD .kPriorChi2 (fun _ _ => (false, none)) none (fun _ => true)
        { fBinsTrue := some twoBinBorders, fBinsRec := some twoBinBorders,
          fBinsTruePrior := some oneBinBorders, fBinsRecPrior := some oneBinBorders }).2.fBinsTrue.map
      (fun a => a.At 1) = some 1 ∧
    twoBinBorders.At 1 = 2 := by
  refine ⟨fun _ _ _ _ _ _ _ => ⟨?_, ?_⟩, ?_, ?_⟩
  · simp [UnfoldSpectrumSVD, UnfoldSpectrumSVD_prior]
  · simp [UnfoldSpectrumSVDlegacy, UnfoldSpectrumSVD_prior]
  · simp [UnfoldSpectrumSVD, UnfoldSpectrumSVD_prior, oneBinBorders, TArrayD.At]
  · simp [twoBinBorders, TArrayD.At]

/-! ### ResetAliUnfolding -/

/-- C21: whatever the global state before the call, `ResetAliUnfolding` leaves
the correlation matrices and cached vectors null, step size `1`, precision
`1e-6`, maximum number of iterations `100000`, strategy `2` and the chi-square
and penalty values `0`; every static member it assigns has the same value
after the call for any two states before it; no fitter is left and `gMinuit`
is null or freshly created; the function is idempotent; and step 0 of
`UnfoldSpectrumChi2`, which starts with the reset, leaves the same static
members for any two states before it when called with the same arguments for
one of the suffixes `in`, `out`, `prior_in`, `prior_out`. -/
theorem ResetAliUnfolding_fixed {α γ : Type} [LinearOrderedField α] (newTMinuit : γ)
    (deleteFitter : γ → Option γ → Option γ) (g g' : FitGlobals α γ) :
    ((ResetAliUnfolding newTMinuit deleteFitter g).unfolding.fgCorrelationMatrix = none ∧
      (ResetAliUnfolding newTMinuit deleteFitter g).unfolding.fgCorrelationMatrixSquared = none ∧
      (ResetAliUnfolding newTMinuit deleteFitter g).unfolding.fgCorrelationCovarianceMatrix
        = none ∧
      (ResetAliUnfolding newTMinuit deleteFitter g).unfolding.fgCurrentESDVector = none ∧
      (ResetAliUnfolding newTMinuit deleteFitter g).unfolding.fgEntropyAPriori = none ∧
      (ResetAliUnfolding newTMinuit deleteFitter g).unfolding.fgEfficiency = none ∧
      (ResetAliUnfolding newTMinuit deleteFitter g).unfolding.fgMinuitStepSize = 1 ∧
      (ResetAliUnfolding newTMinuit deleteFitter g).unfolding.fgMinuitPrecision = 1 / 10 ^ 6 ∧
      (ResetAliUnfolding newTMinuit deleteFitter g).unfolding.fgMinuitMaxIterations = 100000 ∧
      (ResetAliUnfolding newTMinuit deleteFitter g).unfolding.fgMinuitStrategy = 2 ∧
      (ResetAliUnfolding newTMinuit deleteFitter g).unfolding.fChi2FromFit = 0 ∧
      (ResetAliUnfolding newTMinuit deleteFitter g).unfolding.fPenaltyVal = 0) ∧
    ({ (ResetAliUnfolding newTMinuit deleteFitter g).unfolding with
          fgMethodType := 0, fgRegularizationType := 0 }
      = { (ResetAliUnfolding newTMinuit deleteFitter g').unfolding with
          fgMethodType := 0, fgRegularizationType := 0 }) ∧
    ((ResetAliUnfolding newTMinuit deleteFitter g).fitter = none ∧
      ((ResetAliUnfolding newTMinuit deleteFitter g).gMinuit = none ∨
        (ResetAliUnfolding newTMinuit deleteFitter g).gMinuit = some newTMinuit)) ∧
    ResetAliUnfolding newTMinuit deleteFitter (ResetAliUnfolding newTMinuit deleteFitter g)
      = ResetAliUnfolding newTMinuit deleteFitter g ∧
    (∀ (kChi2Minimization kLogLog : Int) (suffix : String) (fBetaIn fBetaOut : α)
        (fBinsRec fBinsTrue : TArrayD α),
      UnfoldSpectrumChi2_setup newTMinuit deleteFitter kChi2Minimization kLogLog suffix
          fBetaIn fBetaOut fBinsRec fBinsTrue g
        = UnfoldSpectrumChi2_setup newTMinuit deleteFitter kChi2Minimization kLogLog suffix
          fBetaIn fBetaOut fBinsRec fBinsTrue (ResetAliUnfolding newTMinuit deleteFitter g) ∧
      (suffix ∈ ["in", "out", "prior_in", "prior_out"] →
        (UnfoldSpectrumChi2_setup newTMinuit deleteFitter kChi2Minimization kLogLog suffix
            fBetaIn fBetaOut fBinsRec fBinsTrue g).unfolding
          = (UnfoldSpectrumChi2_setup newTMinuit deleteFitter kChi2Minimization kLogLog suffix
            fBetaIn fBetaOut fBinsRec fBinsTrue g').unfolding)) := by
  have hidem : ResetAliUnfolding newTMinuit deleteFitter
      (ResetAliUnfolding newTMinuit deleteFitter g)
      = ResetAliUnfolding newTMinuit deleteFitter g := by
    simp only [ResetAliUnfolding, AliUnfolding.SetMinuitStepSize,
      AliUnfolding.SetMinuitPrecision, AliUnfolding.SetMinuitMaxIterations,
      AliUnfolding.SetMinuitStrategy, AliUnfolding.SetDebug, FitGlobals.mk.injEq, true_and]
    split_ifs <;> simp_all
  refine ⟨⟨rfl, rfl, rfl, rfl, rfl, rfl, rfl, rfl, rfl, rfl, rfl, rfl⟩, rfl, ⟨rfl, ?_⟩, hidem, ?_⟩
  · simp only [ResetAliUnfolding]
    split_ifs with h
    · exact Or.inr rfl
    · left
      simpa using h
  · intro kChi2Minimization kLogLog suffix fBetaIn fBetaOut fBinsRec fBinsTrue
    constructor
    · simp only [UnfoldSpectrumChi2_setup, hidem]
    · intro hs
      simp only [List.mem_cons, List.mem_singleton, List.mem_nil_iff, or_false] at hs
      rcases hs with h | h | h | h <;> subst h <;> rfl

/-- The C21 statement applied to a state a previous unfolding has left and to
a state in which nothing has run, for the suffix `in`. -/
theorem ResetAliUnfolding_fixed_witness :
    "in" ∈ ["in", "out", "prior_in", "prior_out"] ∧
    (UnfoldSpectrumChi2_setup () (fun _ _ => none) 0 8 "in" 2 3 twoBinBorders twoBinBorders
        globalsStale).unfolding
      = (UnfoldSpectrumChi2_setup () (fun _ _ => none) 0 8 "in" 2 3 twoBinBorders twoBinBorders
        globalsBlank).unfolding :=
  ⟨by simp,
    ((ResetAliUnfolding_fixed () (fun _ _ => none) globalsStale globalsBlank).2.2.2.2
      0 8 "in" 2 3 twoBinBorders twoBinBorders).2 (by simp)⟩

end AliJetFlowTools

namespace AliIsolationCut

/-! ### MakeIsolationCut -/

/-- C22 (code evaluated at the failing input): `MakeIsolationCut` never writes
`ptLead`, so on return it holds the value passed in.  With one track of
momentum `5` in the cone and `ptLead = 0` passed in, the leading momentum stored
in the candidate is `5` but `ptLead` is `0` on return; with an empty cone and
`ptLead = 100` passed in, the scans find no particle but the leading-particle
checks, made on the value passed in, set `nPart` and `nfrac` to `1`. -/
theorem MakeIsolationCut_ptLead_not_set :
    (∀ (cut : Members ℝ) (sqrt : ℝ → ℝ) (pi : ℝ) (pCandidate : Candidate ℝ)
        (plCTS plNe : Option (List (Particle ℝ))) (cellDensity coneptsumBkg ptLead : ℝ),
      (MakeIsolationCut cut sqrt pi pCandidate plCTS plNe cellDensity coneptsumBkg ptLead).ptLead
        = ptLead) ∧
    ((MakeIsolationCut (InitParameters ℝ) Real.sqrt Real.pi candidateTen (some [trackFive])
        (some []) 1 0 0).ChargedLeadPtInCone = 5 ∧
      (MakeIsolationCut (InitParameters ℝ) Real.sqrt Real.pi candidateTen (some [trackFive])
        (some []) 1 0 0).NeutralLeadPtInCone = 0 ∧
      (MakeIsolationCut (InitParameters ℝ) Real.sqrt Real.pi candidateTen (some [trackFive])
        (some []) 1 0 0).ptLead = 0) ∧
    ((MakeIsolationCut (InitParameters ℝ) Real.sqrt Real.pi candidateTen (some [])
        (some []) 1 0 100).ChargedLeadPtInCone = 0 ∧
      (MakeIsolationCut (InitParameters ℝ) Real.sqrt Real.pi candidateTen (some [])
        (some []) 1 0 100).NeutralLeadPtInCone = 0 ∧
      (MakeIsolationCut (InitParameters ℝ) Real.sqrt Real.pi candidateTen (some [])
        (some []) 1 0 100).nPart = 1 ∧
      (MakeIsolationCut (InitParameters ℝ) Real.sqrt Real.pi candidateTen (some [])
        (some []) 1 0 100).nfrac = 1) := by
  have hpi : ¬ Real.pi / 2 < 0 := not_lt.mpr (le_of_lt (half_pos Real.pi_pos))
  refine ⟨?_, ⟨?_, ?_, ?_⟩, ⟨?_, ?_, ?_, ?_⟩⟩
  · intro cut sqrt pi pCandidate plCTS plNe cellDensity coneptsumBkg ptLead
    rfl
  all_goals
    simp [MakeIsolationCut, CalculateTrackSignalInCone, CalculateCaloSignalInCone,
      InitParameters, candidateTen, trackFive, Radius, countInCone, Real.pi_pos,
      not_le.mpr Real.pi_pos, le_of_lt Real.pi_pos, hpi]
  all_goals norm_num

end AliIsolationCut
